import Mathlib

/-!
# ipcmd: interval arguments and semaphore operation lists

A shallow embedding of the argument handling of `ipcmd.c` (`get_interval`,
`get_interval_sem_op`, `get_interval_count`, `set_interval_sops`, `get_int_arg`,
the `setall` branch of `ipcmd_semctl` and the operand handling of `ipcmd_semop`).

Conventions of the embedding:

* a C string is the list of its characters before the terminating NUL; a
  `char *` into a string is the suffix that starts at the pointed character,
  and two pointers into the same string are equal when the suffixes have the
  same length;
* a call of `exit` is an `Except.error` carrying the diagnostic that precedes
  it; a store beyond a heap allocation is the error `heap_overflow`;
* `long` is 64 bits wide, `int` 32 bits, `short` 16 bits; `int` arithmetic that
  leaves the range wraps (two's complement).
-/

namespace Ipcmd

/-! ## Diagnostics -/

/-- The ways the modelled code leaves through `exit`, named after the message
printed, together with a store outside an allocated array. -/
inductive Failure where
  /-- `errno != 0` after `strtol`: `perror(...)`, `exit(EXIT_FAILURE)` -/
  | strtol_errno
  /-- "ipcmd: invalid argument: %s" (no integer where one is required) -/
  | invalid_argument
  /-- "ipcmd: argument (%li) out of valid range" -/
  | out_of_range
  /-- "upper bound of interval must be >= lower bound" -/
  | upper_below_lower
  /-- "ipcmd: invalid argument (%s)" (delimiter missing) -/
  | missing_delimiter
  /-- "ipcmd semop: sem_op (%li) out of valid range" -/
  | sem_op_out_of_range
  /-- "ipcmd semop: invalid argument: %s" after the flag test -/
  | invalid_flags
  /-- "ipcmd semctl setall: semval (%li) out of valid range" -/
  | semval_out_of_range
  /-- "ipcmd semop: invalid argument: %s" for text after a semval -/
  | trailing_characters
  /-- "ipcmd %s: invalid short integer argument" -/
  | invalid_short_argument
  /-- "ipcmd %s: integer argument (%lu) out of valid range" -/
  | short_out_of_range
  /-- "ipcmd: invalid integer argument" of get_unsigned_short_arg -/
  | invalid_unsigned_short_argument
  /-- "ipcmd %s: invalid integer argument" of get_int_arg -/
  | invalid_integer_argument
  /-- "ipcmd semctl setall: invalid number of semval arguments specified" -/
  | invalid_number_of_semvals
  /-- print_usage_and_exit -/
  | usage
  /-- semctl(semid, 0, IPC_STAT, arg) returned -1 -/
  | semctl_failed
  /-- a store at the given index, outside the allocated array -/
  | heap_overflow (index : Nat)
  /-- a loop that does not end -/
  | diverges
  deriving DecidableEq, Repr

deriving instance DecidableEq for Except

/-! ## The C library -/

/-- The terminating character of a C string. -/
def NUL : Char := Char.ofNat 0

/-- The character a pointer points at: the head of the suffix, NUL at the end. -/
def deref (p : List Char) : Char := p.headD NUL

/-- Function isspace of the C locale: space, \t, \n, \v, \f, \r. -/
def isspace (c : Char) : Bool :=
  c.toNat = 32 || (9 ≤ c.toNat && c.toNat ≤ 13)

/-- Function isdigit. -/
def isdigit (c : Char) : Bool := 48 ≤ c.toNat && c.toNat ≤ 57

/-- Value of a decimal digit character. -/
def digit_value (c : Char) : Nat := c.toNat - 48

def LONG_MAX : Int := 9223372036854775807
def LONG_MIN : Int := -9223372036854775808
def USHRT_MAX : Int := 65535
def SHRT_MAX : Int := 32767
def SHRT_MIN : Int := -32768

/-- The cast (unsigned short) of a long or int. -/
def cast_ushort (x : Int) : Nat := (x % 65536).toNat

/-- The cast (short) of a long or int. -/
def cast_short (x : Int) : Int := (x + 32768) % 65536 - 32768

/-- The cast (size_t) of an int (size_t is 64 bits wide). -/
def cast_size_t (x : Int) : Nat := (x % 18446744073709551616).toNat

/-- An int result brought back into 32 bits (two's complement). -/
def wrap_int (x : Int) : Int := (x + 2147483648) % 4294967296 - 2147483648

/-- Flag IPC_NOWAIT of sys/ipc.h (octal 04000). -/
def IPC_NOWAIT : Nat := 0x800
/-- Flag SEM_UNDO of sys/sem.h (octal 010000). -/
def SEM_UNDO : Nat := 0x1000

/-- The digit loop of strtol in base 10: reads digits, accumulating the value,
and stops at the first character that is not a digit. -/
def strtol_digits : List Char → Nat → Nat × List Char
  | [], acc => (acc, [])
  | c :: cs, acc =>
    if isdigit c then strtol_digits cs (10 * acc + digit_value c) else (acc, c :: cs)

/-- What a call strtol(nptr, &endptr, 10) leaves behind. -/
structure strtol_result where
  /-- the returned long -/
  val : Int
  /-- the suffix endptr points at -/
  endptr : List Char
  /-- errno was set (ERANGE) -/
  erange : Bool
  deriving DecidableEq, Repr

/-- Function strtol(nptr, &endptr, 10) of the C library: white space is skipped,
one optional sign is read, then decimal digits. Without a digit there is no
conversion: 0 is returned and endptr is nptr. A value outside long is clamped
and errno is set to ERANGE. -/
def strtol (nptr : List Char) : strtol_result :=
  let s := nptr.dropWhile isspace
  let neg : Bool := deref s = '-'
  let t := if deref s = '-' ∨ deref s = '+' then s.tail else s
  if isdigit (deref t) then
    let r := strtol_digits t 0
    let v : Int := if neg then -(r.1 : Int) else (r.1 : Int)
    if v > LONG_MAX then ⟨LONG_MAX, r.2, true⟩
    else if v < LONG_MIN then ⟨LONG_MIN, r.2, true⟩
    else ⟨v, r.2, false⟩
  else ⟨0, nptr, false⟩

/-- Function strchr(s, c) for a character c other than NUL: the suffix that
starts at the first occurrence of c. -/
def strchr : List Char → Char → Option (List Char)
  | [], _ => none
  | x :: xs, c => if x = c then some (x :: xs) else strchr xs c

/-- Function strcspn(s, reject): the length of the longest prefix of s that has
no character of reject. -/
def strcspn (s reject : List Char) : Nat :=
  (s.takeWhile fun c => !reject.contains c).length

/-! ## get_interval -/

/-- The second half of get_interval, entered when the lower bound is followed by
a colon: beginptr is the text after the colon. Returns the upper bound and the
pointer after it. -/
def get_interval_upper (beginptr : List Char) (lower_bound : Nat) :
    Except Failure (Nat × List Char) :=
  let r := strtol beginptr
  if r.erange then .error .strtol_errno
  else if r.endptr.length = beginptr.length then .error .invalid_argument
  else if r.val < 0 ∨ r.val > USHRT_MAX then .error .out_of_range
  else
    let upper_bound := cast_ushort r.val
    if upper_bound < lower_bound then .error .upper_below_lower
    else .ok (upper_bound, r.endptr)

/-- Function get_interval: parses lower_bound[:upper_bound] at the start of
interval_arg and requires the delimiter right after it. -/
def get_interval (interval_arg : List Char) (delimiter : Char) :
    Except Failure (Nat × Nat) :=
  let r := strtol interval_arg
  if r.erange then .error .strtol_errno
  else if r.endptr.length = interval_arg.length then .error .invalid_argument
  else if r.val < 0 ∨ r.val > USHRT_MAX then .error .out_of_range
  else
    let lower_bound := cast_ushort r.val
    let upper : Except Failure (Nat × List Char) :=
      if deref r.endptr = ':' then get_interval_upper r.endptr.tail lower_bound
      else .ok (lower_bound, r.endptr)
    match upper with
    | .error e => .error e
    | .ok (upper_bound, endptr) =>
      if deref endptr ≠ delimiter then .error .missing_delimiter
      else .ok (lower_bound, upper_bound)

/-! ## get_interval_sem_op -/

/-- Function get_interval_sem_op: the value and the flags after the first '='
of the argument; returns sem_op and sem_flg. -/
def get_interval_sem_op (arg : List Char) : Except Failure (Int × Nat) :=
  match strchr arg '=' with
  | none => .error .missing_delimiter
  | some p =>
    let beginptr := p.tail
    let r := strtol beginptr
    if r.erange then .error .strtol_errno
    else if r.endptr.length = beginptr.length then .error .invalid_argument
    else if r.val < SHRT_MIN ∨ r.val > SHRT_MAX then .error .sem_op_out_of_range
    else if strcspn r.endptr ['n', 'u'] ≠ 0 then .error .invalid_flags
    else
      let sem_flg := 0
      let sem_flg := if (strchr r.endptr 'n').isSome then sem_flg ||| IPC_NOWAIT else sem_flg
      let sem_flg := if (strchr r.endptr 'u').isSome then sem_flg ||| SEM_UNDO else sem_flg
      .ok (cast_short r.val, sem_flg)

/-! ## get_interval_semval and the plain integer arguments -/

/-- Function get_interval_semval: the semval after the first '=' of the
argument, which must end the argument. -/
def get_interval_semval (arg : List Char) : Except Failure Nat :=
  match strchr arg '=' with
  | none => .error .missing_delimiter
  | some p =>
    let beginptr := p.tail
    let r := strtol beginptr
    if r.erange then .error .strtol_errno
    else if r.endptr.length = beginptr.length then .error .invalid_argument
    else if r.val < 0 ∨ r.val > USHRT_MAX then .error .semval_out_of_range
    else if deref r.endptr ≠ NUL then .error .trailing_characters
    else .ok (cast_ushort r.val)

/-- Function get_short_arg: the argument must be, entirely, an integer in
[SHRT_MIN, SHRT_MAX]. -/
def get_short_arg (short_arg : List Char) : Except Failure Int :=
  let r := strtol short_arg
  if r.erange then .error .strtol_errno
  else if r.endptr.length = short_arg.length ∨ deref r.endptr ≠ NUL then
    .error .invalid_short_argument
  else if r.val < SHRT_MIN ∨ r.val > SHRT_MAX then .error .short_out_of_range
  else .ok (cast_short r.val)

/-- Function get_unsigned_short_arg: the argument must be, entirely, an integer
in [0, USHRT_MAX]. -/
def get_unsigned_short_arg (unsigned_short_arg : List Char) : Except Failure Nat :=
  let r := strtol unsigned_short_arg
  if r.erange = true ∨ r.endptr.length = unsigned_short_arg.length ∨ deref r.endptr ≠ NUL then
    .error .invalid_unsigned_short_argument
  else if r.val < 0 ∨ r.val > USHRT_MAX then .error .out_of_range
  else .ok (cast_ushort r.val)

/-- Function get_int_arg: the argument must be, entirely, an integer that
strtol reads without setting errno; the long is then converted by the cast
(int)arg, with no test of its range. A long has 64 bits and an int 32, and the
cast keeps the low 32 bits in two's complement. -/
def get_int_arg (int_arg : List Char) : Except Failure Int :=
  let r := strtol int_arg
  if r.erange then .error .strtol_errno
  else if r.endptr.length = int_arg.length ∨ deref r.endptr ≠ NUL then
    .error .invalid_integer_argument
  else .ok (wrap_int r.val)

/-! ## get_interval_count and set_interval_sops -/

/-- Type struct sembuf of sys/sem.h. -/
structure sembuf where
  sem_num : Nat
  sem_op : Int
  sem_flg : Nat
  deriving DecidableEq, Repr

/-- The block malloc returns for n elements: every element is indeterminate,
written none. -/
def malloc {α : Type} (n : Nat) : List (Option α) := List.replicate n none

/-- The store a[i] = v into a heap array; outside the allocation it is the
failure heap_overflow. -/
def store {α : Type} (a : List (Option α)) (i : Nat) (v : α) :
    Except Failure (List (Option α)) :=
  if i < a.length then .ok (a.set i (some v)) else .error (.heap_overflow i)

/-- Function get_interval_count: the sum of the cardinalities of the intervals
of the arguments; the second argument is the running count. The sum stays far
below the size_t limit for any argument vector, so the additions do not wrap. -/
def get_interval_count : List (List Char) → Nat → Except Failure Nat
  | [], count => .ok count
  | arg :: interval_argv, count =>
    match get_interval arg '=' with
    | .error e => .error e
    | .ok (lower_bound, upper_bound) =>
      get_interval_count interval_argv
        (count + cast_size_t ((upper_bound : Int) - (lower_bound : Int) + 1))

/-- The inner loop of set_interval_sops,
for (sem = sem_num_lbound; sem <= sem_num_ubound; sem++, nsops++);
the first argument is the number of iterations left, sem_num_ubound + 1 - sem. -/
def set_interval_sops_inner (sem_op : Int) (sem_flg : Nat) :
    Nat → Nat → List (Option sembuf) → Nat → Except Failure (List (Option sembuf) × Nat)
  | 0, _, sops, nsops => .ok (sops, nsops)
  | left + 1, sem, sops, nsops =>
    match store sops nsops ⟨cast_ushort sem, sem_op, sem_flg⟩ with
    | .error e => .error e
    | .ok sops => set_interval_sops_inner sem_op sem_flg left (sem + 1) sops (nsops + 1)

/-- The outer loop of set_interval_sops over the arguments, from the state
(sops, nsops). -/
def set_interval_sops_from (sem_flg_additions : Nat) :
    List (List Char) → List (Option sembuf) → Nat →
    Except Failure (List (Option sembuf) × Nat)
  | [], sops, nsops => .ok (sops, nsops)
  | arg :: argv, sops, nsops =>
    match get_interval arg '=' with
    | .error e => .error e
    | .ok (sem_num_lbound, sem_num_ubound) =>
      match get_interval_sem_op arg with
      | .error e => .error e
      | .ok (sem_op, sem_flg) =>
        let sem_flg := sem_flg ||| sem_flg_additions
        match set_interval_sops_inner sem_op sem_flg (sem_num_ubound + 1 - sem_num_lbound)
            sem_num_lbound sops nsops with
        | .error e => .error e
        | .ok (sops, nsops) => set_interval_sops_from sem_flg_additions argv sops nsops

/-- Function set_interval_sops: fills the array sops from the interval
arguments and returns it with nsops, the number of operations stored. -/
def set_interval_sops (argv : List (List Char)) (sops : List (Option sembuf))
    (sem_flg_additions : Nat) : Except Failure (List (Option sembuf) × Nat) :=
  set_interval_sops_from sem_flg_additions argv sops 0

/-! ## ipcmd semctl setall -/

/-- The first loop of the setall branch: for every argument the interval is
read, semval_count grows by its cardinality and sem_num_sum by the closed form
of the sum of its numbers, all in int arithmetic. -/
def setall_count_sum : List (List Char) → Int → Int → Except Failure (Int × Int)
  | [], semval_count, sem_num_sum => .ok (semval_count, sem_num_sum)
  | arg :: argv, semval_count, sem_num_sum =>
    match get_interval arg '=' with
    | .error e => .error e
    | .ok (sem_num_lbound, sem_num_ubound) =>
      let semval_count :=
        wrap_int (semval_count + wrap_int ((sem_num_ubound : Int) - (sem_num_lbound : Int) + 1))
      let sem_num_sum :=
        wrap_int (sem_num_sum +
          wrap_int (Int.tdiv (wrap_int (((sem_num_ubound : Int) + 1) * (sem_num_ubound : Int))) 2 -
                    Int.tdiv (wrap_int ((sem_num_lbound : Int) * ((sem_num_lbound : Int) - 1))) 2))
      setall_count_sum argv semval_count sem_num_sum

/-- The test that follows the first loop: both accumulators must agree with the
number of semaphores of the set. -/
def setall_check (argv : List (List Char)) (sem_nsems : Nat) : Except Failure Unit :=
  match setall_count_sum argv 0 0 with
  | .error e => .error e
  | .ok (semval_count, sem_num_sum) =>
    if semval_count ≠ (sem_nsems : Int) ∨
       sem_num_sum ≠ Int.tdiv (wrap_int ((sem_nsems : Int) * ((sem_nsems : Int) - 1))) 2 then
      .error .invalid_number_of_semvals
    else .ok ()

/-- The term the first loop adds to sem_num_sum for one interval,
((int)sem_num_ubound+1)*sem_num_ubound/2 - ((int)sem_num_lbound)*(sem_num_lbound-1)/2,
in int arithmetic. -/
def setall_sum_term (sem_num_lbound sem_num_ubound : Nat) : Int :=
  wrap_int (Int.tdiv (wrap_int (((sem_num_ubound : Int) + 1) * (sem_num_ubound : Int))) 2 -
            Int.tdiv (wrap_int ((sem_num_lbound : Int) * ((sem_num_lbound : Int) - 1))) 2)

/-- The control of the innermost loop of the fill pass alone,
for (unsigned short sem_num = sem_num_lbound; sem_num <= sem_num_ubound; sem_num++),
with the number of times its body has been run as a third argument, returned
when the condition fails: the first argument bounds the number of tests of the
condition, and none is the answer when that bound is met before the condition
fails. -/
def setall_fill_iterations (sem_num_ubound : Nat) : Nat → Nat → Nat → Option Nat
  | 0, _, _ => none
  | fuel + 1, sem_num, iterations =>
    if sem_num ≤ sem_num_ubound then
      setall_fill_iterations sem_num_ubound fuel ((sem_num + 1) % 65536) (iterations + 1)
    else some iterations

/-- The innermost loop of the fill pass,
for (unsigned short sem_num = sem_num_lbound; sem_num <= sem_num_ubound; sem_num++)
  arg.array[sem_num] = get_interval_semval(argv[i]);
the counter is 16 bits wide and wraps. The first argument bounds the number of
iterations: the counter has 65536 values, so a run of more iterations than that
never ends, which is the failure diverges. -/
def setall_fill_interval (arg : List Char) (sem_num_ubound : Nat) :
    Nat → Nat → List (Option Nat) → Except Failure (List (Option Nat))
  | 0, _, _ => .error .diverges
  | fuel + 1, sem_num, array =>
    if sem_num ≤ sem_num_ubound then
      match get_interval_semval arg with
      | .error e => .error e
      | .ok semval =>
        match store array sem_num semval with
        | .error e => .error e
        | .ok array =>
          setall_fill_interval arg sem_num_ubound fuel ((sem_num + 1) % 65536) array
    else .ok array

/-- The second loop of the setall branch: every argument is read again and its
semval stored at each number of its interval. -/
def setall_fill : List (List Char) → List (Option Nat) → Except Failure (List (Option Nat))
  | [], array => .ok array
  | arg :: argv, array =>
    match get_interval arg '=' with
    | .error e => .error e
    | .ok (sem_num_lbound, sem_num_ubound) =>
      match setall_fill_interval arg sem_num_ubound 65537 sem_num_lbound array with
      | .error e => .error e
      | .ok array => setall_fill argv array

/-- The loop of the single value form,
for (unsigned short i = 0; i < sem_nsems; i++) arg.array[i] = semval;
the first argument is the number of iterations left, sem_nsems - i. -/
def setall_fill_all (semval : Nat) :
    Nat → Nat → List (Option Nat) → Except Failure (List (Option Nat))
  | 0, _, array => .ok array
  | left + 1, i, array =>
    match store array i semval with
    | .error e => .error e
    | .ok array => setall_fill_all semval left (i + 1) array

/-- The setall branch of ipcmd_semctl from its first statement to the call
semctl(semid, 0, SETALL, arg): operands are the arguments after the word setall,
stat is the outcome of semctl(semid, 0, IPC_STAT, arg), the number of semaphores
of the set or a failure. The result is the array handed to SETALL. -/
def ipcmd_semctl_setall (operands : List (List Char)) (stat : Except Failure Nat) :
    Except Failure (List (Option Nat)) :=
  if operands = [] then .error .usage
  else
    match stat with
    | .error e => .error e
    | .ok nsems =>
      let sem_nsems := cast_ushort (cast_short nsems)
      let array : List (Option Nat) := malloc sem_nsems
      if operands.length = 1 ∧ strchr (operands.headD []) '=' = none then
        match get_unsigned_short_arg (operands.headD []) with
        | .error e => .error e
        | .ok semval => setall_fill_all semval sem_nsems 0 array
      else
        match setall_check operands sem_nsems with
        | .error e => .error e
        | .ok _ => setall_fill operands array

/-! ## ipcmd semop -/

/-- The switch of the option loop of ipcmd_semop for the options n and u: the
flag word sem_flg after option character c. -/
def semop_option_flag (sem_flg : Nat) (c : Char) : Nat :=
  if c = 'n' then sem_flg ||| IPC_NOWAIT
  else if c = 'u' then sem_flg ||| SEM_UNDO
  else sem_flg

/-- The search for the command argument in the interval form,
for (opt = optind+1; opt < argc; opt++) if (argv[opt] is ":") ...;
indexes count from optind, the first argument is the number of iterations
left, argc - opt. The result is command_arg, 0 when there is no ":". -/
def semop_command_arg (argv : List (List Char)) : Nat → Nat → Except Failure Nat
  | 0, _ => .ok 0
  | left + 1, opt =>
    if argv.getD opt [] = [':'] then
      if opt + 1 = argv.length then .error .usage else .ok (opt + 1)
    else semop_command_arg argv left (opt + 1)

/-- The loop of the whole set form,
for (unsigned short sem_num = 0; sem_num < nsops; sem_num++) sops[sem_num] = ...;
the counter is 16 bits wide and wraps. The first argument bounds the number of
iterations: the counter has 65536 values, so a run of more iterations than that
never ends, which is the failure diverges. -/
def semop_fill_all (sem_op : Int) (sem_flg : Nat) (nsops : Nat) :
    Nat → Nat → List (Option sembuf) → Except Failure (List (Option sembuf))
  | 0, _, _ => .error .diverges
  | fuel + 1, sem_num, sops =>
    if sem_num < nsops then
      match store sops sem_num ⟨sem_num, sem_op, sem_flg⟩ with
      | .error e => .error e
      | .ok sops => semop_fill_all sem_op sem_flg nsops fuel ((sem_num + 1) % 65536) sops
    else .ok sops

/-- What ipcmd_semop has ready when it calls semop: the array sops, the count
nsops, and the command to run afterwards, if any. -/
structure semop_request where
  sops : List (Option sembuf)
  nsops : Nat
  command : Option (List (List Char))
  deriving DecidableEq, Repr

/-- Function ipcmd_semop from the label process_arguments to the call of semop,
the look-up of semid apart: sem_flg is the flag word left by the options,
operands are the arguments from argv[optind] on, stat is the outcome of
semctl(semid, 0, IPC_STAT, arg), the number of semaphores of the set or a
failure (only the whole set form asks for it). -/
def ipcmd_semop_operands (sem_flg : Nat) (operands : List (List Char))
    (stat : Except Failure Nat) : Except Failure semop_request :=
  match operands with
  | [] => .error .usage
  | first :: _ =>
    if (strchr first '=').isSome then
      match semop_command_arg operands (operands.length - 1) 1 with
      | .error e => .error e
      | .ok command_arg =>
        let interval_argc := if command_arg > 0 then command_arg - 1 else operands.length
        match get_interval_count (operands.take interval_argc) 0 with
        | .error e => .error e
        | .ok nsops =>
          match set_interval_sops (operands.take interval_argc) (malloc nsops) sem_flg with
          | .error e => .error e
          | .ok (sops, _) =>
            .ok ⟨sops, nsops, if command_arg > 0 then some (operands.drop command_arg) else none⟩
    else
      let command_arg :=
        if 2 < operands.length ∧ operands.getD 1 [] = [':'] then 2 else 0
      if command_arg = 0 ∧ operands.length ≠ 1 then .error .usage
      else
        match get_short_arg first with
        | .error e => .error e
        | .ok sem_op =>
          match stat with
          | .error e => .error e
          | .ok nsops =>
            match semop_fill_all sem_op sem_flg nsops 65537 0 (malloc nsops) with
            | .error e => .error e
            | .ok sops =>
              .ok ⟨sops, nsops, if command_arg > 0 then some (operands.drop command_arg) else none⟩

/-! ## Notions the statements are written in -/

/-- A numeral: a nonempty string of decimal digits. -/
def is_numeral (ds : List Char) : Prop := ds ≠ [] ∧ ∀ c ∈ ds, isdigit c = true

instance (ds : List Char) : Decidable (is_numeral ds) := by
  unfold is_numeral; infer_instance

/-- The number a string of decimal digits denotes. -/
def numeral_value (ds : List Char) : Nat :=
  ds.foldl (fun acc c => 10 * acc + digit_value c) 0

/-- A sign: nothing, a minus or a plus. -/
def is_sign (sg : List Char) : Prop := sg = [] ∨ sg = ['-'] ∨ sg = ['+']

instance (sg : List Char) : Decidable (is_sign sg) := by
  unfold is_sign; infer_instance

/-- The integer denoted by a sign and a string of digits. -/
def signed_value (sg ds : List Char) : Int :=
  if sg = ['-'] then -(numeral_value ds : Int) else (numeral_value ds : Int)

/-- An integer stands at the start of the string: after white space and at
most one sign there is a digit. -/
def starts_with_integer (s : List Char) : Bool :=
  match s.dropWhile isspace with
  | [] => false
  | c :: t => isdigit c || ((c = '-' || c = '+') && isdigit (deref t))

/-- The text that follows the interval at the start of arg: what is left after
the first integer, or, when a colon follows that integer, what is left after
the integer behind the colon. -/
def after_interval (arg : List Char) : List Char :=
  let p := (strtol arg).endptr
  if deref p = ':' then (strtol p.tail).endptr else p

/-- What the two parsers read from one interval token: the range, the value
and the flags. -/
structure interval_op where
  lower : Nat
  upper : Nat
  sem_op : Int
  sem_flg : Nat
  deriving DecidableEq, Repr

/-- Both parsers succeed on the token and read t from it. -/
def parses (arg : List Char) (t : interval_op) : Prop :=
  get_interval arg '=' = .ok (t.lower, t.upper) ∧
  get_interval_sem_op arg = .ok (t.sem_op, t.sem_flg)

instance (arg : List Char) (t : interval_op) : Decidable (parses arg t) := by
  unfold parses; infer_instance

/-- The operations one token stands for: one entry for each semaphore number
lower, lower + 1, ..., upper, in this order, each with the value of the token
and its flags joined with the additions. -/
def expand (additions : Nat) (t : interval_op) : List sembuf :=
  (List.range' t.lower (t.upper + 1 - t.lower)).map
    fun n => ⟨n, t.sem_op, t.sem_flg ||| additions⟩

/-- The ranges are a set-partition of [0, n): every number below n lies in
exactly one of them, and every one of them is a range (lower <= upper) that
holds no number outside [0, n). -/
def is_partition (ranges : List (Nat × Nat)) (n : Nat) : Prop :=
  (∀ i, i < n → (ranges.filter fun r => r.1 ≤ i ∧ i ≤ r.2).length = 1) ∧
  (∀ r ∈ ranges, r.1 ≤ r.2 ∧ r.2 < n)

instance (ranges : List (Nat × Nat)) (n : Nat) : Decidable (is_partition ranges n) := by
  unfold is_partition; infer_instance

/-- The closed form the setall check uses for 0 + 1 + ... + (x - 1), as the
int arithmetic of the code computes it: x * (x - 1) / 2. -/
def int_triangle (x : Nat) : Int := Int.tdiv (wrap_int ((x : Int) * ((x : Int) - 1))) 2

/-- The string is, entirely, a decimal integer of value v in the form strtol
reads: white space (possibly none), one sign (possibly none), a numeral, and
nothing after it. -/
def is_decimal_integer (s : List Char) (v : Int) : Prop :=
  ∃ ws sg ds, s = ws ++ sg ++ ds ∧ (∀ c ∈ ws, isspace c = true) ∧ is_sign sg ∧
    is_numeral ds ∧ v = signed_value sg ds

/-- The ranges of the tokens, in the order given, are gap-free and do not
overlap from start to n: the first begins at start, each next one begins right
after the one before it ends, and the last ends at n - 1. With start = 0 the
ranges are a partition of [0, n) given in ascending order. -/
def covers_from : Nat → List interval_op → Nat → Bool
  | start, [], n => start == n
  | start, t :: ts, n =>
    t.lower == start && decide (t.lower ≤ t.upper) && covers_from (t.upper + 1) ts n

/-- No two tokens next to each other carry the same payload: they differ in
sem_op or in the flag word compiled from sem_flg and the additions. -/
def payloads_differ (additions : Nat) : List interval_op → Bool
  | t :: u :: ts =>
    decide (t.sem_op ≠ u.sem_op ∨ t.sem_flg ||| additions ≠ u.sem_flg ||| additions) &&
      payloads_differ additions (u :: ts)
  | _ => true

/-- The ranges re-derived from a list of operations by grouping maximal runs of
entries with consecutive semaphore numbers and equal payload (sem_op and
sem_flg): every run becomes one range with that payload. -/
def regroup : List sembuf → List interval_op
  | [] => []
  | e :: es =>
    match regroup es with
    | [] => [⟨e.sem_num, e.sem_num, e.sem_op, e.sem_flg⟩]
    | g :: gs =>
      if g.lower = e.sem_num + 1 ∧ g.sem_op = e.sem_op ∧ g.sem_flg = e.sem_flg then
        ⟨e.sem_num, g.upper, g.sem_op, g.sem_flg⟩ :: gs
      else ⟨e.sem_num, e.sem_num, e.sem_op, e.sem_flg⟩ :: g :: gs

/-! ## The run of ipcmd semop and of ipcmd semctl setall -/

/-- Status EXIT_FAILURE of stdlib.h. -/
def EXIT_FAILURE : Nat := 1

/-- The values of errno the code tells apart after semop. -/
inductive errno_value where
  | EAGAIN
  | E2BIG
  | EACCES
  | EFBIG
  | EIDRM
  | EINTR
  | EINVAL
  | ENOSPC
  | ERANGE
  | other (n : Nat)
  deriving DecidableEq, Repr

/-- What a call of semop returns: 0, or -1 with errno set. -/
inductive semop_outcome where
  | success
  | failed (errno : errno_value)
  deriving DecidableEq, Repr

/-- The calls into the kernel the two commands make. -/
inductive kernel_call where
  /-- semctl(semid, 0, IPC_STAT, arg) -/
  | semctl_IPC_STAT
  /-- semctl(semid, 0, SETALL, arg) with the array -/
  | semctl_SETALL (array : List (Option Nat))
  /-- semop(semid, sops, nsops) -/
  | semop (sops : List (Option sembuf)) (nsops : Nat)
  /-- execvp(argv[command_arg], &argv[command_arg]) -/
  | execvp (command : List (List Char))
  deriving DecidableEq, Repr

/-- How a run ends: the process exits with a status (exit, or the return of
main), its image is replaced by the command, or it runs into a store outside an
array or a loop without end. -/
inductive ending where
  | exit (status : Nat)
  | replaced (command : List (List Char))
  | fault (failure : Failure)
  deriving DecidableEq, Repr

/-- A run: the kernel calls made, in order, and how the run ends. -/
structure run where
  calls : List kernel_call
  ending : ending
  deriving DecidableEq, Repr

/-- The end of a run that leaves through a failure: every diagnostic is followed
by exit(EXIT_FAILURE). -/
def ending_of (failure : Failure) : ending :=
  match failure with
  | .heap_overflow i => .fault (.heap_overflow i)
  | .diverges => .fault .diverges
  | _ => .exit EXIT_FAILURE

/-- The end of ipcmd_semop, from the call of semop on: calls are the kernel
calls made before, applied is what semop returns, launched tells whether execvp
succeeds when it is called. The return to main, which returns 0, is the exit
with status 0. -/
def semop_finish (calls : List kernel_call) (request : semop_request)
    (applied : semop_outcome) (launched : Bool) : run :=
  let calls := calls ++ [.semop request.sops request.nsops]
  match applied with
  | .failed errno =>
    if errno = .EAGAIN then ⟨calls, .exit 2⟩ else ⟨calls, .exit EXIT_FAILURE⟩
  | .success =>
    match request.command with
    | none => ⟨calls, .exit 0⟩
    | some command =>
      if launched then ⟨calls ++ [.execvp command], .replaced command⟩
      else ⟨calls ++ [.execvp command], .exit EXIT_FAILURE⟩

/-- Function ipcmd_semop from the label process_arguments to its end, the
look-up of semid apart, with the kernel calls it makes: the arguments are those
of ipcmd_semop_operands, and applied and launched those of semop_finish. -/
def ipcmd_semop_run (sem_flg : Nat) (operands : List (List Char))
    (stat : Except Failure Nat) (applied : semop_outcome) (launched : Bool) : run :=
  match operands with
  | [] => ⟨[], ending_of .usage⟩
  | first :: _ =>
    if (strchr first '=').isSome then
      match semop_command_arg operands (operands.length - 1) 1 with
      | .error e => ⟨[], ending_of e⟩
      | .ok command_arg =>
        let interval_argc := if command_arg > 0 then command_arg - 1 else operands.length
        match get_interval_count (operands.take interval_argc) 0 with
        | .error e => ⟨[], ending_of e⟩
        | .ok nsops =>
          match set_interval_sops (operands.take interval_argc) (malloc nsops) sem_flg with
          | .error e => ⟨[], ending_of e⟩
          | .ok (sops, _) =>
            semop_finish []
              ⟨sops, nsops, if command_arg > 0 then some (operands.drop command_arg) else none⟩
              applied launched
    else
      let command_arg :=
        if 2 < operands.length ∧ operands.getD 1 [] = [':'] then 2 else 0
      if command_arg = 0 ∧ operands.length ≠ 1 then ⟨[], ending_of .usage⟩
      else
        match get_short_arg first with
        | .error e => ⟨[], ending_of e⟩
        | .ok sem_op =>
          match stat with
          | .error e => ⟨[.semctl_IPC_STAT], ending_of e⟩
          | .ok nsops =>
            match semop_fill_all sem_op sem_flg nsops 65537 0 (malloc nsops) with
            | .error e => ⟨[.semctl_IPC_STAT], ending_of e⟩
            | .ok sops =>
              semop_finish [.semctl_IPC_STAT]
                ⟨sops, nsops, if command_arg > 0 then some (operands.drop command_arg) else none⟩
                applied launched

/-- The setall branch of ipcmd_semctl to its end, with the kernel calls it
makes: IPC_STAT is asked right after the test for missing operands, the array
is then prepared as in ipcmd_semctl_setall, and set_fails tells whether the call
with SETALL returns -1. -/
def ipcmd_semctl_setall_run (operands : List (List Char)) (stat : Except Failure Nat)
    (set_fails : Bool) : run :=
  if operands = [] then ⟨[], ending_of .usage⟩
  else
    match stat with
    | .error e => ⟨[.semctl_IPC_STAT], ending_of e⟩
    | .ok nsems =>
      match ipcmd_semctl_setall operands (.ok nsems) with
      | .error e => ⟨[.semctl_IPC_STAT], ending_of e⟩
      | .ok array =>
        ⟨[.semctl_IPC_STAT, .semctl_SETALL array],
          if set_fails then .exit EXIT_FAILURE else .exit 0⟩

/-- The option loop of ipcmd_semop on the option characters getopt returns, in
order: n and u set their flag, s and an unknown option leave the flag word as
it is, a digit ends the loop (goto process_arguments). The result is the flag
word sem_flg. -/
def semop_option_loop : List Char → Nat → Nat
  | [], sem_flg => sem_flg
  | c :: cs, sem_flg =>
    if isdigit c then sem_flg else semop_option_loop cs (semop_option_flag sem_flg c)

/-- What the interval form of ipcmd_semop hands to semop once the operation
tokens and the command are told apart: the count of the first pass, the array
of that size filled by the second pass, and the command. -/
def semop_interval_request (sem_flg : Nat) (tokens : List (List Char))
    (command : Option (List (List Char))) : Except Failure semop_request :=
  match get_interval_count tokens 0 with
  | .error e => .error e
  | .ok nsops =>
    match set_interval_sops tokens (malloc nsops) sem_flg with
    | .error e => .error e
    | .ok (sops, _) => .ok ⟨sops, nsops, command⟩

/-- INT_MAX and INT_MIN of a 32 bit int. -/
def INT_MAX : Int := 2147483647
def INT_MIN : Int := -2147483648

/-- The sum sem_num_lbound + ... + sem_num_ubound of the numbers of a range. -/
def range_sum (lower upper : Nat) : Int :=
  ((List.range' lower (upper + 1 - lower)).map fun (i : Nat) => (i : Int)).sum

/-- The range and the semval that the setall branch reads from an argument. -/
structure interval_semval where
  lower : Nat
  upper : Nat
  semval : Nat
  deriving DecidableEq, Repr

/-- An argument of setall yields a range and a semval when get_interval and
get_interval_semval both return. -/
def assigns (arg : List Char) (t : interval_semval) : Prop :=
  get_interval arg '=' = .ok (t.lower, t.upper) ∧ get_interval_semval arg = .ok t.semval

instance (arg : List Char) (t : interval_semval) : Decidable (assigns arg t) := by
  unfold assigns; infer_instance

/-! ## The C library: facts -/

@[simp] theorem deref_nil : deref [] = NUL := rfl

@[simp] theorem deref_cons (c : Char) (t : List Char) : deref (c :: t) = c := rfl

theorem isdigit_deref_nil : isdigit (deref []) = false := by decide

theorem isdigit_not_isspace {c : Char} (h : isdigit c = true) : isspace c = false := by
  simp only [isdigit, isspace, Bool.and_eq_true, Bool.or_eq_false_iff, decide_eq_true_eq,
    decide_eq_false_iff_not, Bool.and_eq_false_iff] at *
  omega

theorem isdigit_ne_minus {c : Char} (h : isdigit c = true) : c ≠ '-' := by
  rintro rfl; revert h; decide

theorem isdigit_ne_plus {c : Char} (h : isdigit c = true) : c ≠ '+' := by
  rintro rfl; revert h; decide

theorem isdigit_ne_colon {c : Char} (h : isdigit c = true) : c ≠ ':' := by
  rintro rfl; revert h; decide

theorem strtol_digits_append (ds rest : List Char) (acc : Nat)
    (hds : ∀ c ∈ ds, isdigit c = true) (hrest : isdigit (deref rest) = false) :
    strtol_digits (ds ++ rest) acc =
      (ds.foldl (fun acc c => 10 * acc + digit_value c) acc, rest) := by
  induction ds generalizing acc with
  | nil =>
    cases rest with
    | nil => rfl
    | cons c cs =>
      have : isdigit c = false := hrest
      simp [strtol_digits, this]
  | cons d ds ih =>
    have hd : isdigit d = true := hds d (List.mem_cons_self _ _)
    simp only [List.cons_append, strtol_digits, hd, if_true, List.foldl_cons]
    exact ih _ (fun c hc => hds c (List.mem_cons_of_mem _ hc))

theorem strtol_digits_length (t : List Char) (acc : Nat) :
    (strtol_digits t acc).2.length ≤ t.length := by
  induction t generalizing acc with
  | nil => simp [strtol_digits]
  | cons c cs ih =>
    simp only [strtol_digits]
    split
    · exact Nat.le_succ_of_le (ih _)
    · simp

theorem strtol_digits_length_lt (t : List Char) (acc : Nat) (h : isdigit (deref t) = true) :
    (strtol_digits t acc).2.length < t.length := by
  cases t with
  | nil => exact absurd h (by decide)
  | cons c cs =>
    have hc : isdigit c = true := h
    simp only [strtol_digits, hc, if_true, List.length_cons]
    exact Nat.lt_succ_of_le (strtol_digits_length cs _)

theorem strtol_no_integer (s : List Char) (h : starts_with_integer s = false) :
    strtol s = ⟨0, s, false⟩ := by
  unfold starts_with_integer at h
  unfold strtol
  cases hs : s.dropWhile isspace with
  | nil => simp [deref_nil, NUL, isdigit]
  | cons c t =>
    rw [hs] at h
    simp only [Bool.or_eq_false_iff, Bool.and_eq_false_iff] at h
    obtain ⟨h1, h2⟩ := h
    by_cases hsign : c = '-' ∨ c = '+'
    · have h3 : isdigit (deref t) = false := by
        rcases h2 with h2 | h2
        · rcases hsign with rfl | rfl <;> simp at h2
        · exact h2
      simp only [deref_cons, hsign, if_true, List.tail_cons, h3]
      simp
    · simp only [deref_cons, hsign, if_false, h1]
      simp

theorem strtol_integer_length (s : List Char) (h : starts_with_integer s = true) :
    (strtol s).endptr.length < s.length := by
  unfold starts_with_integer at h
  have hlen : (s.dropWhile isspace).length ≤ s.length :=
    (List.dropWhile_sublist _).length_le
  unfold strtol
  cases hs : s.dropWhile isspace with
  | nil => rw [hs] at h; simp at h
  | cons c t =>
    rw [hs] at h hlen
    simp only [List.length_cons] at hlen
    by_cases hsign : c = '-' ∨ c = '+'
    · have hc : isdigit c = false := by rcases hsign with rfl | rfl <;> decide
      have h3 : isdigit (deref t) = true := by
        simp only [hc, Bool.false_or, Bool.and_eq_true] at h
        exact h.2
      have := strtol_digits_length_lt t 0 h3
      simp only [deref_cons, hsign, if_true, List.tail_cons, h3]
      split_ifs <;> simp only <;> omega
    · have hc : isdigit c = true := by
        rcases Bool.or_eq_true_iff.mp h with h | h
        · exact h
        · simp only [Bool.and_eq_true, Bool.or_eq_true, decide_eq_true_eq] at h
          exact absurd h.1 hsign
      have := strtol_digits_length_lt (c :: t) 0 hc
      simp only [deref_cons, hsign, if_false, hc, if_true]
      simp only [List.length_cons] at this
      split_ifs <;> simp only <;> omega

theorem strtol_signed_numeral (sg ds rest : List Char) (hsg : is_sign sg)
    (hds : is_numeral ds) (hrest : isdigit (deref rest) = false) :
    strtol (sg ++ ds ++ rest) =
      if signed_value sg ds > LONG_MAX then ⟨LONG_MAX, rest, true⟩
      else if signed_value sg ds < LONG_MIN then ⟨LONG_MIN, rest, true⟩
      else ⟨signed_value sg ds, rest, false⟩ := by
  obtain ⟨hne, hall⟩ := hds
  cases ds with
  | nil => exact absurd rfl hne
  | cons d ds' =>
    have hd : isdigit d = true := hall d (List.mem_cons_self _ _)
    have hsp : isspace d = false := isdigit_not_isspace hd
    have hdig := strtol_digits_append (d :: ds') rest 0 hall hrest
    have hm : d ≠ '-' := isdigit_ne_minus hd
    have hp : d ≠ '+' := isdigit_ne_plus hd
    rcases hsg with rfl | rfl | rfl
    · unfold strtol signed_value numeral_value
      simp only [List.nil_append, List.cons_append, List.dropWhile_cons, hsp, deref_cons]
      simp only [List.cons_append] at hdig
      simp [hm, hp, hd, hdig]
    · have h1 : isspace '-' = false := by decide
      unfold strtol signed_value numeral_value
      simp only [List.cons_append, List.nil_append, List.dropWhile_cons, h1, deref_cons]
      simp only [List.cons_append] at hdig
      simp [hd, hdig]
    · have h1 : isspace '+' = false := by decide
      unfold strtol signed_value numeral_value
      simp only [List.cons_append, List.nil_append, List.dropWhile_cons, h1, deref_cons]
      simp only [List.cons_append] at hdig
      simp [hd, hdig]

theorem starts_with_integer_signed_numeral (sg ds rest : List Char) (hsg : is_sign sg)
    (hds : is_numeral ds) : starts_with_integer (sg ++ ds ++ rest) = true := by
  obtain ⟨hne, hall⟩ := hds
  cases ds with
  | nil => exact absurd rfl hne
  | cons d ds' =>
    have hd : isdigit d = true := hall d (List.mem_cons_self _ _)
    have hsp : isspace d = false := isdigit_not_isspace hd
    rcases hsg with rfl | rfl | rfl
    · simp [starts_with_integer, List.dropWhile_cons, hsp, hd]
    · have h1 : isspace '-' = false := by decide
      simp [starts_with_integer, List.dropWhile_cons, h1, hd, deref_cons]
    · have h1 : isspace '+' = false := by decide
      simp [starts_with_integer, List.dropWhile_cons, h1, hd, deref_cons]

/-! ## Casts -/

theorem cast_ushort_le (x : Int) : cast_ushort x ≤ 65535 := by
  unfold cast_ushort; omega

theorem cast_ushort_eq (x : Int) (h0 : 0 ≤ x) (h1 : x ≤ 65535) : cast_ushort x = x.toNat := by
  unfold cast_ushort; omega

theorem cast_ushort_natCast (n : Nat) (h : n ≤ 65535) : cast_ushort (n : Int) = n := by
  unfold cast_ushort; omega

theorem cast_short_eq (x : Int) (h0 : -32768 ≤ x) (h1 : x ≤ 32767) : cast_short x = x := by
  unfold cast_short; omega

/-! ## get_interval: facts -/

theorem get_interval_upper_bounds (beginptr : List Char) (lo up : Nat) (p : List Char)
    (h : get_interval_upper beginptr lo = .ok (up, p)) : lo ≤ up ∧ up ≤ 65535 := by
  unfold get_interval_upper at h
  simp only at h
  split_ifs at h with h1 h2 h3 h4
  simp only [Except.ok.injEq, Prod.mk.injEq] at h
  obtain ⟨rfl, -⟩ := h
  exact ⟨by omega, cast_ushort_le _⟩

theorem get_interval_bounds (arg : List Char) (delimiter : Char) (lo up : Nat)
    (h : get_interval arg delimiter = .ok (lo, up)) : lo ≤ up ∧ up ≤ 65535 := by
  unfold get_interval at h
  simp only at h
  split_ifs at h with h1 h2 h3 h4
  · cases hu : get_interval_upper (strtol arg).endptr.tail (cast_ushort (strtol arg).val) with
    | error e => rw [hu] at h; simp at h
    | ok r =>
      obtain ⟨up', p⟩ := r
      rw [hu] at h
      simp only at h
      split_ifs at h
      simp only [Except.ok.injEq, Prod.mk.injEq] at h
      obtain ⟨rfl, rfl⟩ := h
      exact get_interval_upper_bounds _ _ _ _ hu
  · simp only at h
    split_ifs at h
    simp only [Except.ok.injEq, Prod.mk.injEq] at h
    obtain ⟨rfl, rfl⟩ := h
    exact ⟨le_refl _, cast_ushort_le _⟩

theorem strtol_signed_numeral_in_long (sg ds rest : List Char) (hsg : is_sign sg)
    (hds : is_numeral ds) (hrest : isdigit (deref rest) = false)
    (h0 : LONG_MIN ≤ signed_value sg ds) (h1 : signed_value sg ds ≤ LONG_MAX) :
    strtol (sg ++ ds ++ rest) = ⟨signed_value sg ds, rest, false⟩ := by
  rw [strtol_signed_numeral sg ds rest hsg hds hrest]
  rw [if_neg (by omega), if_neg (by omega)]

theorem strtol_signed_numeral_erange (sg ds rest : List Char) (hsg : is_sign sg)
    (hds : is_numeral ds) (hrest : isdigit (deref rest) = false)
    (h : signed_value sg ds < LONG_MIN ∨ LONG_MAX < signed_value sg ds) :
    (strtol (sg ++ ds ++ rest)).erange = true := by
  rw [strtol_signed_numeral sg ds rest hsg hds hrest]
  have hmm : LONG_MIN < LONG_MAX := by decide
  split_ifs with h2 h3
  · rfl
  · rfl
  · exfalso; omega

theorem get_interval_single (sg ds rest : List Char) (delimiter : Char) (hsg : is_sign sg)
    (hds : is_numeral ds) (hrest : isdigit (deref rest) = false) (hcolon : deref rest ≠ ':')
    (h0 : 0 ≤ signed_value sg ds) (h1 : signed_value sg ds ≤ 65535) :
    get_interval (sg ++ ds ++ rest) delimiter =
      if deref rest ≠ delimiter then .error .missing_delimiter
      else .ok ((signed_value sg ds).toNat, (signed_value sg ds).toNat) := by
  have hlen := strtol_integer_length _ (starts_with_integer_signed_numeral sg ds rest hsg hds)
  have hst := strtol_signed_numeral_in_long sg ds rest hsg hds hrest
    (by simp only [LONG_MIN]; omega) (by simp only [LONG_MAX]; omega)
  rw [hst] at hlen
  simp only at hlen
  unfold get_interval
  simp only [hst, USHRT_MAX]
  rw [if_neg (by simp), if_neg (by omega), if_neg (by omega), if_neg hcolon]
  simp only [cast_ushort_eq _ h0 h1]

theorem get_interval_single_rejects (sg ds rest : List Char) (delimiter : Char)
    (hsg : is_sign sg) (hds : is_numeral ds) (hrest : isdigit (deref rest) = false)
    (h : signed_value sg ds < 0 ∨ 65535 < signed_value sg ds) :
    get_interval (sg ++ ds ++ rest) delimiter = .error .strtol_errno ∨
    get_interval (sg ++ ds ++ rest) delimiter = .error .out_of_range := by
  have hlen := strtol_integer_length _ (starts_with_integer_signed_numeral sg ds rest hsg hds)
  by_cases hl : LONG_MIN ≤ signed_value sg ds ∧ signed_value sg ds ≤ LONG_MAX
  · right
    have hst := strtol_signed_numeral_in_long sg ds rest hsg hds hrest hl.1 hl.2
    rw [hst] at hlen
    simp only at hlen
    unfold get_interval
    simp only [hst, USHRT_MAX]
    rw [if_neg (by simp), if_neg (by omega), if_pos (by omega)]
  · left
    have he := strtol_signed_numeral_erange sg ds rest hsg hds hrest (by omega)
    unfold get_interval
    simp only [he, if_true]

theorem signed_value_nil (ds : List Char) : signed_value [] ds = (numeral_value ds : Int) := by
  simp [signed_value]

theorem is_sign_nil : is_sign [] := Or.inl rfl

theorem get_interval_colon (ds tail : List Char) (delimiter : Char) (hds : is_numeral ds)
    (hN : numeral_value ds ≤ 65535) :
    get_interval (ds ++ ':' :: tail) delimiter =
      match get_interval_upper tail (numeral_value ds) with
      | .error e => .error e
      | .ok (upper_bound, endptr) =>
        if deref endptr ≠ delimiter then .error .missing_delimiter
        else .ok (numeral_value ds, upper_bound) := by
  have hrest : isdigit (deref (':' :: tail)) = false := by simp only [deref_cons]; decide
  have hlen := strtol_integer_length _
    (starts_with_integer_signed_numeral [] ds (':' :: tail) is_sign_nil hds)
  have hst := strtol_signed_numeral_in_long [] ds (':' :: tail) is_sign_nil hds hrest
    (by rw [signed_value_nil]; simp only [LONG_MIN]; omega)
    (by rw [signed_value_nil]; simp only [LONG_MAX]; omega)
  rw [signed_value_nil] at hst
  simp only [List.nil_append] at hst hlen
  rw [hst] at hlen
  simp only at hlen
  unfold get_interval
  simp only [hst, USHRT_MAX]
  rw [if_neg (by simp), if_neg (by omega), if_neg (by omega)]
  simp only [deref_cons, if_true, List.tail_cons, cast_ushort_natCast _ hN]

theorem get_interval_upper_numeral (sg ds rest : List Char) (lo : Nat) (hsg : is_sign sg)
    (hds : is_numeral ds) (hrest : isdigit (deref rest) = false)
    (h0 : 0 ≤ signed_value sg ds) (h1 : signed_value sg ds ≤ 65535) :
    get_interval_upper (sg ++ ds ++ rest) lo =
      if (signed_value sg ds).toNat < lo then .error .upper_below_lower
      else .ok ((signed_value sg ds).toNat, rest) := by
  have hlen := strtol_integer_length _ (starts_with_integer_signed_numeral sg ds rest hsg hds)
  have hst := strtol_signed_numeral_in_long sg ds rest hsg hds hrest
    (by simp only [LONG_MIN]; omega) (by simp only [LONG_MAX]; omega)
  rw [hst] at hlen
  simp only at hlen
  unfold get_interval_upper
  simp only [hst, USHRT_MAX]
  rw [if_neg (by simp), if_neg (by omega), if_neg (by omega)]
  simp only [cast_ushort_eq _ h0 h1]

theorem get_interval_upper_rejects (sg ds rest : List Char) (lo : Nat) (hsg : is_sign sg)
    (hds : is_numeral ds) (hrest : isdigit (deref rest) = false)
    (h : signed_value sg ds < 0 ∨ 65535 < signed_value sg ds) :
    get_interval_upper (sg ++ ds ++ rest) lo = .error .strtol_errno ∨
    get_interval_upper (sg ++ ds ++ rest) lo = .error .out_of_range := by
  have hlen := strtol_integer_length _ (starts_with_integer_signed_numeral sg ds rest hsg hds)
  by_cases hl : LONG_MIN ≤ signed_value sg ds ∧ signed_value sg ds ≤ LONG_MAX
  · right
    have hst := strtol_signed_numeral_in_long sg ds rest hsg hds hrest hl.1 hl.2
    rw [hst] at hlen
    simp only at hlen
    unfold get_interval_upper
    simp only [hst, USHRT_MAX]
    rw [if_neg (by simp), if_neg (by omega), if_pos (by omega)]
  · left
    have he := strtol_signed_numeral_erange sg ds rest hsg hds hrest (by omega)
    unfold get_interval_upper
    simp only [he, if_true]

theorem get_interval_pair (ds1 sg ds2 rest : List Char) (delimiter : Char)
    (hds1 : is_numeral ds1) (hN : numeral_value ds1 ≤ 65535) (hsg : is_sign sg)
    (hds2 : is_numeral ds2) (hrest : isdigit (deref rest) = false)
    (h0 : 0 ≤ signed_value sg ds2) (h1 : signed_value sg ds2 ≤ 65535) :
    get_interval (ds1 ++ ':' :: (sg ++ ds2 ++ rest)) delimiter =
      if (signed_value sg ds2).toNat < numeral_value ds1 then .error .upper_below_lower
      else if deref rest ≠ delimiter then .error .missing_delimiter
      else .ok (numeral_value ds1, (signed_value sg ds2).toNat) := by
  rw [get_interval_colon ds1 _ delimiter hds1 hN,
    get_interval_upper_numeral sg ds2 rest _ hsg hds2 hrest h0 h1]
  by_cases hlt : (signed_value sg ds2).toNat < numeral_value ds1
  · simp only [hlt, if_true]
  · simp only [hlt, if_false]

theorem get_interval_pair_rejects (ds1 sg ds2 rest : List Char) (delimiter : Char)
    (hds1 : is_numeral ds1) (hN : numeral_value ds1 ≤ 65535) (hsg : is_sign sg)
    (hds2 : is_numeral ds2) (hrest : isdigit (deref rest) = false)
    (h : signed_value sg ds2 < 0 ∨ 65535 < signed_value sg ds2) :
    get_interval (ds1 ++ ':' :: (sg ++ ds2 ++ rest)) delimiter = .error .strtol_errno ∨
    get_interval (ds1 ++ ':' :: (sg ++ ds2 ++ rest)) delimiter = .error .out_of_range := by
  rw [get_interval_colon ds1 _ delimiter hds1 hN]
  rcases get_interval_upper_rejects sg ds2 rest (numeral_value ds1) hsg hds2 hrest h with h | h
  · left; rw [h]
  · right; rw [h]

theorem get_interval_upper_endptr (beginptr : List Char) (lo up : Nat) (p : List Char)
    (h : get_interval_upper beginptr lo = .ok (up, p)) :
    p = (strtol beginptr).endptr ∧ starts_with_integer beginptr = true := by
  unfold get_interval_upper at h
  simp only at h
  split_ifs at h with h1 h2 h3 h4
  simp only [Except.ok.injEq, Prod.mk.injEq] at h
  refine ⟨h.2.symm, ?_⟩
  by_contra hn
  rw [strtol_no_integer beginptr (by simpa using hn)] at h2
  exact h2 rfl

theorem get_interval_ok_delimiter (arg : List Char) (delimiter : Char) (r : Nat × Nat)
    (h : get_interval arg delimiter = .ok r) :
    deref (after_interval arg) = delimiter ∧ starts_with_integer arg = true ∧
    (deref (strtol arg).endptr = ':' →
      starts_with_integer (strtol arg).endptr.tail = true) := by
  have hstart : starts_with_integer arg = true := by
    by_contra hn
    have h0 := strtol_no_integer arg (by simpa using hn)
    unfold get_interval at h
    simp [h0] at h
  refine ⟨?_, hstart, ?_⟩
  · unfold get_interval at h
    unfold after_interval
    simp only at h ⊢
    split_ifs at h with h1 h2 h3 h4
    · cases hu : get_interval_upper (strtol arg).endptr.tail (cast_ushort (strtol arg).val) with
      | error e => rw [hu] at h; simp at h
      | ok q =>
        obtain ⟨up, p⟩ := q
        rw [hu] at h
        simp only at h
        split_ifs at h with h5
        rw [if_pos h4, ← (get_interval_upper_endptr _ _ _ _ hu).1]
        exact not_not.mp h5
    · simp only at h
      split_ifs at h with h5
      rw [if_neg h4]
      exact not_not.mp h5
  · intro hcolon
    unfold get_interval at h
    simp only at h
    split_ifs at h with h1 h2 h3
    cases hu : get_interval_upper (strtol arg).endptr.tail (cast_ushort (strtol arg).val) with
    | error e => rw [hu] at h; simp at h
    | ok q =>
      obtain ⟨up, p⟩ := q
      exact (get_interval_upper_endptr _ _ _ _ hu).2

theorem except_error_of_not_ok {α : Type} (x : Except Failure α) (h : ∀ r, x ≠ .ok r) :
    ∃ e, x = .error e := by
  cases x with
  | error e => exact ⟨e, rfl⟩
  | ok r => exact absurd rfl (h r)

/-! ## get_interval: the range returned, the rejections, the bounds -/

/-- C5: whenever get_interval succeeds, the range it returns satisfies
lower <= upper <= 65535. For an argument of the form N<delimiter>..., where N is
a numeral of value at most 65535 and the delimiter is neither a digit nor the
colon, it returns lower = upper = N; for an argument N:M<delimiter>... with
N <= M <= 65535 it returns lower = N and upper = M. -/
theorem get_interval_returns_range (delimiter : Char) :
    (∀ arg lo up, get_interval arg delimiter = .ok (lo, up) → lo ≤ up ∧ up ≤ 65535) ∧
    (∀ ds rest, is_numeral ds → numeral_value ds ≤ 65535 →
      isdigit delimiter = false → delimiter ≠ ':' →
      get_interval (ds ++ delimiter :: rest) delimiter =
        .ok (numeral_value ds, numeral_value ds)) ∧
    (∀ ds1 ds2 rest, is_numeral ds1 → is_numeral ds2 →
      numeral_value ds1 ≤ numeral_value ds2 → numeral_value ds2 ≤ 65535 →
      isdigit delimiter = false →
      get_interval (ds1 ++ ':' :: (ds2 ++ delimiter :: rest)) delimiter =
        .ok (numeral_value ds1, numeral_value ds2)) := by
  refine ⟨fun arg lo up h => get_interval_bounds arg delimiter lo up h, ?_, ?_⟩
  · intro ds rest hds hN hd hc
    have h := get_interval_single [] ds (delimiter :: rest) delimiter is_sign_nil hds
      (by simpa using hd) (by simpa using hc)
      (by rw [signed_value_nil]; omega) (by rw [signed_value_nil]; omega)
    simp only [List.nil_append, deref_cons, signed_value_nil, Int.toNat_ofNat] at h
    rw [h, if_neg (by simp)]
  · intro ds1 ds2 rest hds1 hds2 hle hM hd
    have h := get_interval_pair ds1 [] ds2 (delimiter :: rest) delimiter hds1 (by omega)
      is_sign_nil hds2 (by simpa using hd)
      (by rw [signed_value_nil]; omega) (by rw [signed_value_nil]; omega)
    simp only [List.nil_append, deref_cons, signed_value_nil, Int.toNat_ofNat] at h
    rw [h, if_neg (by omega), if_neg (by simp)]

/-- Witness of C5 at the arguments 3:7=1u and 12=5. -/
theorem get_interval_returns_range_witness :
    (3 ≤ 7 ∧ 7 ≤ 65535) ∧
    get_interval "12=5".toList '=' = .ok (12, 12) ∧
    get_interval "3:7=1u".toList '=' = .ok (3, 7) :=
  ⟨(get_interval_returns_range '=').1 "3:7=1u".toList 3 7 (by decide),
   (get_interval_returns_range '=').2.1 "12".toList "5".toList
     (by decide) (by decide) (by decide) (by decide),
   (get_interval_returns_range '=').2.2 "3".toList "7".toList "1u".toList
     (by decide) (by decide) (by decide) (by decide) (by decide)⟩

/-- C6: get_interval fails for every argument that has no integer at its start,
that has no integer after the colon that follows its first integer, whose
interval is followed by a character other than the delimiter (the end of the
string included, the delimiter being a character of a string), or whose upper
bound M is less than its lower bound N. The third case is stated for the
interval strtol reads (after_interval) and again for intervals written as
numerals, N or N:M, followed by the text rest. -/
theorem get_interval_fails (arg : List Char) (delimiter : Char) :
    (starts_with_integer arg = false →
      get_interval arg delimiter = .error .invalid_argument) ∧
    (∀ r, (strtol arg).endptr = ':' :: r → starts_with_integer r = false →
      ∃ e, get_interval arg delimiter = .error e) ∧
    (deref (after_interval arg) ≠ delimiter →
      ∃ e, get_interval arg delimiter = .error e) ∧
    (after_interval arg = [] → delimiter ≠ NUL →
      ∃ e, get_interval arg delimiter = .error e) ∧
    (∀ ds rest, arg = ds ++ rest → is_numeral ds → isdigit (deref rest) = false →
      deref rest ≠ ':' → deref rest ≠ delimiter →
      ∃ e, get_interval arg delimiter = .error e) ∧
    (∀ ds1 ds2 rest, arg = ds1 ++ ':' :: (ds2 ++ rest) → is_numeral ds1 → is_numeral ds2 →
      isdigit (deref rest) = false → deref rest ≠ delimiter →
      ∃ e, get_interval arg delimiter = .error e) ∧
    (∀ ds1 ds2 rest, arg = ds1 ++ ':' :: (ds2 ++ rest) → is_numeral ds1 → is_numeral ds2 →
      isdigit (deref rest) = false → numeral_value ds2 < numeral_value ds1 →
      ∃ e, get_interval arg delimiter = .error e) := by
  refine ⟨?_, ?_, ?_, ?_, ?_, ?_, ?_⟩
  · intro h
    unfold get_interval
    simp [strtol_no_integer arg h]
  · intro r hr hno
    apply except_error_of_not_ok
    intro res hok
    have h := (get_interval_ok_delimiter arg delimiter res hok).2.2
    rw [hr] at h
    simp only [deref_cons, List.tail_cons, forall_const] at h
    rw [hno] at h
    exact absurd h (by simp)
  · intro hne
    apply except_error_of_not_ok
    intro res hok
    exact hne (get_interval_ok_delimiter arg delimiter res hok).1
  · intro hnil hd
    apply except_error_of_not_ok
    intro res hok
    have h := (get_interval_ok_delimiter arg delimiter res hok).1
    rw [hnil, deref_nil] at h
    exact hd h.symm
  · intro ds rest harg hds hrest hcolon hne
    subst harg
    by_cases hN : numeral_value ds ≤ 65535
    · have h := get_interval_single [] ds rest delimiter is_sign_nil hds hrest hcolon
        (by rw [signed_value_nil]; omega) (by rw [signed_value_nil]; omega)
      rw [if_pos hne] at h
      exact ⟨_, h⟩
    · rcases get_interval_single_rejects [] ds rest delimiter is_sign_nil hds hrest
        (by rw [signed_value_nil]; omega) with h | h
      · exact ⟨_, h⟩
      · exact ⟨_, h⟩
  · intro ds1 ds2 rest harg hds1 hds2 hrest hne
    subst harg
    by_cases hN : numeral_value ds1 ≤ 65535
    · by_cases hM : numeral_value ds2 ≤ 65535
      · have h := get_interval_pair ds1 [] ds2 rest delimiter hds1 hN is_sign_nil hds2 hrest
          (by rw [signed_value_nil]; omega) (by rw [signed_value_nil]; omega)
        simp only [List.nil_append] at h
        rw [h]
        split_ifs
        · exact ⟨_, rfl⟩
        · exact ⟨_, rfl⟩
      · rcases get_interval_pair_rejects ds1 [] ds2 rest delimiter hds1 hN is_sign_nil hds2
          hrest (by rw [signed_value_nil]; omega) with h | h
        · exact ⟨_, h⟩
        · exact ⟨_, h⟩
    · have hrest1 : isdigit (deref (':' :: (ds2 ++ rest))) = false := by
        simp only [deref_cons]; decide
      rcases get_interval_single_rejects [] ds1 (':' :: (ds2 ++ rest)) delimiter is_sign_nil
        hds1 hrest1 (by rw [signed_value_nil]; omega) with h | h
      · exact ⟨_, h⟩
      · exact ⟨_, h⟩
  · intro ds1 ds2 rest harg hds1 hds2 hrest hlt
    subst harg
    by_cases hN : numeral_value ds1 ≤ 65535
    · have h := get_interval_pair ds1 [] ds2 rest delimiter hds1 hN is_sign_nil hds2 hrest
        (by rw [signed_value_nil]; omega) (by rw [signed_value_nil]; omega)
      simp only [List.nil_append, signed_value_nil, Int.toNat_ofNat] at h
      rw [if_pos hlt] at h
      exact ⟨_, h⟩
    · have hrest1 : isdigit (deref (':' :: (ds2 ++ rest))) = false := by
        simp only [deref_cons]; decide
      rcases get_interval_single_rejects [] ds1 (':' :: (ds2 ++ rest)) delimiter is_sign_nil
        hds1 hrest1 (by rw [signed_value_nil]; omega) with h | h
      · exact ⟨_, h⟩
      · exact ⟨_, h⟩

/-- Witness of C6 at the arguments x=1, 3:=1, 3:7x1, 3:7, 7:3=1 and 12x3. -/
theorem get_interval_fails_witness :
    get_interval "x=1".toList '=' = .error .invalid_argument ∧
    (∃ e, get_interval "3:=1".toList '=' = .error e) ∧
    (∃ e, get_interval "3:7x1".toList '=' = .error e) ∧
    (∃ e, get_interval "3:7".toList '=' = .error e) ∧
    (∃ e, get_interval "7:3=1".toList '=' = .error e) ∧
    (∃ e, get_interval "12x3".toList '=' = .error e) ∧
    (∃ e, get_interval "3:7".toList '=' = .error e) :=
  ⟨(get_interval_fails "x=1".toList '=').1 (by decide),
   (get_interval_fails "3:=1".toList '=').2.1 "=1".toList (by decide) (by decide),
   (get_interval_fails "3:7x1".toList '=').2.2.1 (by decide),
   (get_interval_fails "3:7".toList '=').2.2.2.1 (by decide) (by decide),
   (get_interval_fails "7:3=1".toList '=').2.2.2.2.2.2 "7".toList "3".toList "=1".toList
     (by decide) (by decide) (by decide) (by decide) (by decide),
   (get_interval_fails "12x3".toList '=').2.2.2.2.1 "12".toList "x3".toList
     (by decide) (by decide) (by decide) (by decide) (by decide),
   (get_interval_fails "3:7".toList '=').2.2.2.2.2.1 "3".toList "7".toList []
     (by decide) (by decide) (by decide) (by decide) (by decide)⟩

/-- C7: for the lower and for the upper bound, get_interval accepts a bound
exactly when its value lies in [0, 65535]. A lower bound written as a sign and
a numeral is accepted if and only if 0 <= value <= 65535; behind a valid lower
bound N and a colon, an upper bound is accepted if and only if
0 <= value <= 65535 and it is not below N. The bounds 0 and 65535 are accepted,
65536 and -1 are rejected as out of range, in both places. -/
theorem get_interval_accepts_bound (delimiter : Char) (sg ds rest : List Char)
    (hd : isdigit delimiter = false) (hc : delimiter ≠ ':') (hsg : is_sign sg)
    (hds : is_numeral ds) :
    ((∃ r, get_interval (sg ++ ds ++ delimiter :: rest) delimiter = .ok r) ↔
      (0 ≤ signed_value sg ds ∧ signed_value sg ds ≤ 65535)) ∧
    (∀ ds1, is_numeral ds1 → numeral_value ds1 ≤ 65535 →
      ((∃ r, get_interval (ds1 ++ ':' :: (sg ++ ds ++ delimiter :: rest)) delimiter = .ok r) ↔
        (0 ≤ signed_value sg ds ∧ signed_value sg ds ≤ 65535 ∧
          (numeral_value ds1 : Int) ≤ signed_value sg ds))) ∧
    (get_interval "0=1".toList '=' = .ok (0, 0) ∧
     get_interval "65535=1".toList '=' = .ok (65535, 65535) ∧
     get_interval "65536=1".toList '=' = .error .out_of_range ∧
     get_interval "-1=1".toList '=' = .error .out_of_range ∧
     get_interval "0:0=1".toList '=' = .ok (0, 0) ∧
     get_interval "0:65535=1".toList '=' = .ok (0, 65535) ∧
     get_interval "0:65536=1".toList '=' = .error .out_of_range ∧
     get_interval "0:-1=1".toList '=' = .error .out_of_range) := by
  have hrest : isdigit (deref (delimiter :: rest)) = false := by simpa using hd
  have hcolon : deref (delimiter :: rest) ≠ ':' := by simpa using hc
  refine ⟨?_, ?_, by decide⟩
  · constructor
    · rintro ⟨r, hr⟩
      by_contra hn
      rcases get_interval_single_rejects sg ds (delimiter :: rest) delimiter hsg hds hrest
        (by omega) with h | h <;> rw [h] at hr <;> simp at hr
    · rintro ⟨h0, h1⟩
      have h := get_interval_single sg ds (delimiter :: rest) delimiter hsg hds hrest hcolon h0 h1
      rw [if_neg (by simp)] at h
      exact ⟨_, h⟩
  · intro ds1 hds1 hN
    constructor
    · rintro ⟨r, hr⟩
      by_cases hin : 0 ≤ signed_value sg ds ∧ signed_value sg ds ≤ 65535
      · refine ⟨hin.1, hin.2, ?_⟩
        have h := get_interval_pair ds1 sg ds (delimiter :: rest) delimiter hds1 hN hsg hds
          hrest hin.1 hin.2
        by_contra hlt
        rw [if_pos (by omega)] at h
        rw [h] at hr
        simp at hr
      · rcases get_interval_pair_rejects ds1 sg ds (delimiter :: rest) delimiter hds1 hN hsg hds
          hrest (by omega) with h | h <;> rw [h] at hr <;> simp at hr
    · rintro ⟨h0, h1, h2⟩
      have h := get_interval_pair ds1 sg ds (delimiter :: rest) delimiter hds1 hN hsg hds
        hrest h0 h1
      rw [if_neg (by omega), if_neg (by simp)] at h
      exact ⟨_, h⟩

/-- Witness of C7 at the bound 65535 with the delimiter '=', alone and behind
the lower bound 7. -/
theorem get_interval_accepts_bound_witness :
    ((∃ r, get_interval "65535=1".toList '=' = .ok r) ↔
      ((0 : Int) ≤ 65535 ∧ (65535 : Int) ≤ 65535)) ∧
    ((∃ r, get_interval "7:65535=1".toList '=' = .ok r) ↔
      ((0 : Int) ≤ 65535 ∧ (65535 : Int) ≤ 65535 ∧ (7 : Int) ≤ 65535)) :=
  ⟨(get_interval_accepts_bound '=' [] "65535".toList "1".toList
      (by decide) (by decide) (by decide) (by decide)).1,
   (get_interval_accepts_bound '=' [] "65535".toList "1".toList
      (by decide) (by decide) (by decide) (by decide)).2.1 "7".toList (by decide) (by decide)⟩

/-! ## get_interval_sem_op -/

theorem strchr_append_of_not_mem (pre rest : List Char) (c : Char) (h : c ∉ pre) :
    strchr (pre ++ c :: rest) c = some (c :: rest) := by
  induction pre with
  | nil => simp [strchr]
  | cons x xs ih =>
    have hx : x ≠ c := fun hxc => h (hxc ▸ List.mem_cons_self _ _)
    simp only [List.cons_append, strchr, hx, if_false]
    exact ih (fun hc => h (List.mem_cons_of_mem _ hc))

theorem strchr_isSome_iff (s : List Char) (c : Char) : (strchr s c).isSome = true ↔ c ∈ s := by
  induction s with
  | nil => simp [strchr]
  | cons x xs ih =>
    by_cases hx : x = c
    · simp [strchr, hx]
    · simp only [strchr, hx, if_false, ih, List.mem_cons]
      constructor
      · exact Or.inr
      · rintro (h | h)
        · exact absurd h.symm hx
        · exact h

theorem strcspn_flags (fl : List Char) (hfl : ∀ c ∈ fl, c = 'n' ∨ c = 'u') :
    strcspn fl ['n', 'u'] = 0 := by
  cases fl with
  | nil => rfl
  | cons c cs =>
    rcases hfl c (List.mem_cons_self _ _) with rfl | rfl <;> rfl

theorem isdigit_deref_flags (fl : List Char) (hfl : ∀ c ∈ fl, c = 'n' ∨ c = 'u') :
    isdigit (deref fl) = false := by
  cases fl with
  | nil => decide
  | cons c cs =>
    rcases hfl c (List.mem_cons_self _ _) with rfl | rfl <;>
      simp only [deref_cons] <;> decide

/-- C9: for every token whose payload after the first '=' is a decimal integer
V (a sign, or none, and a numeral) followed only by letters from n and u,
get_interval_sem_op succeeds if and only if -32768 <= V <= 32767, and then it
returns sem_op = V and a flag word in which IPC_NOWAIT is set exactly when n
occurs, SEM_UNDO exactly when u occurs, and no other bit is set. -/
theorem get_interval_sem_op_value (pre sg ds fl : List Char) (hpre : '=' ∉ pre)
    (hsg : is_sign sg) (hds : is_numeral ds) (hfl : ∀ c ∈ fl, c = 'n' ∨ c = 'u') :
    ((∃ r, get_interval_sem_op (pre ++ '=' :: (sg ++ ds ++ fl)) = .ok r) ↔
      (-32768 ≤ signed_value sg ds ∧ signed_value sg ds ≤ 32767)) ∧
    (-32768 ≤ signed_value sg ds → signed_value sg ds ≤ 32767 →
      ∃ sem_flg,
        get_interval_sem_op (pre ++ '=' :: (sg ++ ds ++ fl)) =
          .ok (signed_value sg ds, sem_flg) ∧
        (sem_flg &&& IPC_NOWAIT = IPC_NOWAIT ↔ 'n' ∈ fl) ∧
        (sem_flg &&& SEM_UNDO = SEM_UNDO ↔ 'u' ∈ fl) ∧
        sem_flg &&& (IPC_NOWAIT ||| SEM_UNDO) = sem_flg) := by
  have hrest := isdigit_deref_flags fl hfl
  have hlen := strtol_integer_length _ (starts_with_integer_signed_numeral sg ds fl hsg hds)
  have hchr := strchr_append_of_not_mem pre (sg ++ ds ++ fl) '=' hpre
  have hok : -32768 ≤ signed_value sg ds → signed_value sg ds ≤ 32767 →
      get_interval_sem_op (pre ++ '=' :: (sg ++ ds ++ fl)) =
        .ok (signed_value sg ds,
          if 'u' ∈ fl then (if 'n' ∈ fl then 0 ||| IPC_NOWAIT else 0) ||| SEM_UNDO
          else (if 'n' ∈ fl then 0 ||| IPC_NOWAIT else 0)) := by
    intro h0 h1
    have hst := strtol_signed_numeral_in_long sg ds fl hsg hds hrest
      (by simp only [LONG_MIN]; omega) (by simp only [LONG_MAX]; omega)
    rw [hst] at hlen
    simp only at hlen
    unfold get_interval_sem_op
    simp only [hchr, List.tail_cons, hst, SHRT_MIN, SHRT_MAX, strcspn_flags fl hfl,
      strchr_isSome_iff, cast_short_eq _ h0 h1]
    rw [if_neg (by simp), if_neg (by omega), if_neg (by omega), if_neg (by simp)]
  constructor
  · constructor
    · rintro ⟨r, hr⟩
      by_contra hn
      by_cases hl : LONG_MIN ≤ signed_value sg ds ∧ signed_value sg ds ≤ LONG_MAX
      · have hst := strtol_signed_numeral_in_long sg ds fl hsg hds hrest hl.1 hl.2
        rw [hst] at hlen
        simp only at hlen
        unfold get_interval_sem_op at hr
        simp only [hchr, List.tail_cons, hst, SHRT_MIN, SHRT_MAX] at hr
        rw [if_neg (by simp), if_neg (by omega), if_pos (by omega)] at hr
        simp at hr
      · have he := strtol_signed_numeral_erange sg ds fl hsg hds hrest (by omega)
        unfold get_interval_sem_op at hr
        simp only [hchr, List.tail_cons, he, if_true] at hr
        simp at hr
    · rintro ⟨h0, h1⟩
      exact ⟨_, hok h0 h1⟩
  · intro h0 h1
    refine ⟨_, hok h0 h1, ?_⟩
    by_cases hn : 'n' ∈ fl <;> by_cases hu : 'u' ∈ fl <;>
      simp only [hn, hu, if_true, if_false, iff_true, iff_false] <;> decide

/-- Witness of C9 at the token 4:9=-32768un. -/
theorem get_interval_sem_op_value_witness :
    ((∃ r, get_interval_sem_op "4:9=-32768un".toList = .ok r) ↔
      ((-32768 : Int) ≤ -32768 ∧ (-32768 : Int) ≤ 32767)) ∧
    get_interval_sem_op "4:9=-32768un".toList = .ok (-32768, IPC_NOWAIT ||| SEM_UNDO) :=
  ⟨(get_interval_sem_op_value "4:9".toList "-".toList "32768".toList "un".toList
      (by decide) (by decide) (by decide) (by decide)).1,
   by decide⟩

/-- C8, the code at a failing input: the tokens 0=1nx and 0=1n=2 carry
characters other than n and u after the value, and get_interval_sem_op accepts
them, because strcspn only looks at the first character after the value; the
token 0=1xn is rejected. -/
theorem get_interval_sem_op_accepts_trailing_text :
    get_interval_sem_op "0=1nx".toList = .ok (1, IPC_NOWAIT) ∧
    get_interval_sem_op "0=1n=2".toList = .ok (1, IPC_NOWAIT) ∧
    get_interval_sem_op "0=1xn".toList = .error .invalid_flags := by
  decide

/-! ## ipcmd semop, whole set form -/

theorem get_short_arg_5n : get_short_arg "5n".toList = .error .invalid_short_argument := by
  decide

/-- C10 as stated fails: with the whole set operand 5n on a set of 3
semaphores ipcmd semop compiles nothing, it leaves with the diagnostic
"invalid short integer argument". -/
theorem semop_whole_set_5n_rejected :
    ipcmd_semop_operands 0 ["5n".toList] (.ok 3) = .error .invalid_short_argument := by
  decide

/-- C10 amended: the whole set operand 5n is rejected as an invalid short
integer argument, whatever the options and the set; the whole set operand 5
after the option -n, on a set of 3 semaphores, compiles exactly 3 operations,
for the semaphores 0, 1 and 2, each with magnitude 5, IPC_NOWAIT set and
SEM_UNDO not set. -/
theorem semop_whole_set_5_nowait :
    (∀ sem_flg stat,
      ipcmd_semop_operands sem_flg ["5n".toList] stat = .error .invalid_short_argument) ∧
    ipcmd_semop_operands (semop_option_flag 0 'n') ["5".toList] (.ok 3) =
      .ok ⟨[some ⟨0, 5, IPC_NOWAIT⟩, some ⟨1, 5, IPC_NOWAIT⟩, some ⟨2, 5, IPC_NOWAIT⟩],
           3, none⟩ ∧
    IPC_NOWAIT &&& IPC_NOWAIT = IPC_NOWAIT ∧ IPC_NOWAIT &&& SEM_UNDO = 0 := by
  refine ⟨?_, by decide, by decide, by decide⟩
  intro sem_flg stat
  have h1 : (strchr "5n".toList '=').isSome = false := by decide
  have h2 : ¬ (2 < ["5n".toList].length ∧ ["5n".toList].getD 1 [] = [':']) := by decide
  unfold ipcmd_semop_operands
  simp only [h1, h2, if_false, get_short_arg_5n]
  simp

/-! ## set_interval_sops -/

theorem store_at {α : Type} (pre post : List (Option α)) (x : Option α) (v : α) :
    store (pre ++ x :: post) pre.length v = .ok (pre ++ some v :: post) := by
  unfold store
  rw [if_pos (by simp)]
  congr 1
  induction pre with
  | nil => rfl
  | cons a pre ih => simp only [List.cons_append, List.length_cons, List.set_cons_succ, ih]

theorem set_interval_sops_inner_spec (sem_op : Int) (sem_flg : Nat) (k : Nat) :
    ∀ (sem : Nat) (pre mid post : List (Option sembuf)), mid.length = k → sem + k ≤ 65536 →
    set_interval_sops_inner sem_op sem_flg k sem (pre ++ (mid ++ post)) pre.length =
      .ok (pre ++ ((List.range' sem k).map (fun n => some ⟨n, sem_op, sem_flg⟩) ++ post),
           pre.length + k) := by
  induction k with
  | zero =>
    intro sem pre mid post hmid _
    have : mid = [] := List.length_eq_zero.mp hmid
    subst this
    simp [set_interval_sops_inner]
  | succ k ih =>
    intro sem pre mid post hmid hsem
    cases mid with
    | nil => simp at hmid
    | cons x mid' =>
      have hcast : cast_ushort (sem : Int) = sem := cast_ushort_natCast sem (by omega)
      have hst := store_at pre (mid' ++ post) x
        (⟨cast_ushort (sem : Int), sem_op, sem_flg⟩ : sembuf)
      simp only [List.length_cons, Nat.add_right_cancel_iff] at hmid
      have hih := ih (sem + 1) (pre ++ [some ⟨sem, sem_op, sem_flg⟩]) mid' post hmid (by omega)
      simp only [List.length_append, List.length_singleton, List.append_assoc,
        List.singleton_append] at hih
      rw [hcast] at hst
      simp only [set_interval_sops_inner, List.cons_append, hcast, hst, hih,
        List.range'_succ, List.map_cons, Nat.add_assoc, Nat.add_comm 1 k]

theorem expand_length (additions : Nat) (t : interval_op) :
    (expand additions t).length = t.upper + 1 - t.lower := by
  simp [expand]

theorem set_interval_sops_from_spec (additions : Nat) (argv : List (List Char))
    (toks : List interval_op) (h : List.Forall₂ parses argv toks) :
    ∀ (pre mid post : List (Option sembuf)),
    mid.length = (toks.flatMap (expand additions)).length →
    set_interval_sops_from additions argv (pre ++ (mid ++ post)) pre.length =
      .ok (pre ++ ((toks.flatMap (expand additions)).map some ++ post),
           pre.length + mid.length) := by
  induction h with
  | nil =>
    intro pre mid post hmid
    have : mid = [] := List.length_eq_zero.mp (by simpa using hmid)
    subst this
    simp [set_interval_sops_from]
  | @cons arg t argv toks hp _ ih =>
    intro pre mid post hmid
    obtain ⟨hi, ho⟩ := hp
    obtain ⟨hlu, hu⟩ := get_interval_bounds arg '=' _ _ hi
    simp only [List.flatMap_cons, List.length_append, expand_length] at hmid
    obtain ⟨mid1, mid2, rfl, h1⟩ : ∃ mid1 mid2, mid = mid1 ++ mid2 ∧
        mid1.length = t.upper + 1 - t.lower :=
      ⟨mid.take (t.upper + 1 - t.lower), mid.drop (t.upper + 1 - t.lower),
        (List.take_append_drop _ _).symm, by rw [List.length_take]; omega⟩
    have h2 : mid2.length = (toks.flatMap (expand additions)).length := by
      rw [List.length_append] at hmid; omega
    have hinner := set_interval_sops_inner_spec t.sem_op (t.sem_flg ||| additions)
      (t.upper + 1 - t.lower) t.lower pre mid1 (mid2 ++ post) h1 (by omega)
    have hih := ih (pre ++ (List.range' t.lower (t.upper + 1 - t.lower)).map
      (fun n => some ⟨n, t.sem_op, t.sem_flg ||| additions⟩)) mid2 post h2
    simp only [List.length_append, List.length_map, List.length_range',
      List.append_assoc] at hih
    simp only [set_interval_sops_from, List.append_assoc, hi, ho, hinner, hih]
    simp only [List.flatMap_cons, List.map_append, expand, List.map_map, List.append_assoc,
      List.length_append, h1, Function.comp_def]
    congr 2
    omega

theorem get_interval_numeral_pair (ds1 ds2 rest : List Char) (hds1 : is_numeral ds1)
    (hds2 : is_numeral ds2) (hle : numeral_value ds1 ≤ numeral_value ds2)
    (hM : numeral_value ds2 ≤ 65535) :
    get_interval (ds1 ++ ':' :: (ds2 ++ '=' :: rest)) '=' =
      .ok (numeral_value ds1, numeral_value ds2) := by
  have h := get_interval_pair ds1 [] ds2 ('=' :: rest) '=' hds1 (by omega)
    is_sign_nil hds2 (by simp only [deref_cons]; decide)
    (by rw [signed_value_nil]; omega) (by rw [signed_value_nil]; omega)
  simp only [List.nil_append, deref_cons, signed_value_nil, Int.toNat_ofNat] at h
  rw [h, if_neg (by omega), if_neg (by simp)]

theorem or_and_self_left (a b : Nat) : (a ||| b) &&& a = a := by
  apply Nat.eq_of_testBit_eq
  intro i
  simp only [Nat.testBit_and, Nat.testBit_or]
  cases a.testBit i <;> cases b.testBit i <;> rfl

/-- C1: for every list of interval tokens on which get_interval and
get_interval_sem_op both succeed, set_interval_sops fills the array, from
index 0 on, with exactly the in-order concatenation, token by token, of one
entry for each semaphore number lower, lower + 1, ..., upper (ascending), each
entry with the sem_op of its token and the flags of its token: every flag of
the token is set in the entry, whose flag word is that of the token joined by
bitwise or with sem_flg_additions, hence the flag word of the token itself when
sem_flg_additions is 0. The rest of the array is left as it was and the number
of entries is returned as nsops. In particular one token N:M=V with N <= M <= 65535 yields exactly M - N + 1
entries, numbered N, ..., M. -/
theorem set_interval_sops_concat (argv : List (List Char)) (toks : List interval_op)
    (sops : List (Option sembuf)) (sem_flg_additions : Nat)
    (hparse : List.Forall₂ parses argv toks)
    (hroom : (toks.flatMap (expand sem_flg_additions)).length ≤ sops.length) :
    set_interval_sops argv sops sem_flg_additions =
      .ok ((toks.flatMap (expand sem_flg_additions)).map some ++
             sops.drop (toks.flatMap (expand sem_flg_additions)).length,
           (toks.flatMap (expand sem_flg_additions)).length) ∧
    (∀ t : interval_op, ∀ e ∈ expand sem_flg_additions t,
      e.sem_op = t.sem_op ∧ e.sem_flg &&& t.sem_flg = t.sem_flg ∧
      e.sem_flg = t.sem_flg ||| sem_flg_additions) ∧
    (∀ t : interval_op, expand 0 t =
      (List.range' t.lower (t.upper + 1 - t.lower)).map fun n => ⟨n, t.sem_op, t.sem_flg⟩) ∧
    (∀ (ds1 ds2 payload : List Char) (V : Int) (F : Nat) (buf : List (Option sembuf)),
      is_numeral ds1 → is_numeral ds2 → numeral_value ds1 ≤ numeral_value ds2 →
      numeral_value ds2 ≤ 65535 →
      get_interval_sem_op (ds1 ++ ':' :: (ds2 ++ '=' :: payload)) = .ok (V, F) →
      buf.length = numeral_value ds2 - numeral_value ds1 + 1 →
      set_interval_sops [ds1 ++ ':' :: (ds2 ++ '=' :: payload)] buf sem_flg_additions =
        .ok ((List.range' (numeral_value ds1) (numeral_value ds2 - numeral_value ds1 + 1)).map
               (fun n => some ⟨n, V, F ||| sem_flg_additions⟩),
             numeral_value ds2 - numeral_value ds1 + 1)) := by
  refine ⟨?_, ?_, ?_, ?_⟩
  · have h := set_interval_sops_from_spec sem_flg_additions argv toks hparse []
      (sops.take (toks.flatMap (expand sem_flg_additions)).length)
      (sops.drop (toks.flatMap (expand sem_flg_additions)).length)
      (by rw [List.length_take]; omega)
    simp only [List.nil_append, List.take_append_drop, List.length_nil, Nat.zero_add,
      List.length_take] at h
    unfold set_interval_sops
    rw [h, Nat.min_eq_left hroom]
  · intro t e he
    simp only [expand, List.mem_map] at he
    obtain ⟨n, -, rfl⟩ := he
    exact ⟨rfl, or_and_self_left _ _, rfl⟩
  · intro t
    simp [expand]
  · intro ds1 ds2 payload V F buf hds1 hds2 hle hM hop hbuf
    have hp : parses (ds1 ++ ':' :: (ds2 ++ '=' :: payload))
        ⟨numeral_value ds1, numeral_value ds2, V, F⟩ :=
      ⟨get_interval_numeral_pair ds1 ds2 payload hds1 hds2 hle hM, hop⟩
    have hk : numeral_value ds2 + 1 - numeral_value ds1 =
        numeral_value ds2 - numeral_value ds1 + 1 := by omega
    have h := set_interval_sops_from_spec sem_flg_additions _ _
      (List.Forall₂.cons hp List.Forall₂.nil) [] buf []
      (by simp [expand]; omega)
    simp only [List.nil_append, List.append_nil, List.length_nil, Nat.zero_add,
      List.flatMap_cons, List.flatMap_nil, expand, hk, List.map_map, Function.comp_def] at h
    unfold set_interval_sops
    rw [h, hbuf]

/-- Witness of C1 at the tokens 0:1=3u and 2:2=-1 with the additions
IPC_NOWAIT and an array of three indeterminate elements. -/
theorem set_interval_sops_concat_witness :
    set_interval_sops ["0:1=3u".toList, "2:2=-1".toList] (malloc 3) IPC_NOWAIT =
      .ok ([some ⟨0, 3, SEM_UNDO ||| IPC_NOWAIT⟩, some ⟨1, 3, SEM_UNDO ||| IPC_NOWAIT⟩,
            some ⟨2, -1, IPC_NOWAIT⟩], 3) :=
  (set_interval_sops_concat ["0:1=3u".toList, "2:2=-1".toList]
    [⟨0, 1, 3, SEM_UNDO⟩, ⟨2, 2, -1, 0⟩] (malloc 3) IPC_NOWAIT
    (List.Forall₂.cons (by decide) (List.Forall₂.cons (by decide) List.Forall₂.nil))
    (by decide)).1

/-! ## The setall check -/

theorem wrap_int_add (a b : Int) : wrap_int (wrap_int a + wrap_int b) = wrap_int (a + b) := by
  unfold wrap_int; omega

theorem wrap_int_add_left (a b : Int) : wrap_int (wrap_int a + b) = wrap_int (a + b) := by
  unfold wrap_int; omega

theorem wrap_int_eq (x : Int) (h0 : -2147483648 ≤ x) (h1 : x ≤ 2147483647) :
    wrap_int x = x := by
  unfold wrap_int; omega

theorem wrap_int_range (x : Int) : -2147483648 ≤ wrap_int x ∧ wrap_int x ≤ 2147483647 := by
  unfold wrap_int; omega

theorem tdiv_two (w : Int) : Int.tdiv w 2 = if 0 ≤ w then w / 2 else -((-w) / 2) := by
  split_ifs with h
  · exact Int.tdiv_eq_ediv h (by decide)
  · have h2 : Int.tdiv (-w) 2 = (-w) / 2 := Int.tdiv_eq_ediv (by omega) (by decide)
    rw [← h2, Int.neg_tdiv, Int.neg_neg]

theorem int_triangle_range (x : Nat) :
    -2147483648 ≤ int_triangle x ∧ int_triangle x ≤ 2147483647 := by
  unfold int_triangle
  have h := wrap_int_range ((x : Int) * ((x : Int) - 1))
  generalize wrap_int ((x : Int) * ((x : Int) - 1)) = w at h
  rw [tdiv_two]
  split_ifs <;> omega

theorem foldl_wrap_int (l : List Int) (c : Int) :
    wrap_int (l.foldl (fun acc t => wrap_int (acc + wrap_int t)) c) = wrap_int (c + l.sum) := by
  induction l generalizing c with
  | nil => simp
  | cons t l ih =>
    simp only [List.foldl_cons, List.sum_cons]
    rw [ih, wrap_int_add_left]
    generalize l.sum = S
    unfold wrap_int
    omega

theorem foldl_wrap_int_fixed (l : List Int) (c : Int) (hc : wrap_int c = c) :
    wrap_int (l.foldl (fun acc t => wrap_int (acc + wrap_int t)) c) =
      l.foldl (fun acc t => wrap_int (acc + wrap_int t)) c := by
  induction l generalizing c with
  | nil => simpa using hc
  | cons t l ih =>
    simp only [List.foldl_cons]
    apply ih
    unfold wrap_int
    omega

/-! ### Sums over a partition -/

theorem sum_range'_telescope (F : Nat → Int) (k : Nat) : ∀ lo : Nat,
    ((List.range' lo k).map fun i => F (i + 1) - F i).sum = F (lo + k) - F lo := by
  induction k with
  | zero => intro lo; simp
  | succ k ih =>
    intro lo
    simp only [List.range'_succ, List.map_cons, List.sum_cons, ih]
    have : lo + 1 + k = lo + (k + 1) := by omega
    rw [this]
    omega

theorem sum_flatMap_ranges (g : Nat → Int) (ranges : List (Nat × Nat)) :
    ((ranges.flatMap fun r => List.range' r.1 (r.2 + 1 - r.1)).map g).sum =
      (ranges.map fun r => ((List.range' r.1 (r.2 + 1 - r.1)).map g).sum).sum := by
  induction ranges with
  | nil => simp
  | cons r rs ih => simp only [List.flatMap_cons, List.map_append, List.sum_append, ih,
      List.map_cons, List.sum_cons]

theorem count_range' (i lo k : Nat) :
    (List.range' lo k).count i = if lo ≤ i ∧ i < lo + k then 1 else 0 := by
  rw [List.count_eq_of_nodup (List.nodup_range' lo k)]
  simp only [List.mem_range'_1]

theorem sum_indicator (p : Nat × Nat → Prop) [DecidablePred p] (l : List (Nat × Nat)) :
    (l.map fun r => if p r then 1 else 0).sum = (l.filter fun r => p r).length := by
  induction l with
  | nil => simp
  | cons r rs ih =>
    by_cases h : p r
    · simp only [List.map_cons, List.sum_cons, ih, h, if_true, decide_True, List.filter_cons_of_pos,
        List.length_cons]
      omega
    · simp only [List.map_cons, List.sum_cons, ih, h, if_false, decide_False, Nat.zero_add,
        Bool.false_eq_true, not_false_eq_true, List.filter_cons_of_neg]

theorem partition_perm (ranges : List (Nat × Nat)) (n : Nat) (h : is_partition ranges n) :
    (ranges.flatMap fun r => List.range' r.1 (r.2 + 1 - r.1)).Perm (List.range n) := by
  rw [List.perm_iff_count]
  intro i
  rw [List.count_flatMap, List.range_eq_range', count_range']
  have hfun : (List.count i ∘ fun r : Nat × Nat => List.range' r.1 (r.2 + 1 - r.1)) =
      fun r => if r.1 ≤ i ∧ i ≤ r.2 then 1 else 0 := by
    funext r
    simp only [Function.comp, count_range']
    by_cases hc : r.1 ≤ i ∧ i ≤ r.2
    · rw [if_pos hc, if_pos (by omega)]
    · rw [if_neg hc, if_neg (by omega)]
  rw [hfun, sum_indicator (fun r => r.1 ≤ i ∧ i ≤ r.2)]
  by_cases hi : i < n
  · rw [h.1 i hi, if_pos (by omega)]
  · rw [if_neg (by omega)]
    rw [List.length_eq_zero, List.filter_eq_nil_iff]
    intro r hr
    have := h.2 r hr
    simp only [decide_eq_true_eq]
    omega

theorem partition_telescope (F : Nat → Int) (ranges : List (Nat × Nat)) (n : Nat)
    (h : is_partition ranges n) :
    (ranges.map fun r => F (r.2 + 1) - F r.1).sum = F n - F 0 := by
  have h1 : (ranges.map fun r => F (r.2 + 1) - F r.1) =
      ranges.map fun r => ((List.range' r.1 (r.2 + 1 - r.1)).map fun i => F (i + 1) - F i).sum := by
    apply List.map_congr_left
    intro r hr
    have := h.2 r hr
    rw [sum_range'_telescope]
    congr 2
    omega
  rw [h1, ← sum_flatMap_ranges, ((partition_perm ranges n h).map _).sum_eq,
    List.range_eq_range', sum_range'_telescope, Nat.zero_add]

theorem int_triangle_succ (u : Nat) :
    int_triangle (u + 1) = Int.tdiv (wrap_int (((u : Int) + 1) * (u : Int))) 2 := by
  unfold int_triangle
  push_cast
  congr 2
  ring

theorem int_triangle_zero : int_triangle 0 = 0 := by decide

theorem setall_count_sum_spec (argv : List (List Char)) (ranges : List (Nat × Nat))
    (h : List.Forall₂ (fun a r => get_interval a '=' = .ok r) argv ranges) :
    ∀ c s : Int, setall_count_sum argv c s =
      .ok ((ranges.map fun r => ((r.2 : Int) - (r.1 : Int) + 1)).foldl
             (fun acc t => wrap_int (acc + wrap_int t)) c,
           (ranges.map fun r => int_triangle (r.2 + 1) - int_triangle r.1).foldl
             (fun acc t => wrap_int (acc + wrap_int t)) s) := by
  induction h with
  | nil => intro c s; rfl
  | @cons arg r argv ranges hp _ ih =>
    intro c s
    obtain ⟨lo, up⟩ := r
    simp only [setall_count_sum, hp, ih, List.map_cons, List.foldl_cons, int_triangle_succ]
    rfl

theorem strtol_digits_suffix (t : List Char) (acc : Nat) :
    (strtol_digits t acc).2 <:+ t := by
  induction t generalizing acc with
  | nil => exact List.suffix_refl _
  | cons c cs ih =>
    simp only [strtol_digits]
    split
    · exact (ih _).trans (List.suffix_cons c cs)
    · exact List.suffix_refl _

theorem strtol_endptr_suffix (s : List Char) : (strtol s).endptr <:+ s := by
  unfold strtol
  simp only
  have hs : s.dropWhile isspace <:+ s := List.dropWhile_suffix _
  generalize s.dropWhile isspace = s1 at hs ⊢
  have ht : (if deref s1 = '-' ∨ deref s1 = '+' then s1.tail else s1) <:+ s := by
    split_ifs
    · exact (List.tail_suffix _).trans hs
    · exact hs
  generalize (if deref s1 = '-' ∨ deref s1 = '+' then s1.tail else s1) = t at ht ⊢
  have h2 := (strtol_digits_suffix t 0).trans ht
  split_ifs <;> first | exact h2 | exact List.suffix_refl _

theorem after_interval_suffix (arg : List Char) : after_interval arg <:+ arg := by
  unfold after_interval
  simp only
  split_ifs
  · exact ((strtol_endptr_suffix _).trans (List.tail_suffix _)).trans (strtol_endptr_suffix _)
  · exact strtol_endptr_suffix _

theorem get_interval_ok_strchr (arg : List Char) (r : Nat × Nat)
    (h : get_interval arg '=' = .ok r) : strchr arg '=' ≠ none := by
  have hd := (get_interval_ok_delimiter arg '=' r h).1
  have hmem : '=' ∈ after_interval arg := by
    cases hp : after_interval arg with
    | nil => rw [hp] at hd; exact absurd hd (by decide)
    | cons c cs =>
      rw [hp, deref_cons] at hd
      subst hd
      exact List.mem_cons_self _ _
  have hin : '=' ∈ arg := (after_interval_suffix arg).mem hmem
  have := (strchr_isSome_iff arg '=').mpr hin
  intro hn
  rw [hn] at this
  simp at this

theorem setall_partition_accepted (argv : List (List Char)) (ranges : List (Nat × Nat))
    (sem_nsems : Nat) (hN : sem_nsems ≤ 65535)
    (hparse : List.Forall₂ (fun a r => get_interval a '=' = .ok r) argv ranges)
    (hpart : is_partition ranges sem_nsems) :
    setall_check argv sem_nsems = .ok () ∧
    (1 ≤ sem_nsems →
      ipcmd_semctl_setall argv (.ok sem_nsems) = setall_fill argv (malloc sem_nsems)) := by
  suffices hcheck : setall_check argv sem_nsems = .ok () by
    refine ⟨hcheck, fun h1 => ?_⟩
    have hcast : cast_ushort (cast_short (sem_nsems : Int)) = sem_nsems := by
      unfold cast_ushort cast_short; omega
    cases hparse with
    | nil =>
      have := hpart.1 0 (by omega)
      simp at this
    | @cons arg r argv' ranges' hp hrest =>
      have hchr := get_interval_ok_strchr arg r hp
      unfold ipcmd_semctl_setall
      rw [if_neg (by simp)]
      simp only [hcast, List.headD_cons, hchr, and_false, if_false, hcheck]
  have hcount : (ranges.map fun r => ((r.2 : Int) - (r.1 : Int) + 1)).sum = (sem_nsems : Int) := by
    have h := partition_telescope (fun x => (x : Int)) ranges sem_nsems hpart
    simp only [Nat.cast_add, Nat.cast_one, Nat.cast_zero, Int.sub_zero] at h
    rw [← h]
    congr 1
    apply List.map_congr_left
    intro r _
    omega
  have hsum := partition_telescope int_triangle ranges sem_nsems hpart
  rw [int_triangle_zero, Int.sub_zero] at hsum
  have h1 := foldl_wrap_int (ranges.map fun r => ((r.2 : Int) - (r.1 : Int) + 1)) 0
  rw [foldl_wrap_int_fixed _ 0 (by decide), hcount, Int.zero_add,
    wrap_int_eq _ (by omega) (by omega)] at h1
  have h2 := foldl_wrap_int (ranges.map fun r => int_triangle (r.2 + 1) - int_triangle r.1) 0
  rw [foldl_wrap_int_fixed _ 0 (by decide), hsum, Int.zero_add,
    wrap_int_eq _ (int_triangle_range _).1 (int_triangle_range _).2] at h2
  unfold setall_check
  rw [setall_count_sum_spec argv ranges hparse]
  simp only [h1, h2]
  rw [if_neg]
  simp [int_triangle]

/-- C3: for every N up to 65535 and every list of interval arguments, in any
order, whose ranges are a set-partition of [0, N), the coverage check of
semctl setall accepts, with the count and the sum accumulated in the int
arithmetic of the code (32 bits, wrapping); for N >= 1 the setall branch then
goes on to the fill pass with its array of N elements. -/
theorem setall_check_accepts_partition (argv : List (List Char)) (ranges : List (Nat × Nat))
    (sem_nsems : Nat) (hN : sem_nsems ≤ 65535)
    (hparse : List.Forall₂ (fun a r => get_interval a '=' = .ok r) argv ranges)
    (hpart : is_partition ranges sem_nsems) :
    setall_check argv sem_nsems = .ok () ∧
    (1 ≤ sem_nsems →
      ipcmd_semctl_setall argv (.ok sem_nsems) = setall_fill argv (malloc sem_nsems)) :=
  setall_partition_accepted argv ranges sem_nsems hN hparse hpart

/-- Witness of C3 at the arguments 2:3=7 and 0:1=5 of a set of 4 semaphores. -/
theorem setall_check_accepts_partition_witness :
    setall_check ["2:3=7".toList, "0:1=5".toList] 4 = .ok () :=
  (setall_check_accepts_partition ["2:3=7".toList, "0:1=5".toList] [(2, 3), (0, 1)] 4
    (by decide)
    (List.Forall₂.cons (by decide) (List.Forall₂.cons (by decide) List.Forall₂.nil))
    (by decide)).1

/-- C2, the code at a failing input: for a set of 3 semaphores the arguments
1=5 1=5 1=5 pass the coverage check (3 values, and 1 + 1 + 1 = 0 + 1 + 2),
although the semaphores 0 and 2 lie in no range and 1 lies in three; the array
handed to SETALL keeps indeterminate values at 0 and 2. For a set of 6 the
arguments 0:1=1 0=2 4:5=3 5=4 pass as well, with 2 and 3 in no range. -/
theorem setall_check_accepts_non_partition :
    setall_check ["1=5".toList, "1=5".toList, "1=5".toList] 3 = .ok () ∧
    ¬ is_partition [(1, 1), (1, 1), (1, 1)] 3 ∧
    ipcmd_semctl_setall ["1=5".toList, "1=5".toList, "1=5".toList] (.ok 3) =
      .ok [none, some 5, none] ∧
    setall_check ["0:1=1".toList, "0=2".toList, "4:5=3".toList, "5=4".toList] 6 = .ok () ∧
    ¬ is_partition [(0, 1), (0, 0), (4, 5), (5, 5)] 6 ∧
    ipcmd_semctl_setall ["0:1=1".toList, "0=2".toList, "4:5=3".toList, "5=4".toList] (.ok 6) =
      .ok [some 2, some 1, none, none, some 3, some 4] := by
  refine ⟨by decide, by decide, by decide, by decide, by decide, by decide⟩

/-- C4, the code at a failing input: for a set of 3 semaphores the arguments
0=1 0=1 3=1 pass the coverage check (3 values, and 0 + 0 + 3 = 0 + 1 + 2), the
range of the third argument has upper bound 3 > N - 1, and the fill pass stores
at index 3 of the array of 3 elements. -/
theorem setall_fill_writes_beyond_array :
    setall_check ["0=1".toList, "0=1".toList, "3=1".toList] 3 = .ok () ∧
    get_interval "3=1".toList '=' = .ok (3, 3) ∧
    ipcmd_semctl_setall ["0=1".toList, "0=1".toList, "3=1".toList] (.ok 3) =
      .error (.heap_overflow 3) := by
  decide

/-! ## ipcmd semop, whole set form: the operand and the compiled list -/

theorem dropWhile_isspace_append (ws s : List Char) (hws : ∀ c ∈ ws, isspace c = true) :
    (ws ++ s).dropWhile isspace = s.dropWhile isspace := by
  induction ws with
  | nil => rfl
  | cons c cs ih =>
    have hc : isspace c = true := hws c (List.mem_cons_self _ _)
    simp only [List.cons_append, List.dropWhile_cons, hc, if_true]
    exact ih (fun d hd => hws d (List.mem_cons_of_mem _ hd))

theorem starts_with_integer_append (ws s : List Char) (hws : ∀ c ∈ ws, isspace c = true) :
    starts_with_integer (ws ++ s) = starts_with_integer s := by
  unfold starts_with_integer
  rw [dropWhile_isspace_append ws s hws]

theorem strtol_isdigit_of_integer (s : List Char) (h : starts_with_integer s = true) :
    isdigit (deref (if deref (s.dropWhile isspace) = '-' ∨ deref (s.dropWhile isspace) = '+'
      then (s.dropWhile isspace).tail else s.dropWhile isspace)) = true := by
  by_contra hn
  have hlen := strtol_integer_length s h
  unfold strtol at hlen
  simp only [hn] at hlen
  simp at hlen

theorem strtol_white_space (ws s : List Char) (hws : ∀ c ∈ ws, isspace c = true)
    (h : starts_with_integer s = true) : strtol (ws ++ s) = strtol s := by
  have h1 := strtol_isdigit_of_integer s h
  have h2 := strtol_isdigit_of_integer (ws ++ s) (by rw [starts_with_integer_append ws s hws, h])
  rw [dropWhile_isspace_append ws s hws] at h2
  unfold strtol
  simp only [dropWhile_isspace_append ws s hws, h1, if_true]

theorem isdigit_deref_dropWhile (t : List Char) :
    isdigit (deref (t.dropWhile isdigit)) = false := by
  induction t with
  | nil => decide
  | cons c cs ih =>
    by_cases hc : isdigit c = true
    · simp only [List.dropWhile_cons, hc, if_true, ih]
    · simp only [List.dropWhile_cons, hc, if_false, deref_cons]
      simpa using hc

theorem numeral_takeWhile (t : List Char) (h : isdigit (deref t) = true) :
    is_numeral (t.takeWhile isdigit) := by
  cases t with
  | nil => exact absurd h (by decide)
  | cons c cs =>
    have hc : isdigit c = true := h
    refine ⟨by simp [List.takeWhile_cons, hc], fun d hd => ?_⟩
    exact (List.mem_takeWhile_imp hd)

theorem strtol_integer_form (s : List Char) (h : starts_with_integer s = true) :
    ∃ ws sg ds rest, s = ws ++ (sg ++ ds ++ rest) ∧ (∀ c ∈ ws, isspace c = true) ∧
      is_sign sg ∧ is_numeral ds ∧ isdigit (deref rest) = false ∧
      strtol s = strtol (sg ++ ds ++ rest) := by
  have hdig := strtol_isdigit_of_integer s h
  have hs : s = s.takeWhile isspace ++ s.dropWhile isspace :=
    (List.takeWhile_append_dropWhile _ _).symm
  have hws : ∀ c ∈ s.takeWhile isspace, isspace c = true := fun c hc =>
    List.mem_takeWhile_imp hc
  have hstart : starts_with_integer (s.dropWhile isspace) = true := by
    rw [← starts_with_integer_append _ _ hws, ← hs]; exact h
  generalize s.dropWhile isspace = s1 at hdig hs hstart
  generalize s.takeWhile isspace = ws at hs hws
  subst hs
  by_cases hsign : deref s1 = '-' ∨ deref s1 = '+'
  · rw [if_pos hsign] at hdig
    cases s1 with
    | nil => rcases hsign with h1 | h1 <;> exact absurd h1 (by decide)
    | cons c t =>
      simp only [deref_cons, List.tail_cons] at hsign hdig
      have hsg : is_sign [c] := by
        rcases hsign with rfl | rfl
        · exact Or.inr (Or.inl rfl)
        · exact Or.inr (Or.inr rfl)
      refine ⟨ws, [c], t.takeWhile isdigit, t.dropWhile isdigit, ?_, hws, hsg,
        numeral_takeWhile t hdig, isdigit_deref_dropWhile t, ?_⟩
      · rw [List.append_assoc, List.takeWhile_append_dropWhile, List.singleton_append]
      · rw [List.append_assoc, List.takeWhile_append_dropWhile, List.singleton_append]
        exact strtol_white_space ws _ hws hstart
  · rw [if_neg hsign] at hdig
    refine ⟨ws, [], s1.takeWhile isdigit, s1.dropWhile isdigit, ?_, hws, is_sign_nil,
      numeral_takeWhile s1 hdig, isdigit_deref_dropWhile s1, ?_⟩
    · rw [List.nil_append, List.takeWhile_append_dropWhile]
    · rw [List.nil_append, List.takeWhile_append_dropWhile]
      exact strtol_white_space ws _ hws hstart

theorem get_short_arg_of_decimal (s : List Char) (v : Int) (hv : is_decimal_integer s v)
    (h0 : -32768 ≤ v) (h1 : v ≤ 32767) : get_short_arg s = .ok v := by
  obtain ⟨ws, sg, ds, rfl, hws, hsg, hds, rfl⟩ := hv
  have hstart := starts_with_integer_signed_numeral sg ds [] hsg hds
  have hst := strtol_signed_numeral_in_long sg ds [] hsg hds isdigit_deref_nil
    (by simp only [LONG_MIN]; omega) (by simp only [LONG_MAX]; omega)
  have hw := strtol_white_space ws (sg ++ ds ++ []) hws hstart
  rw [hst] at hw
  simp only [List.append_nil] at hw
  have hne : ds ≠ [] := hds.1
  have hlen : 0 < ds.length := List.length_pos.mpr hne
  unfold get_short_arg
  rw [List.append_assoc, hw]
  simp only [SHRT_MIN, SHRT_MAX, deref_nil, List.length_nil, List.length_append,
    cast_short_eq _ h0 h1]
  rw [if_neg (by simp), if_neg (by simp; omega), if_neg (by omega)]

theorem get_short_arg_decimal (s : List Char) (v : Int) (hnul : NUL ∉ s)
    (h : get_short_arg s = .ok v) :
    is_decimal_integer s v ∧ -32768 ≤ v ∧ v ≤ 32767 := by
  have hstart : starts_with_integer s = true := by
    by_contra hn
    have h0 := strtol_no_integer s (by simpa using hn)
    unfold get_short_arg at h
    simp [h0] at h
  obtain ⟨ws, sg, ds, rest, hs, hws, hsg, hds, hrest, hst⟩ := strtol_integer_form s hstart
  by_cases hl : LONG_MIN ≤ signed_value sg ds ∧ signed_value sg ds ≤ LONG_MAX
  swap
  · have he := strtol_signed_numeral_erange sg ds rest hsg hds hrest (by omega)
    unfold get_short_arg at h
    rw [hst] at h
    simp only [he, if_true] at h
    exact absurd h (by simp)
  have hform := strtol_signed_numeral_in_long sg ds rest hsg hds hrest hl.1 hl.2
  unfold get_short_arg at h
  rw [hst, hform] at h
  simp only [SHRT_MIN, SHRT_MAX] at h
  rw [if_neg (by simp)] at h
  by_cases h8 : rest.length = s.length ∨ deref rest ≠ NUL
  · rw [if_pos h8] at h; simp at h
  rw [if_neg h8] at h
  by_cases h9 : signed_value sg ds < -32768 ∨ signed_value sg ds > 32767
  · rw [if_pos h9] at h; simp at h
  rw [if_neg h9] at h
  simp only [Except.ok.injEq] at h
  have hrange : -32768 ≤ signed_value sg ds ∧ signed_value sg ds ≤ 32767 := by omega
  rw [cast_short_eq _ hrange.1 hrange.2] at h
  subst h
  have hnil : rest = [] := by
    cases rest with
    | nil => rfl
    | cons c cs =>
      exfalso
      have hc : c = NUL := by
        by_contra hcn
        exact h8 (Or.inr (by simpa using hcn))
      apply hnul
      rw [hs, hc]
      simp
  subst hnil
  exact ⟨⟨ws, sg, ds, by rw [hs]; simp, hws, hsg, hds, rfl⟩, hrange.1, hrange.2⟩

theorem semop_fill_all_spec (sem_op : Int) (sem_flg nsops : Nat) (hN : nsops ≤ 65535) :
    ∀ (mid pre : List (Option sembuf)) (fuel : Nat), pre.length + mid.length = nsops →
    mid.length < fuel →
    semop_fill_all sem_op sem_flg nsops fuel pre.length (pre ++ mid) =
      .ok (pre ++ (List.range' pre.length mid.length).map
        fun i => some ⟨i, sem_op, sem_flg⟩) := by
  intro mid
  induction mid with
  | nil =>
    intro pre fuel hlen hfuel
    cases fuel with
    | zero => simp at hfuel
    | succ fuel =>
      simp only [List.length_nil, Nat.add_zero] at hlen
      simp [semop_fill_all, hlen]
  | cons x mid ih =>
    intro pre fuel hlen hfuel
    cases fuel with
    | zero => simp at hfuel
    | succ fuel =>
      simp only [List.length_cons] at hlen hfuel
      have hlt : pre.length < nsops := by omega
      have hmod : (pre.length + 1) % 65536 = pre.length + 1 := by omega
      have hih := ih (pre ++ [some ⟨pre.length, sem_op, sem_flg⟩]) fuel
        (by simp only [List.length_append, List.length_singleton]; omega) (by omega)
      simp only [List.length_append, List.length_singleton, List.append_assoc,
        List.singleton_append] at hih
      simp only [semop_fill_all, hlt, if_true, store_at, hmod, hih, List.length_cons,
        List.range'_succ, List.map_cons]

theorem semop_fill_all_malloc (sem_op : Int) (sem_flg nsops : Nat) (hN : nsops ≤ 65535) :
    semop_fill_all sem_op sem_flg nsops 65537 0 (malloc nsops) =
      .ok ((List.range nsops).map fun i => some ⟨i, sem_op, sem_flg⟩) := by
  have h := semop_fill_all_spec sem_op sem_flg nsops hN (malloc nsops) [] 65537
    (by simp [malloc]) (by simp only [malloc, List.length_replicate]; omega)
  simp only [List.length_nil, List.nil_append, malloc, List.length_replicate] at h
  rw [List.range_eq_range']
  exact h

theorem semop_whole_set_eq (sem_flg : Nat) (operand : List Char) (rest : List (List Char))
    (N : Nat) (hform : (strchr operand '=').isSome = false)
    (hrest : rest = [] ∨ ∃ c cs, rest = [':'] :: c :: cs) (hN : N ≤ 65535) :
    ipcmd_semop_operands sem_flg (operand :: rest) (.ok N) =
      match get_short_arg operand with
      | .error e => .error e
      | .ok sem_op =>
        .ok ⟨(List.range N).map (fun i => some ⟨i, sem_op, sem_flg⟩), N,
             if rest = [] then none else some (rest.drop 1)⟩ := by
  unfold ipcmd_semop_operands
  simp only [hform, Bool.false_eq_true, if_false]
  rcases hrest with rfl | ⟨c, cs, rfl⟩
  · have hc : ¬ (2 < [operand].length ∧ [operand].getD 1 [] = [':']) := by simp
    rw [if_neg hc, if_neg (by simp)]
    cases hg : get_short_arg operand with
    | error e => rfl
    | ok sem_op =>
      simp only [semop_fill_all_malloc sem_op sem_flg N hN]
      rfl
  · have hc : (2 < (operand :: [':'] :: c :: cs).length ∧
        (operand :: [':'] :: c :: cs).getD 1 [] = [':']) := by
      refine ⟨by simp only [List.length_cons]; omega, rfl⟩
    rw [if_pos hc, if_neg (by simp)]
    cases hg : get_short_arg operand with
    | error e => rfl
    | ok sem_op =>
      simp only [semop_fill_all_malloc sem_op sem_flg N hN]
      simp

/-- C11: in the whole set form of ipcmd semop (the first operand has no '=',
and it is the only operand or is followed by ":" and a command) the operand is
accepted exactly when it is, entirely, a decimal integer V (as strtol reads
one: optional white space, optional sign, digits) with -32768 <= V <= 32767.
For a set of N <= 65535 semaphores the compiled list then has exactly N
entries, with the semaphore numbers 0, 1, ..., N - 1 in this order, each with
sem_op V and the same flag word. -/
theorem semop_whole_set_form (sem_flg : Nat) (operand : List Char)
    (rest : List (List Char)) (N : Nat) (hform : (strchr operand '=').isSome = false)
    (hrest : rest = [] ∨ ∃ c cs, rest = [':'] :: c :: cs) (hnul : NUL ∉ operand)
    (hN : N ≤ 65535) :
    ((∃ request, ipcmd_semop_operands sem_flg (operand :: rest) (.ok N) = .ok request) ↔
      ∃ V, is_decimal_integer operand V ∧ -32768 ≤ V ∧ V ≤ 32767) ∧
    (∀ V, is_decimal_integer operand V → -32768 ≤ V → V ≤ 32767 →
      ipcmd_semop_operands sem_flg (operand :: rest) (.ok N) =
        .ok ⟨(List.range N).map (fun i => some ⟨i, V, sem_flg⟩), N,
             if rest = [] then none else some (rest.drop 1)⟩) ∧
    (∀ V : Int,
      ((List.range N).map fun i => (some ⟨i, V, sem_flg⟩ : Option sembuf)).length = N) := by
  have heq := semop_whole_set_eq sem_flg operand rest N hform hrest hN
  refine ⟨⟨?_, ?_⟩, ?_, fun _ => by simp⟩
  · rintro ⟨request, hr⟩
    rw [heq] at hr
    cases hg : get_short_arg operand with
    | error e => rw [hg] at hr; simp at hr
    | ok sem_op => exact ⟨sem_op, get_short_arg_decimal operand sem_op hnul hg⟩
  · rintro ⟨V, hV, h0, h1⟩
    rw [heq, get_short_arg_of_decimal operand V hV h0 h1]
    exact ⟨_, rfl⟩
  · intro V hV h0 h1
    rw [heq, get_short_arg_of_decimal operand V hV h0 h1]

/-- Witness of C11 at the operand -7 followed by ":" and the command ls -l, with
the flag word IPC_NOWAIT and a set of 3 semaphores. -/
theorem semop_whole_set_form_witness :
    ipcmd_semop_operands IPC_NOWAIT ["-7".toList, ":".toList, "ls".toList, "-l".toList]
        (.ok 3) =
      .ok ⟨[some ⟨0, -7, IPC_NOWAIT⟩, some ⟨1, -7, IPC_NOWAIT⟩, some ⟨2, -7, IPC_NOWAIT⟩], 3,
           some ["ls".toList, "-l".toList]⟩ :=
  (semop_whole_set_form IPC_NOWAIT "-7".toList [":".toList, "ls".toList, "-l".toList] 3
    (by decide) (Or.inr ⟨_, _, rfl⟩) (by decide) (by decide)).2.1 (-7)
    ⟨[], "-".toList, "7".toList, rfl, by decide, by decide, by decide, by decide⟩
    (by decide) (by decide)

/-! ## The separator of the two bounds -/

/-- C12, the code at a failing input: for the tokens 0,1=3u and 2,2=-1 on a
set of 3 semaphores get_interval reads the lower bound 0, finds neither a colon
nor the delimiter after it and leaves with "invalid argument"; neither the
compilation of ipcmd semop nor the coverage check of semctl setall gets past
the first token. The comma between the bounds is the form that the usage of
semctl setall and the comments on get_interval, get_interval_semval and
get_interval_sem_op state. -/
theorem comma_tokens_rejected :
    get_interval "0,1=3u".toList '=' = .error .missing_delimiter ∧
    get_interval "2,2=-1".toList '=' = .error .missing_delimiter ∧
    ipcmd_semop_operands 0 ["0,1=3u".toList, "2,2=-1".toList] (.ok 3) =
      .error .missing_delimiter ∧
    setall_check ["0,1=3u".toList, "2,2=-1".toList] 3 = .error .missing_delimiter := by
  decide

/-- The same two tokens written with the colon between the bounds, 0:1=3u and
2:2=-1, on a set of 3 semaphores: both parsers succeed and the
compilation yields, in this order, the operations for semaphore 0 and
semaphore 1 with magnitude 3 and SEM_UNDO set, then the operation for
semaphore 2 with magnitude -1 and no flag; the coverage check on the ranges
passes, and the ranges are a partition of [0, 3). -/
theorem colon_tokens_compiled :
    get_interval "0:1=3u".toList '=' = .ok (0, 1) ∧
    get_interval_sem_op "0:1=3u".toList = .ok (3, SEM_UNDO) ∧
    get_interval "2:2=-1".toList '=' = .ok (2, 2) ∧
    get_interval_sem_op "2:2=-1".toList = .ok (-1, 0) ∧
    ipcmd_semop_operands 0 ["0:1=3u".toList, "2:2=-1".toList] (.ok 3) =
      .ok ⟨[some ⟨0, 3, SEM_UNDO⟩, some ⟨1, 3, SEM_UNDO⟩, some ⟨2, -1, 0⟩], 3, none⟩ ∧
    setall_check ["0:1=3u".toList, "2:2=-1".toList] 3 = .ok () ∧
    is_partition [(0, 1), (2, 2)] 3 := by
  decide

/-! ## Compiling and grouping again -/

theorem regroup_run (sem_op : Int) (sem_flg : Nat) (gs : List interval_op) (k : Nat) :
    ∀ (lo : Nat) (es : List sembuf), regroup es = gs →
    (∀ g, gs.head? = some g →
      ¬ (g.lower = lo + k + 1 ∧ g.sem_op = sem_op ∧ g.sem_flg = sem_flg)) →
    regroup ((List.range' lo (k + 1)).map (fun n => (⟨n, sem_op, sem_flg⟩ : sembuf)) ++ es) =
      ⟨lo, lo + k, sem_op, sem_flg⟩ :: gs := by
  induction k with
  | zero =>
    intro lo es hes hhead
    have hlist : (List.range' lo (0 + 1)).map (fun n => (⟨n, sem_op, sem_flg⟩ : sembuf)) ++ es =
        ⟨lo, sem_op, sem_flg⟩ :: es := rfl
    rw [hlist, regroup, hes]
    cases gs with
    | nil => rfl
    | cons g gs' =>
      have := hhead g rfl
      simp only [Nat.add_zero] at this
      simp only [this, if_false, Nat.add_zero]
  | succ k ih =>
    intro lo es hes hhead
    have hih := ih (lo + 1) es hes (fun g hg => by
      have := hhead g hg
      rw [show lo + 1 + k + 1 = lo + (k + 1) + 1 by omega]
      exact this)
    rw [List.range'_succ, List.map_cons, List.cons_append, regroup, hih]
    simp only [and_self, if_true]
    congr 1
    have : lo + 1 + k = lo + (k + 1) := by omega
    rw [this]

theorem regroup_expand (additions : Nat) : ∀ (toks : List interval_op) (start n : Nat),
    covers_from start toks n = true → payloads_differ additions toks = true →
    regroup (toks.flatMap (expand additions)) =
      toks.map fun t => ⟨t.lower, t.upper, t.sem_op, t.sem_flg ||| additions⟩ := by
  intro toks
  induction toks with
  | nil => intro _ _ _ _; rfl
  | cons t ts ih =>
    intro start n hcov hdiff
    simp only [covers_from, Bool.and_eq_true, beq_iff_eq, decide_eq_true_eq] at hcov
    obtain ⟨⟨-, hle⟩, hcov'⟩ := hcov
    have hdiff' : payloads_differ additions ts = true := by
      cases ts with
      | nil => rfl
      | cons u us =>
        simp only [payloads_differ, Bool.and_eq_true] at hdiff
        exact hdiff.2
    have hih := ih (t.upper + 1) n hcov' hdiff'
    have hk : t.upper + 1 - t.lower = (t.upper - t.lower) + 1 := by omega
    have hrun := regroup_run t.sem_op (t.sem_flg ||| additions)
      (ts.map fun u => ⟨u.lower, u.upper, u.sem_op, u.sem_flg ||| additions⟩)
      (t.upper - t.lower) t.lower (ts.flatMap (expand additions)) hih (by
        intro g hg
        cases ts with
        | nil => simp at hg
        | cons u us =>
          simp only [List.map_cons, List.head?_cons, Option.some.injEq] at hg
          subst hg
          simp only [payloads_differ, Bool.and_eq_true, decide_eq_true_eq] at hdiff
          rintro ⟨-, h2, h3⟩
          rcases hdiff.1 with h | h
          · exact h h2.symm
          · exact h h3.symm)
    simp only [List.flatMap_cons, expand, hk, List.map_cons]
    simp only [expand] at hrun
    rw [hrun]
    congr 2
    omega

theorem covers_from_length (additions : Nat) : ∀ (toks : List interval_op) (start n : Nat),
    covers_from start toks n = true →
    start + (toks.flatMap (expand additions)).length = n := by
  intro toks
  induction toks with
  | nil =>
    intro start n h
    simp only [covers_from, beq_iff_eq] at h
    simp [h]
  | cons t ts ih =>
    intro start n hcov
    simp only [covers_from, Bool.and_eq_true, beq_iff_eq, decide_eq_true_eq] at hcov
    obtain ⟨⟨h1, hle⟩, hcov'⟩ := hcov
    have := ih (t.upper + 1) n hcov'
    simp only [List.flatMap_cons, List.length_append, expand_length]
    omega

/-- C13 as stated fails: the tokens 0:1=5 and 2:3=5 are a partition of [0, 4)
given in ascending order, they compile to four entries with the same payload,
and grouping the maximal runs of consecutive entries with equal payload gives
the single range 0:3, not the two ranges of the input. -/
theorem regroup_merges_equal_neighbours :
    parses "0:1=5".toList ⟨0, 1, 5, 0⟩ ∧ parses "2:3=5".toList ⟨2, 3, 5, 0⟩ ∧
    covers_from 0 [⟨0, 1, 5, 0⟩, ⟨2, 3, 5, 0⟩] 4 = true ∧
    set_interval_sops ["0:1=5".toList, "2:3=5".toList] (malloc 4) 0 =
      .ok ([some ⟨0, 5, 0⟩, some ⟨1, 5, 0⟩, some ⟨2, 5, 0⟩, some ⟨3, 5, 0⟩], 4) ∧
    regroup [⟨0, 5, 0⟩, ⟨1, 5, 0⟩, ⟨2, 5, 0⟩, ⟨3, 5, 0⟩] = [⟨0, 3, 5, 0⟩] ∧
    regroup [⟨0, 5, 0⟩, ⟨1, 5, 0⟩, ⟨2, 5, 0⟩, ⟨3, 5, 0⟩] ≠
      [⟨0, 1, 5, 0⟩, ⟨2, 3, 5, 0⟩] := by
  decide

/-- C13 amended: for every list of interval tokens whose ranges are gap-free
and non-overlapping (a partition of [0, N) given in ascending order) and in
which no two neighbouring tokens carry the same payload, compiling with
set_interval_sops and then grouping the maximal runs of consecutive entries
with equal payload recovers exactly the original list of ranges, each with the
sem_op of its token and the flag word compiled for it (the flags of the token
joined with sem_flg_additions; with no additions, the tokens themselves). -/
theorem regroup_round_trip (argv : List (List Char)) (toks : List interval_op)
    (sem_flg_additions N : Nat) (hparse : List.Forall₂ parses argv toks)
    (hcover : covers_from 0 toks N = true)
    (hdiffer : payloads_differ sem_flg_additions toks = true) :
    set_interval_sops argv (malloc N) sem_flg_additions =
      .ok ((toks.flatMap (expand sem_flg_additions)).map some, N) ∧
    regroup (toks.flatMap (expand sem_flg_additions)) =
      toks.map (fun t => ⟨t.lower, t.upper, t.sem_op, t.sem_flg ||| sem_flg_additions⟩) ∧
    (sem_flg_additions = 0 → regroup (toks.flatMap (expand sem_flg_additions)) = toks) := by
  have hlen := covers_from_length sem_flg_additions toks 0 N hcover
  rw [Nat.zero_add] at hlen
  have hgroup := regroup_expand sem_flg_additions toks 0 N hcover hdiffer
  refine ⟨?_, hgroup, ?_⟩
  · have h := set_interval_sops_from_spec sem_flg_additions argv toks hparse []
      (malloc N) [] (by simp [malloc, hlen])
    simp only [List.nil_append, List.append_nil, List.length_nil, Nat.zero_add, malloc,
      List.length_replicate] at h
    unfold set_interval_sops
    simp only [malloc]
    exact h
  · intro h0
    rw [hgroup, h0]
    simp

/-- Witness of C13 amended at the tokens 0:1=3u and 2:2=-1, with no additions. -/
theorem regroup_round_trip_witness :
    regroup (List.flatMap [⟨0, 1, 3, SEM_UNDO⟩, ⟨2, 2, -1, 0⟩] (expand 0)) =
      [⟨0, 1, 3, SEM_UNDO⟩, ⟨2, 2, -1, 0⟩] :=
  (regroup_round_trip ["0:1=3u".toList, "2:2=-1".toList]
    [⟨0, 1, 3, SEM_UNDO⟩, ⟨2, 2, -1, 0⟩] 0 3
    (List.Forall₂.cons (by decide) (List.Forall₂.cons (by decide) List.Forall₂.nil))
    (by decide) (by decide)).2.2 rfl

/-! ## ipcmd semop, interval form: tokens and command -/

theorem getD_append_length (done rest : List (List Char)) (a d : List Char) :
    (done ++ a :: rest).getD done.length d = a := by
  induction done with
  | nil => rfl
  | cons x done ih => exact ih

theorem semop_command_arg_none : ∀ (todo done : List (List Char)), [':'] ∉ todo →
    semop_command_arg (done ++ todo) todo.length done.length = .ok 0 := by
  intro todo
  induction todo with
  | nil => intro done _; rfl
  | cons a todo ih =>
    intro done hno
    have ha : a ≠ [':'] := fun h => hno (h ▸ List.mem_cons_self _ _)
    have hih := ih (done ++ [a]) (fun h => hno (List.mem_cons_of_mem _ h))
    have hl : (done ++ [a]).length = done.length + 1 := by simp
    rw [hl, List.append_assoc, List.singleton_append] at hih
    show semop_command_arg (done ++ a :: todo) (todo.length + 1) done.length = _
    rw [semop_command_arg, getD_append_length, if_neg ha, hih]

theorem semop_command_arg_found : ∀ (toks done cmd : List (List Char)), [':'] ∉ toks →
    semop_command_arg (done ++ (toks ++ [':'] :: cmd)) (toks ++ [':'] :: cmd).length
        done.length =
      if cmd = [] then .error .usage else .ok (done.length + toks.length + 1) := by
  intro toks
  induction toks with
  | nil =>
    intro done cmd _
    show semop_command_arg (done ++ [':'] :: cmd) (cmd.length + 1) done.length = _
    rw [semop_command_arg, getD_append_length, if_pos rfl]
    cases cmd with
    | nil => simp
    | cons c cs => simp
  | cons a toks ih =>
    intro done cmd hno
    have ha : a ≠ [':'] := fun h => hno (h ▸ List.mem_cons_self _ _)
    have hih := ih (done ++ [a]) cmd (fun h => hno (List.mem_cons_of_mem _ h))
    have hl : (done ++ [a]).length = done.length + 1 := by simp
    rw [hl, List.append_assoc, List.singleton_append] at hih
    show semop_command_arg (done ++ a :: (toks ++ [':'] :: cmd))
      ((toks ++ [':'] :: cmd).length + 1) done.length = _
    rw [semop_command_arg, getD_append_length, if_neg ha, hih]
    simp only [List.length_cons]
    congr 2
    omega

theorem semop_interval_no_command (sem_flg : Nat) (first : List Char)
    (rest : List (List Char)) (stat : Except Failure Nat)
    (hfirst : (strchr first '=').isSome = true) (hno : [':'] ∉ rest) :
    ipcmd_semop_operands sem_flg (first :: rest) stat =
      semop_interval_request sem_flg (first :: rest) none := by
  have hc := semop_command_arg_none rest [first] hno
  simp only [List.singleton_append, List.length_singleton] at hc
  unfold ipcmd_semop_operands semop_interval_request
  simp only [hfirst, if_true, List.length_cons, Nat.add_sub_cancel, hc, Nat.lt_irrefl,
    gt_iff_lt, if_false]
  have htake : List.take (rest.length + 1) (first :: rest) = first :: rest := by
    rw [List.take_of_length_le]; simp
  rw [htake]

theorem semop_interval_command (sem_flg : Nat) (first : List Char)
    (toks cmd : List (List Char)) (stat : Except Failure Nat)
    (hfirst : (strchr first '=').isSome = true) (hno : [':'] ∉ toks) :
    ipcmd_semop_operands sem_flg (first :: (toks ++ [':'] :: cmd)) stat =
      if cmd = [] then .error .usage
      else semop_interval_request sem_flg (first :: toks) (some cmd) := by
  have hc := semop_command_arg_found toks [first] cmd hno
  simp only [List.singleton_append, List.length_singleton] at hc
  unfold ipcmd_semop_operands semop_interval_request
  simp only [hfirst, if_true, List.length_cons, Nat.add_sub_cancel, hc]
  by_cases hcmd : cmd = []
  · simp only [hcmd, if_true]
  · simp only [hcmd, if_false]
    have hpos : 1 + toks.length + 1 > 0 := by omega
    have htake : List.take (1 + toks.length + 1 - 1) (first :: (toks ++ [':'] :: cmd)) =
        first :: toks := by
      rw [show 1 + toks.length + 1 - 1 = toks.length + 1 by omega, List.take_succ_cons,
        List.take_left]
    have hdrop : List.drop (1 + toks.length + 1) (first :: (toks ++ [':'] :: cmd)) = cmd := by
      rw [show 1 + toks.length + 1 = (toks.length + 1) + 1 by omega, List.drop_succ_cons,
        show toks ++ [':'] :: cmd = (toks ++ [[':']]) ++ cmd by simp]
      have : toks.length + 1 = (toks ++ [[':']]).length := by simp
      rw [this, List.drop_left]
    simp only [hpos, if_true, htake, hdrop]

/-- C17: in the interval form of ipcmd semop (the first operand has a '='), the
operation tokens are exactly the operands before the first operand equal to
":", searched from the second operand on, and the command with its arguments
is exactly the operand vector after that ":"; when no operand is ":" every
operand is an operation token and there is no command; a ":" that is the last
operand is a usage error. -/
theorem semop_interval_form (sem_flg : Nat) (first : List Char) (rest : List (List Char))
    (stat : Except Failure Nat) (hfirst : (strchr first '=').isSome = true) :
    ([':'] ∉ rest →
      ipcmd_semop_operands sem_flg (first :: rest) stat =
        semop_interval_request sem_flg (first :: rest) none) ∧
    (∀ toks cmd, rest = toks ++ [':'] :: cmd → [':'] ∉ toks → cmd ≠ [] →
      ipcmd_semop_operands sem_flg (first :: rest) stat =
        semop_interval_request sem_flg (first :: toks) (some cmd)) ∧
    (∀ toks, rest = toks ++ [[':']] → [':'] ∉ toks →
      ipcmd_semop_operands sem_flg (first :: rest) stat = .error .usage) ∧
    (∀ tokens command request,
      semop_interval_request sem_flg tokens command = .ok request →
      request.command = command ∧ get_interval_count tokens 0 = .ok request.nsops ∧
      ∃ nsops, set_interval_sops tokens (malloc request.nsops) sem_flg =
        .ok (request.sops, nsops)) := by
  refine ⟨semop_interval_no_command sem_flg first rest stat hfirst, ?_, ?_, ?_⟩
  · intro toks cmd hrest hno hcmd
    rw [hrest, semop_interval_command sem_flg first toks cmd stat hfirst hno, if_neg hcmd]
  · intro toks hrest hno
    rw [hrest, semop_interval_command sem_flg first toks [] stat hfirst hno, if_pos rfl]
  · intro tokens command request h
    unfold semop_interval_request at h
    cases hc : get_interval_count tokens 0 with
    | error e => rw [hc] at h; simp at h
    | ok n =>
      rw [hc] at h
      simp only at h
      cases hs : set_interval_sops tokens (malloc n) sem_flg with
      | error e => rw [hs] at h; simp at h
      | ok r =>
        obtain ⟨sops, k⟩ := r
        rw [hs] at h
        simp only [Except.ok.injEq] at h
        subst h
        exact ⟨rfl, rfl, k, hs⟩

/-- Witness of C17 at the operands 0:1=3u 2=-1 : ls -l. -/
theorem semop_interval_form_witness :
    ipcmd_semop_operands 0
        ["0:1=3u".toList, "2=-1".toList, ":".toList, "ls".toList, "-l".toList] (.ok 3) =
      semop_interval_request 0 ["0:1=3u".toList, "2=-1".toList]
        (some ["ls".toList, "-l".toList]) :=
  (semop_interval_form 0 "0:1=3u".toList
    ["2=-1".toList, ":".toList, "ls".toList, "-l".toList] (.ok 3) (by decide)).2.1
    ["2=-1".toList] ["ls".toList, "-l".toList] rfl (by decide) (by decide)

/-! ## ipcmd semctl setall: the two forms do not mix -/

theorem setall_count_sum_ok (argv : List (List Char)) :
    ∀ (c s : Int) (r : Int × Int), setall_count_sum argv c s = .ok r →
    ∀ a ∈ argv, ∃ range, get_interval a '=' = .ok range := by
  induction argv with
  | nil => intro _ _ _ _ a ha; simp at ha
  | cons arg argv ih =>
    intro c s r h a ha
    unfold setall_count_sum at h
    cases hg : get_interval arg '=' with
    | error e => rw [hg] at h; simp at h
    | ok range =>
      rw [hg] at h
      rcases List.mem_cons.mp ha with rfl | hmem
      · exact ⟨range, hg⟩
      · exact ih _ _ r h a hmem

theorem setall_check_ok (argv : List (List Char)) (n : Nat)
    (h : setall_check argv n = .ok ()) :
    ∀ a ∈ argv, ∃ range, get_interval a '=' = .ok range := by
  unfold setall_check at h
  cases hc : setall_count_sum argv 0 0 with
  | error e => rw [hc] at h; simp at h
  | ok r => exact setall_count_sum_ok argv 0 0 r hc

/-- C18: semctl setall rejects every invocation with two or more value
operands of which at least one is a value without range (it has no '='): no
array is handed to SETALL. A value without range is taken for the whole set
only when it is the single operand. -/
theorem setall_rejects_mixed_forms (operands : List (List Char))
    (stat : Except Failure Nat) (set_fails : Bool) (hmany : 2 ≤ operands.length)
    (hplain : ∃ a ∈ operands, strchr a '=' = none) :
    (∃ e, ipcmd_semctl_setall operands stat = .error e) ∧
    (∀ array, kernel_call.semctl_SETALL array ∉
      (ipcmd_semctl_setall_run operands stat set_fails).calls) := by
  have hfail : ∀ st, ∃ e, ipcmd_semctl_setall operands st = .error e := by
    intro st
    apply except_error_of_not_ok
    intro array hok
    obtain ⟨a, ha, hnone⟩ := hplain
    unfold ipcmd_semctl_setall at hok
    have hne : operands ≠ [] := by
      intro h; rw [h] at hmany; simp at hmany
    rw [if_neg hne] at hok
    cases st with
    | error e => simp at hok
    | ok nsems =>
      simp only at hok
      rw [if_neg (by omega)] at hok
      cases hc : setall_check operands (cast_ushort (cast_short (nsems : Int))) with
      | error e => rw [hc] at hok; simp at hok
      | ok u =>
        obtain ⟨range, hr⟩ := setall_check_ok operands _ hc a ha
        exact get_interval_ok_strchr a range hr hnone
  refine ⟨hfail stat, ?_⟩
  intro array
  unfold ipcmd_semctl_setall_run
  by_cases h0 : operands = []
  · rw [if_pos h0]; simp
  · rw [if_neg h0]
    cases stat with
    | error e => simp
    | ok nsems =>
      obtain ⟨e, he⟩ := hfail (.ok nsems)
      simp [he]

/-- Witness of C18 at the operands 0:1=5 and 7 of a set of 3 semaphores. -/
theorem setall_rejects_mixed_forms_witness :
    ∃ e, ipcmd_semctl_setall ["0:1=5".toList, "7".toList] (.ok 3) = .error e :=
  (setall_rejects_mixed_forms ["0:1=5".toList, "7".toList] (.ok 3) false (by decide)
    ⟨"7".toList, by decide, by decide⟩).1

/-! ## The run of ipcmd semop -/

theorem ipcmd_semop_run_eq (sem_flg : Nat) (operands : List (List Char))
    (stat : Except Failure Nat) (applied : semop_outcome) (launched : Bool) :
    ∃ pre, (pre = [] ∨ (pre = [kernel_call.semctl_IPC_STAT] ∧
        ∃ first rest sem_op, operands = first :: rest ∧
          (strchr first '=').isSome = false ∧ get_short_arg first = .ok sem_op ∧
          ¬ ((if 2 < (first :: rest).length ∧ (first :: rest).getD 1 [] = [':']
              then 2 else 0) = 0 ∧ (first :: rest).length ≠ 1))) ∧
      ipcmd_semop_run sem_flg operands stat applied launched =
        match ipcmd_semop_operands sem_flg operands stat with
        | .error e => ⟨pre, ending_of e⟩
        | .ok request => semop_finish pre request applied launched := by
  unfold ipcmd_semop_run ipcmd_semop_operands
  cases operands with
  | nil => exact ⟨[], Or.inl rfl, rfl⟩
  | cons first rest =>
    simp only
    by_cases h1 : (strchr first '=').isSome = true
    · simp only [h1, if_true]
      refine ⟨[], Or.inl rfl, ?_⟩
      generalize semop_command_arg (first :: rest) ((first :: rest).length - 1) 1 = ca
      cases ca with
      | error e => rfl
      | ok command_arg =>
        simp only
        generalize get_interval_count _ 0 = cnt
        cases cnt with
        | error e => rfl
        | ok nsops =>
          simp only
          generalize set_interval_sops _ (malloc nsops) sem_flg = filled
          cases filled with
          | error e => rfl
          | ok r => rfl
    · simp only [h1, Bool.false_eq_true, if_false]
      by_cases h2 : (if 2 < (first :: rest).length ∧ (first :: rest).getD 1 [] = [':']
          then 2 else 0) = 0 ∧ (first :: rest).length ≠ 1
      · rw [if_pos h2, if_pos h2]
        exact ⟨[], Or.inl rfl, rfl⟩
      · rw [if_neg h2, if_neg h2]
        cases hg : get_short_arg first with
        | error e => exact ⟨[], Or.inl rfl, rfl⟩
        | ok sem_op =>
          refine ⟨[kernel_call.semctl_IPC_STAT],
            Or.inr ⟨rfl, first, rest, sem_op, rfl, by simpa using h1, hg, h2⟩, ?_⟩
          cases stat with
          | error e => rfl
          | ok nsops =>
            simp only
            generalize semop_fill_all sem_op sem_flg nsops 65537 0 (malloc nsops) = filled
            cases filled with
            | error e => rfl
            | ok sops => rfl

theorem ending_of_ne_exit_2 (e : Failure) : ending_of e ≠ .exit 2 := by
  cases e <;> simp [ending_of, EXIT_FAILURE]

/-- C14: in ipcmd semop the replacement of the process by the trailing command
(execvp) is attempted if and only if semop reported success and a command was
supplied; when execvp succeeds the command replaces the process; for every
failed apply, the would-block outcome included, the program exits without
attempting the launch. -/
theorem semop_launch_guarded (sem_flg : Nat) (operands : List (List Char))
    (stat : Except Failure Nat) (applied : semop_outcome) (launched : Bool) :
    (∀ command, kernel_call.execvp command ∈
        (ipcmd_semop_run sem_flg operands stat applied launched).calls ↔
      (applied = .success ∧ ∃ request,
        ipcmd_semop_operands sem_flg operands stat = .ok request ∧
        request.command = some command)) ∧
    (∀ request command, ipcmd_semop_operands sem_flg operands stat = .ok request →
      applied = .success → request.command = some command → launched = true →
      (ipcmd_semop_run sem_flg operands stat applied launched).ending = .replaced command) ∧
    (∀ errno, applied = .failed errno →
      (∀ command, kernel_call.execvp command ∉
        (ipcmd_semop_run sem_flg operands stat applied launched).calls) ∧
      (∀ request, ipcmd_semop_operands sem_flg operands stat = .ok request →
        (ipcmd_semop_run sem_flg operands stat applied launched).ending = .exit 2 ∨
        (ipcmd_semop_run sem_flg operands stat applied launched).ending =
          .exit EXIT_FAILURE)) := by
  obtain ⟨pre, hpre, heq⟩ := ipcmd_semop_run_eq sem_flg operands stat applied launched
  rw [heq]
  have hmem : ∀ command, kernel_call.execvp command ∉ pre := by
    intro command
    rcases hpre with rfl | ⟨rfl, -⟩ <;> simp
  cases hreq : ipcmd_semop_operands sem_flg operands stat with
  | error e =>
    refine ⟨fun command => ?_, ?_, fun errno _ => ⟨fun command => ?_, ?_⟩⟩
    · simp [hmem command]
    · intro request command h; simp at h
    · simp [hmem command]
    · intro request h; simp at h
  | ok request =>
    obtain ⟨sops, nsops, cmd⟩ := request
    refine ⟨fun command => ?_, ?_, fun errno happ => ⟨fun command => ?_, ?_⟩⟩
    · cases applied with
      | failed errno =>
        by_cases he : errno = .EAGAIN <;> simp [semop_finish, he, hmem command]
      | success =>
        cases cmd with
        | none => simp [semop_finish, hmem command]
        | some c =>
          cases launched <;> simp [semop_finish, hmem command, eq_comm]
    · intro request command h happ hcmd hl
      simp only [Except.ok.injEq] at h
      subst h happ hl
      simp only at hcmd
      subst hcmd
      simp [semop_finish]
    · subst happ
      by_cases he : errno = .EAGAIN <;> simp [semop_finish, he, hmem command]
    · intro request _
      subst happ
      by_cases he : errno = .EAGAIN <;> simp [semop_finish, he]

/-- C15: ipcmd semop exits with status 2 exactly when semop fails with the
would-block outcome (EAGAIN); every other failure of semop and every failure to
launch the command exits with EXIT_FAILURE, which is not 2; a successful apply
without a command ends with status 0. -/
theorem semop_exit_status (sem_flg : Nat) (operands : List (List Char))
    (stat : Except Failure Nat) (applied : semop_outcome) (launched : Bool) :
    ((ipcmd_semop_run sem_flg operands stat applied launched).ending = .exit 2 ↔
      ((∃ request, ipcmd_semop_operands sem_flg operands stat = .ok request) ∧
        applied = .failed .EAGAIN)) ∧
    (∀ request errno, ipcmd_semop_operands sem_flg operands stat = .ok request →
      applied = .failed errno → errno ≠ .EAGAIN →
      (ipcmd_semop_run sem_flg operands stat applied launched).ending =
        .exit EXIT_FAILURE) ∧
    (∀ request command, ipcmd_semop_operands sem_flg operands stat = .ok request →
      applied = .success → request.command = some command → launched = false →
      (ipcmd_semop_run sem_flg operands stat applied launched).ending =
        .exit EXIT_FAILURE) ∧
    (∀ request, ipcmd_semop_operands sem_flg operands stat = .ok request →
      applied = .success → request.command = none →
      (ipcmd_semop_run sem_flg operands stat applied launched).ending = .exit 0) ∧
    EXIT_FAILURE ≠ 2 ∧ EXIT_FAILURE ≠ 0 := by
  obtain ⟨pre, hpre, heq⟩ := ipcmd_semop_run_eq sem_flg operands stat applied launched
  rw [heq]
  cases hreq : ipcmd_semop_operands sem_flg operands stat with
  | error e =>
    refine ⟨?_, ?_, ?_, ?_, by decide, by decide⟩
    · simp [ending_of_ne_exit_2 e]
    · intro request errno h; simp at h
    · intro request command h; simp at h
    · intro request h; simp at h
  | ok request =>
    obtain ⟨sops, nsops, cmd⟩ := request
    refine ⟨?_, ?_, ?_, ?_, by decide, by decide⟩
    · cases applied with
      | failed errno =>
        by_cases he : errno = .EAGAIN <;> simp [semop_finish, he, EXIT_FAILURE]
      | success =>
        cases cmd with
        | none => simp [semop_finish]
        | some c => cases launched <;> simp [semop_finish, EXIT_FAILURE]
    · intro request errno _ happ he
      subst happ
      simp [semop_finish, he]
    · intro request command h happ hcmd hl
      simp only [Except.ok.injEq] at h
      subst h happ hl
      simp only at hcmd
      subst hcmd
      simp [semop_finish]
    · intro request h happ hcmd
      simp only [Except.ok.injEq] at h
      subst h happ
      simp only at hcmd
      subst hcmd
      simp [semop_finish]

/-! ## The first pass and the flags of the options -/

theorem cast_size_t_cardinality (lo up : Nat) (h : lo ≤ up) (hu : up ≤ 65535) :
    cast_size_t ((up : Int) - (lo : Int) + 1) = up + 1 - lo := by
  unfold cast_size_t; omega

theorem get_interval_count_spec (additions : Nat) (argv : List (List Char))
    (toks : List interval_op) (h : List.Forall₂ parses argv toks) :
    ∀ count, get_interval_count argv count =
      .ok (count + (toks.flatMap (expand additions)).length) := by
  induction h with
  | nil => intro count; rfl
  | @cons arg t argv toks hp _ ih =>
    intro count
    obtain ⟨hi, -⟩ := hp
    obtain ⟨hlu, hu⟩ := get_interval_bounds arg '=' _ _ hi
    simp only [get_interval_count, hi, ih, cast_size_t_cardinality _ _ hlu hu, List.flatMap_cons,
      List.length_append, expand_length, Nat.add_assoc]

theorem semop_interval_request_spec (sem_flg : Nat) (tokens : List (List Char))
    (toks : List interval_op) (command : Option (List (List Char)))
    (h : List.Forall₂ parses tokens toks) :
    semop_interval_request sem_flg tokens command =
      .ok ⟨(toks.flatMap (expand sem_flg)).map some, (toks.flatMap (expand sem_flg)).length,
           command⟩ := by
  have hc := get_interval_count_spec sem_flg tokens toks h 0
  rw [Nat.zero_add] at hc
  have hs := set_interval_sops_from_spec sem_flg tokens toks h []
    (malloc (toks.flatMap (expand sem_flg)).length) [] (by simp [malloc])
  simp only [List.nil_append, List.append_nil, List.length_nil, Nat.zero_add] at hs
  unfold semop_interval_request set_interval_sops
  simp only [hc, hs]

theorem or_and_self_right (a b : Nat) : (a ||| b) &&& b = b := by
  apply Nat.eq_of_testBit_eq
  intro i
  simp only [Nat.testBit_and, Nat.testBit_or]
  cases a.testBit i <;> cases b.testBit i <;> rfl

theorem or_keeps_flag (a b f : Nat) (h : a &&& f = f) : (a ||| b) &&& f = f := by
  apply Nat.eq_of_testBit_eq
  intro i
  have hi := congrArg (fun x => x.testBit i) h
  simp only [Nat.testBit_and] at hi
  simp only [Nat.testBit_and, Nat.testBit_or]
  revert hi
  cases a.testBit i <;> cases b.testBit i <;> cases f.testBit i <;> simp

theorem semop_option_flag_keeps (sem_flg f : Nat) (c : Char) (h : sem_flg &&& f = f) :
    semop_option_flag sem_flg c &&& f = f := by
  unfold semop_option_flag
  split_ifs
  · exact or_keeps_flag _ _ _ h
  · exact or_keeps_flag _ _ _ h
  · exact h

theorem semop_option_loop_keeps (f : Nat) : ∀ (opts : List Char) (sem_flg : Nat),
    sem_flg &&& f = f → semop_option_loop opts sem_flg &&& f = f := by
  intro opts
  induction opts with
  | nil => intro sem_flg h; exact h
  | cons c cs ih =>
    intro sem_flg h
    unfold semop_option_loop
    split_ifs
    · exact h
    · exact ih _ (semop_option_flag_keeps sem_flg f c h)

theorem semop_option_loop_sets (o : Char) (f : Nat)
    (hset : ∀ sem_flg, semop_option_flag sem_flg o &&& f = f) :
    ∀ (opts : List Char) (sem_flg : Nat),
    o ∈ opts.takeWhile (fun c => !isdigit c) → semop_option_loop opts sem_flg &&& f = f := by
  intro opts
  induction opts with
  | nil => intro _ h; simp at h
  | cons c cs ih =>
    intro sem_flg h
    by_cases hc : isdigit c = true
    · simp [List.takeWhile_cons, hc] at h
    · have hc' : isdigit c = false := by simpa using hc
      simp only [List.takeWhile_cons, hc', Bool.not_false, if_true, List.mem_cons] at h
      unfold semop_option_loop
      rw [if_neg hc]
      rcases h with rfl | h
      · exact semop_option_loop_keeps f cs _ (hset sem_flg)
      · exact ih _ h

theorem semop_option_flag_n (sem_flg : Nat) :
    semop_option_flag sem_flg 'n' &&& IPC_NOWAIT = IPC_NOWAIT := by
  unfold semop_option_flag
  rw [if_pos rfl]
  exact or_and_self_right _ _

theorem semop_option_flag_u (sem_flg : Nat) :
    semop_option_flag sem_flg 'u' &&& SEM_UNDO = SEM_UNDO := by
  unfold semop_option_flag
  rw [if_neg (by decide), if_pos rfl]
  exact or_and_self_right _ _

/-- C20: with the option -n every compiled operation has IPC_NOWAIT set, and
with -u every compiled operation has SEM_UNDO set, in the interval form and in
the whole set form: the flag word of each compiled entry is the bitwise or of
the flag word of the options and, in the interval form, the flags of its token.
The options are the option characters getopt returns before a digit ends the
option loop. -/
theorem semop_global_flags (opts : List Char) :
    ('n' ∈ opts.takeWhile (fun c => !isdigit c) →
      semop_option_loop opts 0 &&& IPC_NOWAIT = IPC_NOWAIT) ∧
    ('u' ∈ opts.takeWhile (fun c => !isdigit c) →
      semop_option_loop opts 0 &&& SEM_UNDO = SEM_UNDO) ∧
    (∀ tokens toks command, List.Forall₂ parses tokens toks →
      semop_interval_request (semop_option_loop opts 0) tokens command =
        .ok ⟨(toks.flatMap (expand (semop_option_loop opts 0))).map some,
             (toks.flatMap (expand (semop_option_loop opts 0))).length, command⟩) ∧
    (∀ first rest toks stat, (strchr first '=').isSome = true → [':'] ∉ rest →
      List.Forall₂ parses (first :: rest) toks →
      ipcmd_semop_operands (semop_option_loop opts 0) (first :: rest) stat =
        .ok ⟨(toks.flatMap (expand (semop_option_loop opts 0))).map some,
             (toks.flatMap (expand (semop_option_loop opts 0))).length, none⟩) ∧
    (∀ (t : interval_op) (e : sembuf), e ∈ expand (semop_option_loop opts 0) t →
      e.sem_flg = t.sem_flg ||| semop_option_loop opts 0 ∧
      ('n' ∈ opts.takeWhile (fun c => !isdigit c) → e.sem_flg &&& IPC_NOWAIT = IPC_NOWAIT) ∧
      ('u' ∈ opts.takeWhile (fun c => !isdigit c) → e.sem_flg &&& SEM_UNDO = SEM_UNDO)) ∧
    (∀ operand rest V N, (strchr operand '=').isSome = false →
      (rest = [] ∨ ∃ c cs, rest = [':'] :: c :: cs) →
      is_decimal_integer operand V → -32768 ≤ V → V ≤ 32767 → N ≤ 65535 →
      ipcmd_semop_operands (semop_option_loop opts 0) (operand :: rest) (.ok N) =
        .ok ⟨(List.range N).map (fun i => some ⟨i, V, semop_option_loop opts 0⟩), N,
             if rest = [] then none else some (rest.drop 1)⟩) := by
  have hn := semop_option_loop_sets 'n' IPC_NOWAIT semop_option_flag_n opts 0
  have hu := semop_option_loop_sets 'u' SEM_UNDO semop_option_flag_u opts 0
  refine ⟨hn, hu, ?_, ?_, ?_, ?_⟩
  · intro tokens toks command h
    exact semop_interval_request_spec _ tokens toks command h
  · intro first rest toks stat hfirst hno h
    rw [semop_interval_no_command _ first rest stat hfirst hno]
    exact semop_interval_request_spec _ _ toks none h
  · intro t e he
    simp only [expand, List.mem_map] at he
    obtain ⟨i, -, rfl⟩ := he
    refine ⟨rfl, fun h => ?_, fun h => ?_⟩
    · rw [Nat.lor_comm]; exact or_keeps_flag _ _ _ (hn h)
    · rw [Nat.lor_comm]; exact or_keeps_flag _ _ _ (hu h)
  · intro operand rest V N hform hrest hV h0 h1 hN
    rw [semop_whole_set_eq _ operand rest N hform hrest hN,
      get_short_arg_of_decimal operand V hV h0 h1]

/-- Witness of C20 at the options -n -u and the tokens 0:1=3 2=-1n. -/
theorem semop_global_flags_witness :
    ipcmd_semop_operands (semop_option_loop ['n', 'u'] 0) ["0:1=3".toList, "2=-1n".toList]
        (.ok 3) =
      .ok ⟨[some ⟨0, 3, IPC_NOWAIT ||| SEM_UNDO⟩, some ⟨1, 3, IPC_NOWAIT ||| SEM_UNDO⟩,
            some ⟨2, -1, IPC_NOWAIT ||| SEM_UNDO⟩], 3, none⟩ :=
  (semop_global_flags ['n', 'u']).2.2.2.1 "0:1=3".toList ["2=-1n".toList]
    [⟨0, 1, 3, 0⟩, ⟨2, 2, -1, IPC_NOWAIT⟩] (.ok 3) (by decide) (by decide)
    (List.Forall₂.cons (by decide) (List.Forall₂.cons (by decide) List.Forall₂.nil))

/-! ## No empty operation list -/

theorem get_interval_count_ge (argv : List (List Char)) :
    ∀ count n, get_interval_count argv count = .ok n → count + argv.length ≤ n := by
  induction argv with
  | nil =>
    intro count n h
    simp only [get_interval_count, Except.ok.injEq] at h
    simp only [List.length_nil]; omega
  | cons arg argv ih =>
    intro count n h
    unfold get_interval_count at h
    cases hg : get_interval arg '=' with
    | error e => rw [hg] at h; simp at h
    | ok r =>
      obtain ⟨lo, up⟩ := r
      rw [hg] at h
      simp only at h
      obtain ⟨hlu, hu⟩ := get_interval_bounds arg '=' lo up hg
      rw [cast_size_t_cardinality lo up hlu hu] at h
      have := ih _ n h
      simp only [List.length_cons]
      omega

theorem split_at_first_colon (rest : List (List Char)) (h : [':'] ∈ rest) :
    ∃ toks cmd, rest = toks ++ [':'] :: cmd ∧ [':'] ∉ toks := by
  induction rest with
  | nil => simp at h
  | cons a rest ih =>
    by_cases ha : a = [':']
    · exact ⟨[], rest, by rw [ha]; rfl, by simp⟩
    · rcases List.mem_cons.mp h with h1 | h1
      · exact absurd h1.symm ha
      · obtain ⟨toks, cmd, hr, hno⟩ := ih h1
        refine ⟨a :: toks, cmd, by rw [hr]; rfl, ?_⟩
        intro hm
        rcases List.mem_cons.mp hm with h2 | h2
        · exact ha h2.symm
        · exact hno h2

theorem semop_interval_request_count (sem_flg : Nat) (tokens : List (List Char))
    (command : Option (List (List Char))) (request : semop_request)
    (h : semop_interval_request sem_flg tokens command = .ok request) :
    tokens.length ≤ request.nsops := by
  unfold semop_interval_request at h
  cases hc : get_interval_count tokens 0 with
  | error e => rw [hc] at h; simp at h
  | ok n =>
    rw [hc] at h
    simp only at h
    cases hs : set_interval_sops tokens (malloc n) sem_flg with
    | error e => rw [hs] at h; simp at h
    | ok r =>
      rw [hs] at h
      simp only [Except.ok.injEq] at h
      subst h
      have := get_interval_count_ge tokens 0 n hc
      simp only
      omega

theorem semop_interval_nsops (sem_flg : Nat) (first : List Char) (rest : List (List Char))
    (stat : Except Failure Nat) (request : semop_request)
    (hfirst : (strchr first '=').isSome = true)
    (h : ipcmd_semop_operands sem_flg (first :: rest) stat = .ok request) :
    1 ≤ request.nsops := by
  by_cases hcolon : [':'] ∈ rest
  · obtain ⟨toks, cmd, hr, hno⟩ := split_at_first_colon rest hcolon
    rw [hr, semop_interval_command sem_flg first toks cmd stat hfirst hno] at h
    by_cases hcmd : cmd = []
    · rw [if_pos hcmd] at h; simp at h
    · rw [if_neg hcmd] at h
      have := semop_interval_request_count _ _ _ _ h
      simp only [List.length_cons] at this
      omega
  · rw [semop_interval_no_command sem_flg first rest stat hfirst hcolon] at h
    have := semop_interval_request_count _ _ _ _ h
    simp only [List.length_cons] at this
    omega

theorem ipcmd_semop_run_semop_call (sem_flg : Nat) (operands : List (List Char))
    (stat : Except Failure Nat) (applied : semop_outcome) (launched : Bool)
    (sops : List (Option sembuf)) (nsops : Nat)
    (h : kernel_call.semop sops nsops ∈
      (ipcmd_semop_run sem_flg operands stat applied launched).calls) :
    ∃ request, ipcmd_semop_operands sem_flg operands stat = .ok request ∧
      request.sops = sops ∧ request.nsops = nsops := by
  obtain ⟨pre, hpre, heq⟩ := ipcmd_semop_run_eq sem_flg operands stat applied launched
  rw [heq] at h
  have hmem : kernel_call.semop sops nsops ∉ pre := by
    rcases hpre with rfl | ⟨rfl, -⟩ <;> simp
  cases hreq : ipcmd_semop_operands sem_flg operands stat with
  | error e => rw [hreq] at h; exact absurd h hmem
  | ok request =>
    rw [hreq] at h
    refine ⟨request, rfl, ?_⟩
    obtain ⟨rs, rn, cmd⟩ := request
    cases applied with
    | failed errno =>
      by_cases he : errno = .EAGAIN <;>
        simp [semop_finish, he, hmem] at h <;> exact ⟨h.1.symm, h.2.symm⟩
    | success =>
      cases cmd with
      | none => simp [semop_finish, hmem] at h; exact ⟨h.1.symm, h.2.symm⟩
      | some c =>
        cases launched <;> simp [semop_finish, hmem] at h <;> exact ⟨h.1.symm, h.2.symm⟩

theorem semop_whole_set_nsops (sem_flg : Nat) (first : List Char) (rest : List (List Char))
    (N : Nat) (request : semop_request) (hfirst : (strchr first '=').isSome = false)
    (h : ipcmd_semop_operands sem_flg (first :: rest) (.ok N) = .ok request) :
    request.nsops = N := by
  unfold ipcmd_semop_operands at h
  simp only [hfirst, Bool.false_eq_true, if_false] at h
  split_ifs at h
  all_goals
    cases hg : get_short_arg first with
    | error e => rw [hg] at h; simp at h
    | ok sem_op =>
      rw [hg] at h
      simp only at h
      cases hf : semop_fill_all sem_op sem_flg N 65537 0 (malloc N) with
      | error e => rw [hf] at h; simp at h
      | ok sops =>
        rw [hf] at h
        simp only [Except.ok.injEq] at h
        rw [← h]

/-- C16: an empty specification is rejected, not submitted. ipcmd semop and
semctl setall without operands leave with the usage message before any kernel
call; the coverage check of setall rejects the empty list of ranges for every
N > 0; in the interval form of semop the number of operations is at least the
number of tokens, hence at least 1, so that semop is never called with zero
operations there, nor in the whole set form on a set that has a semaphore. -/
theorem empty_specification_rejected :
    (∀ sem_flg stat applied launched,
      ipcmd_semop_operands sem_flg [] stat = .error .usage ∧
      ipcmd_semop_run sem_flg [] stat applied launched = ⟨[], .exit EXIT_FAILURE⟩) ∧
    (∀ stat set_fails,
      ipcmd_semctl_setall [] stat = .error .usage ∧
      ipcmd_semctl_setall_run [] stat set_fails = ⟨[], .exit EXIT_FAILURE⟩) ∧
    (∀ N, 0 < N → setall_check [] N = .error .invalid_number_of_semvals) ∧
    (∀ sem_flg tokens command request,
      semop_interval_request sem_flg tokens command = .ok request →
      tokens.length ≤ request.nsops) ∧
    (∀ sem_flg first rest stat request, (strchr first '=').isSome = true →
      ipcmd_semop_operands sem_flg (first :: rest) stat = .ok request →
      1 ≤ request.nsops) ∧
    (∀ sem_flg first rest stat applied launched sops nsops,
      kernel_call.semop sops nsops ∈
        (ipcmd_semop_run sem_flg (first :: rest) stat applied launched).calls →
      ((strchr first '=').isSome = true ∨ ∃ N, stat = .ok N ∧ 1 ≤ N) →
      1 ≤ nsops) := by
  refine ⟨fun _ _ _ _ => ⟨rfl, rfl⟩, fun _ _ => ⟨rfl, rfl⟩, ?_, ?_, ?_, ?_⟩
  · intro N hN
    unfold setall_check
    simp only [setall_count_sum]
    rw [if_pos (Or.inl (by omega))]
  · intro sem_flg tokens command request h
    exact semop_interval_request_count sem_flg tokens command request h
  · intro sem_flg first rest stat request hfirst h
    exact semop_interval_nsops sem_flg first rest stat request hfirst h
  · intro sem_flg first rest stat applied launched sops nsops hcall hform
    obtain ⟨request, hreq, -, hn⟩ :=
      ipcmd_semop_run_semop_call sem_flg (first :: rest) stat applied launched sops nsops hcall
    rw [← hn]
    by_cases hfirst : (strchr first '=').isSome = true
    · exact semop_interval_nsops sem_flg first rest stat request hfirst hreq
    · rcases hform with h | ⟨N, rfl, hN⟩
      · exact absurd h hfirst
      · rw [semop_whole_set_nsops sem_flg first rest N request (by simpa using hfirst) hreq]
        exact hN

/-- Witness of C16 at the tokens 0:1=3u 2=-1, two tokens and three operations. -/
theorem empty_specification_rejected_witness :
    ["0:1=3u".toList, "2=-1".toList].length ≤
      (semop_request.mk [some ⟨0, 3, SEM_UNDO⟩, some ⟨1, 3, SEM_UNDO⟩, some ⟨2, -1, 0⟩] 3
        none).nsops :=
  empty_specification_rejected.2.2.2.1 0 ["0:1=3u".toList, "2=-1".toList] none
    ⟨[some ⟨0, 3, SEM_UNDO⟩, some ⟨1, 3, SEM_UNDO⟩, some ⟨2, -1, 0⟩], 3, none⟩ (by decide)

/-! ## Errors are found before the state of the kernel is changed -/

theorem get_interval_upper_error_exit (beginptr : List Char) (lo : Nat) (e : Failure)
    (h : get_interval_upper beginptr lo = .error e) : ending_of e = .exit EXIT_FAILURE := by
  unfold get_interval_upper at h
  simp only at h
  split_ifs at h
  all_goals (cases h; rfl)

theorem get_interval_error_exit (arg : List Char) (delimiter : Char) (e : Failure)
    (h : get_interval arg delimiter = .error e) : ending_of e = .exit EXIT_FAILURE := by
  unfold get_interval at h
  simp only at h
  split_ifs at h with h1 h2 h3 h4
  · cases h; rfl
  · cases h; rfl
  · cases h; rfl
  · cases hu : get_interval_upper (strtol arg).endptr.tail (cast_ushort (strtol arg).val) with
    | error e2 =>
      rw [hu] at h
      simp only [Except.error.injEq] at h
      subst h
      exact get_interval_upper_error_exit _ _ _ hu
    | ok r =>
      rw [hu] at h
      simp only at h
      split_ifs at h
      all_goals (cases h; rfl)
  · simp only at h
    split_ifs at h
    all_goals (cases h; rfl)

theorem get_interval_sem_op_error_exit (arg : List Char) (e : Failure)
    (h : get_interval_sem_op arg = .error e) : ending_of e = .exit EXIT_FAILURE := by
  unfold get_interval_sem_op at h
  cases hc : strchr arg '=' with
  | none => rw [hc] at h; cases h; rfl
  | some p =>
    rw [hc] at h
    simp only at h
    split_ifs at h
    all_goals (cases h; rfl)

theorem get_short_arg_error_exit (arg : List Char) (e : Failure)
    (h : get_short_arg arg = .error e) : ending_of e = .exit EXIT_FAILURE := by
  unfold get_short_arg at h
  simp only at h
  split_ifs at h
  all_goals (cases h; rfl)

theorem get_interval_count_error_exit (argv : List (List Char)) :
    ∀ count e, get_interval_count argv count = .error e →
    ending_of e = .exit EXIT_FAILURE := by
  induction argv with
  | nil => intro count e h; simp [get_interval_count] at h
  | cons arg argv ih =>
    intro count e h
    unfold get_interval_count at h
    cases hg : get_interval arg '=' with
    | error e2 =>
      rw [hg] at h
      simp only [Except.error.injEq] at h
      subst h
      exact get_interval_error_exit _ _ _ hg
    | ok r =>
      rw [hg] at h
      exact ih _ e h

theorem set_interval_sops_from_error_exit (additions : Nat) (argv : List (List Char)) :
    ∀ (count n : Nat), get_interval_count argv count = .ok n →
    ∀ (pre mid post : List (Option sembuf)), mid.length = n - count →
    ∀ e, set_interval_sops_from additions argv (pre ++ (mid ++ post)) pre.length = .error e →
    ending_of e = .exit EXIT_FAILURE := by
  induction argv with
  | nil => intro _ _ _ _ _ _ _ e h; simp [set_interval_sops_from] at h
  | cons arg argv ih =>
    intro count n hcount pre mid post hmid e h
    unfold get_interval_count at hcount
    cases hg : get_interval arg '=' with
    | error e2 => rw [hg] at hcount; simp at hcount
    | ok r =>
      obtain ⟨lo, up⟩ := r
      rw [hg] at hcount
      simp only at hcount
      obtain ⟨hlu, hu⟩ := get_interval_bounds arg '=' lo up hg
      rw [cast_size_t_cardinality lo up hlu hu] at hcount
      have hge := get_interval_count_ge argv _ n hcount
      obtain ⟨mid1, mid2, rfl, h1⟩ : ∃ mid1 mid2, mid = mid1 ++ mid2 ∧
          mid1.length = up + 1 - lo :=
        ⟨mid.take (up + 1 - lo), mid.drop (up + 1 - lo),
          (List.take_append_drop _ _).symm, by rw [List.length_take]; omega⟩
      have h2 : mid2.length = n - (count + (up + 1 - lo)) := by
        rw [List.length_append] at hmid; omega
      unfold set_interval_sops_from at h
      rw [hg] at h
      simp only at h
      cases ho : get_interval_sem_op arg with
      | error e2 =>
        rw [ho] at h
        simp only [Except.error.injEq] at h
        subst h
        exact get_interval_sem_op_error_exit _ _ ho
      | ok v =>
        obtain ⟨sem_op, sem_flg⟩ := v
        rw [ho] at h
        simp only at h
        have hinner := set_interval_sops_inner_spec sem_op (sem_flg ||| additions)
          (up + 1 - lo) lo pre mid1 (mid2 ++ post) h1 (by omega)
        rw [List.append_assoc, hinner] at h
        simp only at h
        have hih := ih _ n hcount
          (pre ++ (List.range' lo (up + 1 - lo)).map
            (fun i => some ⟨i, sem_op, sem_flg ||| additions⟩)) mid2 post h2 e
        simp only [List.length_append, List.length_map, List.length_range',
          List.append_assoc] at hih
        exact hih h

theorem semop_interval_request_error_exit (sem_flg : Nat) (tokens : List (List Char))
    (command : Option (List (List Char))) (e : Failure)
    (h : semop_interval_request sem_flg tokens command = .error e) :
    ending_of e = .exit EXIT_FAILURE := by
  unfold semop_interval_request at h
  cases hc : get_interval_count tokens 0 with
  | error e2 =>
    rw [hc] at h
    simp only [Except.error.injEq] at h
    subst h
    exact get_interval_count_error_exit tokens 0 _ hc
  | ok n =>
    rw [hc] at h
    simp only at h
    cases hs : set_interval_sops tokens (malloc n) sem_flg with
    | ok r => rw [hs] at h; simp at h
    | error e2 =>
      rw [hs] at h
      simp only [Except.error.injEq] at h
      subst h
      unfold set_interval_sops at hs
      have := set_interval_sops_from_error_exit sem_flg tokens 0 n hc [] (malloc n) []
        (by simp [malloc]) e2
      simp only [List.nil_append, List.append_nil, List.length_nil] at this
      exact this hs

theorem ipcmd_semop_operands_error_exit (sem_flg : Nat) (operands : List (List Char))
    (N : Nat) (hN : N ≤ 65535) (e : Failure)
    (h : ipcmd_semop_operands sem_flg operands (.ok N) = .error e) :
    ending_of e = .exit EXIT_FAILURE := by
  cases operands with
  | nil =>
    simp only [ipcmd_semop_operands, Except.error.injEq] at h
    subst h; rfl
  | cons first rest =>
    by_cases hfirst : (strchr first '=').isSome = true
    · by_cases hcolon : [':'] ∈ rest
      · obtain ⟨toks, cmd, hr, hno⟩ := split_at_first_colon rest hcolon
        rw [hr, semop_interval_command sem_flg first toks cmd _ hfirst hno] at h
        by_cases hcmd : cmd = []
        · rw [if_pos hcmd] at h; cases h; rfl
        · rw [if_neg hcmd] at h
          exact semop_interval_request_error_exit _ _ _ _ h
      · rw [semop_interval_no_command sem_flg first rest _ hfirst hcolon] at h
        exact semop_interval_request_error_exit _ _ _ _ h
    · unfold ipcmd_semop_operands at h
      simp only [hfirst, Bool.false_eq_true, if_false] at h
      by_cases husage : (if 2 < (first :: rest).length ∧ (first :: rest).getD 1 [] = [':']
          then 2 else 0) = 0 ∧ (first :: rest).length ≠ 1
      · rw [if_pos husage] at h; cases h; rfl
      · rw [if_neg husage] at h
        cases hg : get_short_arg first with
        | error e2 =>
          rw [hg] at h
          simp only [Except.error.injEq] at h
          subst h
          exact get_short_arg_error_exit _ _ hg
        | ok sem_op =>
          rw [hg] at h
          simp only [semop_fill_all_malloc sem_op sem_flg N hN] at h
          exact absurd h (by simp)

theorem ipcmd_semop_run_error (sem_flg : Nat) (operands : List (List Char))
    (N : Nat) (hN : N ≤ 65535) (e : Failure) (applied : semop_outcome) (launched : Bool)
    (h : ipcmd_semop_operands sem_flg operands (.ok N) = .error e) :
    ipcmd_semop_run sem_flg operands (.ok N) applied launched =
      ⟨[], .exit EXIT_FAILURE⟩ := by
  have hexit := ipcmd_semop_operands_error_exit sem_flg operands N hN e h
  obtain ⟨pre, hpre, heq⟩ := ipcmd_semop_run_eq sem_flg operands (.ok N) applied launched
  rw [h] at heq
  rcases hpre with rfl | ⟨rfl, first, rest, sem_op, rfl, hfirst, hg, husage⟩
  · rw [heq]
    show (⟨[], ending_of e⟩ : run) = _
    rw [hexit]
  · exfalso
    unfold ipcmd_semop_operands at h
    simp only [hfirst, Bool.false_eq_true, if_false] at h
    rw [if_neg husage, hg] at h
    simp only [semop_fill_all_malloc sem_op sem_flg N hN] at h
    exact absurd h (by simp)

theorem setall_check_error_exit (argv : List (List Char)) (n : Nat) (e : Failure)
    (h : setall_check argv n = .error e) : ending_of e = .exit EXIT_FAILURE := by
  unfold setall_check at h
  cases hc : setall_count_sum argv 0 0 with
  | ok r =>
    rw [hc] at h
    simp only at h
    split_ifs at h
    cases h; rfl
  | error e2 =>
    rw [hc] at h
    simp only [Except.error.injEq] at h
    subst h
    have key : ∀ (argv : List (List Char)) (c s : Int) (e : Failure),
        setall_count_sum argv c s = .error e → ending_of e = .exit EXIT_FAILURE := by
      intro argv
      induction argv with
      | nil => intro c s e h; simp [setall_count_sum] at h
      | cons arg argv ih =>
        intro c s e h
        unfold setall_count_sum at h
        cases hg : get_interval arg '=' with
        | error e3 =>
          rw [hg] at h
          simp only [Except.error.injEq] at h
          subst h
          exact get_interval_error_exit _ _ _ hg
        | ok r =>
          rw [hg] at h
          exact ih _ _ e h
    exact key argv 0 0 e2 hc

theorem get_interval_count_ok (argv : List (List Char)) :
    ∀ count n, get_interval_count argv count = .ok n →
    ∀ a ∈ argv, ∃ range, get_interval a '=' = .ok range := by
  induction argv with
  | nil => intro _ _ _ a ha; simp at ha
  | cons arg argv ih =>
    intro count n h a ha
    unfold get_interval_count at h
    cases hg : get_interval arg '=' with
    | error e => rw [hg] at h; simp at h
    | ok range =>
      rw [hg] at h
      rcases List.mem_cons.mp ha with rfl | hmem
      · exact ⟨range, hg⟩
      · exact ih _ n h a hmem

theorem set_interval_sops_from_ok (additions : Nat) (argv : List (List Char)) :
    ∀ (sops : List (Option sembuf)) (nsops : Nat) (r : List (Option sembuf) × Nat),
    set_interval_sops_from additions argv sops nsops = .ok r →
    ∀ a ∈ argv, ∃ v, get_interval_sem_op a = .ok v := by
  induction argv with
  | nil => intro _ _ _ _ a ha; simp at ha
  | cons arg argv ih =>
    intro sops nsops r h a ha
    unfold set_interval_sops_from at h
    cases hg : get_interval arg '=' with
    | error e => rw [hg] at h; simp at h
    | ok range =>
      rw [hg] at h
      simp only at h
      cases ho : get_interval_sem_op arg with
      | error e => rw [ho] at h; simp at h
      | ok v =>
        rw [ho] at h
        simp only at h
        rcases List.mem_cons.mp ha with rfl | hmem
        · exact ⟨v, ho⟩
        · cases hin : set_interval_sops_inner v.1 (v.2 ||| additions)
              (range.2 + 1 - range.1) range.1 sops nsops with
          | error e => rw [hin] at h; simp at h
          | ok st =>
            rw [hin] at h
            exact ih _ _ r h a hmem

theorem semop_interval_request_ok (sem_flg : Nat) (tokens : List (List Char))
    (command : Option (List (List Char))) (request : semop_request)
    (h : semop_interval_request sem_flg tokens command = .ok request) :
    ∀ a ∈ tokens, (∃ range, get_interval a '=' = .ok range) ∧
      ∃ v, get_interval_sem_op a = .ok v := by
  unfold semop_interval_request at h
  cases hc : get_interval_count tokens 0 with
  | error e => rw [hc] at h; simp at h
  | ok n =>
    rw [hc] at h
    simp only at h
    cases hs : set_interval_sops tokens (malloc n) sem_flg with
    | error e => rw [hs] at h; simp at h
    | ok r =>
      intro a ha
      exact ⟨get_interval_count_ok tokens 0 n hc a ha,
        set_interval_sops_from_ok sem_flg tokens _ 0 r hs a ha⟩

theorem setall_fill_ok (argv : List (List Char)) :
    ∀ (array r : List (Option Nat)), setall_fill argv array = .ok r →
    ∀ a ∈ argv, ∃ v, get_interval_semval a = .ok v := by
  induction argv with
  | nil => intro _ _ _ a ha; simp at ha
  | cons arg argv ih =>
    intro array r h a ha
    unfold setall_fill at h
    cases hg : get_interval arg '=' with
    | error e => rw [hg] at h; simp at h
    | ok range =>
      obtain ⟨lo, up⟩ := range
      rw [hg] at h
      simp only at h
      cases hf : setall_fill_interval arg up 65537 lo array with
      | error e => rw [hf] at h; simp at h
      | ok filled =>
        rw [hf] at h
        simp only at h
        rcases List.mem_cons.mp ha with rfl | hmem
        · obtain ⟨hlu, -⟩ := get_interval_bounds a '=' lo up hg
          unfold setall_fill_interval at hf
          rw [if_pos hlu] at hf
          cases hv : get_interval_semval a with
          | error e => rw [hv] at hf; simp at hf
          | ok v => exact ⟨v, rfl⟩
        · exact ih _ r h a hmem

/-- C19 as stated fails for semctl setall: with the malformed operand x=1, and
with the operands 0:1=5 1:3=7 that fail the coverage check of a set of 4, the
program has called the kernel (semctl with IPC_STAT, to learn the size of the
set) before it exits on the error. -/
theorem setall_asks_kernel_before_parsing :
    ipcmd_semctl_setall_run ["x=1".toList] (.ok 3) false =
      ⟨[.semctl_IPC_STAT], .exit EXIT_FAILURE⟩ ∧
    ipcmd_semctl_setall_run ["0:1=5".toList, "1:3=7".toList] (.ok 4) false =
      ⟨[.semctl_IPC_STAT], .exit EXIT_FAILURE⟩ := by
  decide

/-- Witness of C14 at ipcmd semop -1 : ls on a set of 2, semop and execvp
succeeding: the command replaces the process. -/
theorem semop_launch_guarded_witness :
    (ipcmd_semop_run 0 ["-1".toList, ":".toList, "ls".toList] (.ok 2) .success true).ending =
      .replaced ["ls".toList] :=
  (semop_launch_guarded 0 ["-1".toList, ":".toList, "ls".toList] (.ok 2) .success true).2.1
    ⟨[some ⟨0, -1, 0⟩, some ⟨1, -1, 0⟩], 2, some ["ls".toList]⟩ ["ls".toList]
    (by decide) rfl rfl rfl

/-- Witness of C15 at ipcmd semop 0=-1n when semop fails with EINTR: the exit
status is EXIT_FAILURE. -/
theorem semop_exit_status_witness :
    (ipcmd_semop_run 0 ["0=-1n".toList] (.ok 2) (.failed .EINTR) false).ending =
      .exit EXIT_FAILURE :=
  (semop_exit_status 0 ["0=-1n".toList] (.ok 2) (.failed .EINTR) false).2.1
    ⟨[some ⟨0, -1, IPC_NOWAIT⟩], 1, none⟩ .EINTR (by decide) rfl (by decide)

/-! ## get_int_arg -/

theorem get_int_arg_of_decimal (s : List Char) (v : Int) (hv : is_decimal_integer s v)
    (h0 : LONG_MIN ≤ v) (h1 : v ≤ LONG_MAX) : get_int_arg s = .ok (wrap_int v) := by
  obtain ⟨ws, sg, ds, rfl, hws, hsg, hds, rfl⟩ := hv
  have hstart := starts_with_integer_signed_numeral sg ds [] hsg hds
  have hst := strtol_signed_numeral_in_long sg ds [] hsg hds isdigit_deref_nil h0 h1
  have hw := strtol_white_space ws (sg ++ ds ++ []) hws hstart
  rw [hst] at hw
  simp only [List.append_nil] at hw
  have hlen : 0 < ds.length := List.length_pos.mpr hds.1
  unfold get_int_arg
  rw [List.append_assoc, hw]
  simp only [deref_nil, List.length_nil, List.length_append]
  rw [if_neg (by simp), if_neg (by simp; omega)]

theorem get_int_arg_of_decimal_erange (s : List Char) (v : Int) (hv : is_decimal_integer s v)
    (h : v < LONG_MIN ∨ LONG_MAX < v) : get_int_arg s = .error .strtol_errno := by
  obtain ⟨ws, sg, ds, rfl, hws, hsg, hds, rfl⟩ := hv
  have hstart := starts_with_integer_signed_numeral sg ds [] hsg hds
  have he := strtol_signed_numeral_erange sg ds [] hsg hds isdigit_deref_nil h
  have hw := strtol_white_space ws (sg ++ ds ++ []) hws hstart
  simp only [List.append_nil] at hw he
  unfold get_int_arg
  rw [List.append_assoc, hw]
  simp only [he, if_true]

theorem wrap_int_fixes_iff (v : Int) : wrap_int v = v ↔ INT_MIN ≤ v ∧ v ≤ INT_MAX := by
  unfold wrap_int INT_MIN INT_MAX
  omega

/-- C21, the code at a failing input: the argument 2147483648 is a decimal
integer of value INT_MAX + 1, outside the range of an int; strtol reads it into
the 64 bit long without error and get_int_arg returns, with the int
-2147483648, which is not the value of the argument. The same happens below
INT_MIN and for 4294967297, which comes back as 1. In general a decimal integer
of value V within the range of a long is returned as the low 32 bits of V, which
is V exactly when V is in the range of an int; get_int_arg only exits, on the
errno of strtol, when V is outside the range of a long. -/
theorem get_int_arg_returns_outside_int :
    is_decimal_integer "2147483648".toList 2147483648 ∧
    INT_MAX < 2147483648 ∧
    get_int_arg "2147483648".toList = .ok (-2147483648) ∧
    get_int_arg "-2147483649".toList = .ok 2147483647 ∧
    get_int_arg "4294967297".toList = .ok 1 ∧
    (∀ (s : List Char) (V : Int), is_decimal_integer s V → LONG_MIN ≤ V → V ≤ LONG_MAX →
      get_int_arg s = .ok (wrap_int V) ∧ (wrap_int V = V ↔ INT_MIN ≤ V ∧ V ≤ INT_MAX)) ∧
    (∀ (s : List Char) (V : Int), is_decimal_integer s V → V < LONG_MIN ∨ LONG_MAX < V →
      get_int_arg s = .error .strtol_errno) :=
  ⟨⟨[], [], "2147483648".toList, rfl, by simp, by decide, by decide, by decide⟩,
   by decide, by decide, by decide, by decide,
   fun s V hv h0 h1 => ⟨get_int_arg_of_decimal s V hv h0 h1, wrap_int_fixes_iff V⟩,
   fun s V hv h => get_int_arg_of_decimal_erange s V hv h⟩

/-! ## The term of one range in the setall check -/

theorem setall_count_sum_cons (arg : List Char) (argv : List (List Char)) (c s : Int)
    (lb ub : Nat) (h : get_interval arg '=' = .ok (lb, ub)) :
    setall_count_sum (arg :: argv) c s =
      setall_count_sum argv (wrap_int (c + wrap_int ((ub : Int) - (lb : Int) + 1)))
        (wrap_int (s + setall_sum_term lb ub)) := by
  rw [setall_count_sum, h]
  rfl

theorem setall_sum_term_eq (lb ub : Nat) :
    setall_sum_term lb ub = wrap_int (int_triangle (ub + 1) - int_triangle lb) := by
  rw [int_triangle_succ]
  rfl

theorem pred_mul_self_nonneg (x : Nat) : 0 ≤ (x : Int) * ((x : Int) - 1) := by
  cases x with
  | zero => simp
  | succ n => push_cast; exact mul_nonneg (by omega) (by omega)

theorem half_pred_mul_succ (i : Nat) :
    (((i + 1 : Nat) : Int) * (((i + 1 : Nat) : Int) - 1)) / 2 -
      ((i : Int) * ((i : Int) - 1)) / 2 = (i : Int) := by
  obtain ⟨m, hm⟩ := Int.even_mul_pred_self (i : Int)
  have hs : ((i + 1 : Nat) : Int) * (((i + 1 : Nat) : Int) - 1) =
      (i : Int) * ((i : Int) - 1) + 2 * (i : Int) := by push_cast; ring
  rw [hs, hm]
  omega

theorem range_sum_closed (lower upper : Nat) (h : lower ≤ upper) :
    range_sum lower upper =
      ((upper + 1 : Nat) : Int) * (((upper + 1 : Nat) : Int) - 1) / 2 -
        (lower : Int) * ((lower : Int) - 1) / 2 := by
  have ht := sum_range'_telescope (fun x : Nat => ((x : Int) * ((x : Int) - 1)) / 2)
    (upper + 1 - lower) lower
  have hu : lower + (upper + 1 - lower) = upper + 1 := by omega
  rw [hu] at ht
  have hm : ((List.range' lower (upper + 1 - lower)).map fun (i : Nat) => (i : Int)) =
      (List.range' lower (upper + 1 - lower)).map fun (i : Nat) =>
        ((i + 1 : Nat) : Int) * (((i + 1 : Nat) : Int) - 1) / 2 -
          (i : Int) * ((i : Int) - 1) / 2 :=
    List.map_congr_left fun i _ => (half_pred_mul_succ i).symm
  unfold range_sum
  rw [hm]
  exact ht

theorem int_triangle_small (x : Nat) (h : x ≤ 46341) :
    int_triangle x = ((x : Int) * ((x : Int) - 1)) / 2 := by
  have h0 := pred_mul_self_nonneg x
  have h1 : (x : Int) * ((x : Int) - 1) ≤ 2147441940 := by
    have hx : (x : Int) ≤ 46341 := by exact_mod_cast h
    nlinarith
  unfold int_triangle
  rw [wrap_int_eq _ (by omega) (by omega), tdiv_two, if_pos h0]

theorem setall_sum_term_small (lower upper : Nat) (h : lower ≤ upper) (hu : upper ≤ 46340) :
    setall_sum_term lower upper = range_sum lower upper := by
  rw [setall_sum_term_eq, range_sum_closed lower upper h,
    int_triangle_small (upper + 1) (by omega), int_triangle_small lower (by omega)]
  have h0 := pred_mul_self_nonneg lower
  have h1 := pred_mul_self_nonneg (upper + 1)
  have h2 : ((upper + 1 : Nat) : Int) * (((upper + 1 : Nat) : Int) - 1) ≤ 2147441940 := by
    have hx : ((upper + 1 : Nat) : Int) ≤ 46341 := by exact_mod_cast (by omega : upper + 1 ≤ 46341)
    have hx0 : (0 : Int) ≤ ((upper + 1 : Nat) : Int) := by positivity
    nlinarith
  have h3 : (lower : Int) * ((lower : Int) - 1) ≤ 2147441940 := by
    have hx : (lower : Int) ≤ 46341 := by exact_mod_cast (by omega : lower ≤ 46341)
    nlinarith
  apply wrap_int_eq <;> omega

/-- C22, the code at a failing input: for the range 0:46341 the product
(46341+1)*46341 = 2147534622 is beyond INT_MAX, the int product wraps, and
the term of the range is -1073716337 while the numbers 0 + 1 + ... + 46341 add
up to 1073767311; for the range 0:65535 the term is -32768 and the sum is
2147450880. The term is the one the first loop of setall adds to sem_num_sum,
and it is the sum of the numbers of the range for every range whose upper bound
is at most 46340. -/
theorem setall_sum_term_overflows :
    setall_sum_term 0 46341 = -1073716337 ∧ range_sum 0 46341 = 1073767311 ∧
    setall_sum_term 0 65535 = -32768 ∧ range_sum 0 65535 = 2147450880 ∧
    get_interval "0:46341=1".toList '=' = .ok (0, 46341) ∧
    (∀ (arg : List Char) (argv : List (List Char)) (c s : Int) (lb ub : Nat),
      get_interval arg '=' = .ok (lb, ub) →
      setall_count_sum (arg :: argv) c s =
        setall_count_sum argv (wrap_int (c + wrap_int ((ub : Int) - (lb : Int) + 1)))
          (wrap_int (s + setall_sum_term lb ub))) ∧
    (∀ lower upper : Nat, lower ≤ upper → upper ≤ 46340 →
      setall_sum_term lower upper = range_sum lower upper) :=
  ⟨by decide, by rw [range_sum_closed 0 46341 (by omega)]; decide,
   by decide, by rw [range_sum_closed 0 65535 (by omega)]; decide,
   by decide, setall_count_sum_cons, setall_sum_term_small⟩

/-! ## The two passes over the interval tokens agree -/

theorem forall₂_parses_of_forall (argv : List (List Char))
    (h : ∀ a ∈ argv, ∃ t, parses a t) : ∃ toks, List.Forall₂ parses argv toks := by
  induction argv with
  | nil => exact ⟨[], List.Forall₂.nil⟩
  | cons a argv ih =>
    obtain ⟨t, ht⟩ := h a (List.mem_cons_self a argv)
    obtain ⟨toks, htoks⟩ := ih fun b hb => h b (List.mem_cons_of_mem a hb)
    exact ⟨t :: toks, List.Forall₂.cons ht htoks⟩

theorem expand_total_length (additions : Nat) (argv : List (List Char))
    (toks : List interval_op) (h : List.Forall₂ parses argv toks) :
    (toks.flatMap (expand additions)).length =
      (toks.map fun t => t.upper - t.lower + 1).sum := by
  induction h with
  | nil => rfl
  | @cons arg t argv toks hp _ ih =>
    obtain ⟨hlu, -⟩ := get_interval_bounds arg '=' _ _ hp.1
    simp only [List.flatMap_cons, List.length_append, List.map_cons, List.sum_cons, ih,
      expand_length]
    omega

theorem set_interval_sops_after_count (sem_flg_additions : Nat) (argv : List (List Char))
    (n : Nat) (hfirst : get_interval_count argv 0 = .ok n)
    (sops : List (Option sembuf)) (nsops : Nat)
    (hsecond : set_interval_sops argv (malloc n) sem_flg_additions = .ok (sops, nsops)) :
    ∃ toks, List.Forall₂ parses argv toks ∧
      n = (toks.flatMap (expand sem_flg_additions)).length ∧ nsops = n ∧
      sops = (toks.flatMap (expand sem_flg_additions)).map some := by
  have h1 := get_interval_count_ok argv 0 n hfirst
  have h2 := set_interval_sops_from_ok sem_flg_additions argv (malloc n) 0 (sops, nsops) hsecond
  obtain ⟨toks, htoks⟩ := forall₂_parses_of_forall argv fun a ha => by
    obtain ⟨r, hr⟩ := h1 a ha
    obtain ⟨v, hv⟩ := h2 a ha
    exact ⟨⟨r.1, r.2, v.1, v.2⟩, hr, hv⟩
  have hc := get_interval_count_spec sem_flg_additions argv toks htoks 0
  rw [Nat.zero_add, hfirst] at hc
  have hn : n = (toks.flatMap (expand sem_flg_additions)).length := by
    simpa using hc
  have hs := set_interval_sops_from_spec sem_flg_additions argv toks htoks []
    (malloc n) [] (by rw [← hn]; simp [malloc])
  simp only [List.nil_append, List.append_nil, List.length_nil, Nat.zero_add] at hs
  unfold set_interval_sops at hsecond
  rw [hs] at hsecond
  simp only [Except.ok.injEq, Prod.mk.injEq] at hsecond
  refine ⟨toks, htoks, hn, ?_, hsecond.1.symm⟩
  rw [← hsecond.2]
  simp [malloc]

/-- C23: let the first pass get_interval_count return n on the tokens and the
array sops be the block of n entries allocated from it. Then the second pass
set_interval_sops never stores at an index at or beyond n, whatever its outcome;
and when it returns, the nsops it returns is n, the array has n entries and
every one of them has been written: the tokens are read as operations toks by
the two parsers, n is the sum over them of upper - lower + 1, and the array is
their expansion, entry by entry. The request that ipcmd semop hands to semop has
the count n of the first pass, which is the number of entries filled. -/
theorem second_pass_matches_first (sem_flg_additions : Nat) (argv : List (List Char))
    (n : Nat) (hfirst : get_interval_count argv 0 = .ok n) :
    (∀ i, set_interval_sops argv (malloc n) sem_flg_additions ≠ .error (.heap_overflow i)) ∧
    (∀ (sops : List (Option sembuf)) (nsops : Nat),
      set_interval_sops argv (malloc n) sem_flg_additions = .ok (sops, nsops) →
      nsops = n ∧ sops.length = n ∧ (∀ x ∈ sops, x ≠ none) ∧
      ∃ toks, List.Forall₂ parses argv toks ∧
        n = (toks.map fun t => t.upper - t.lower + 1).sum ∧
        sops = (toks.flatMap (expand sem_flg_additions)).map some) ∧
    (∀ (command : Option (List (List Char))) (request : semop_request),
      semop_interval_request sem_flg_additions argv command = .ok request →
      request.nsops = n ∧ request.sops.length = request.nsops ∧
      ∀ x ∈ request.sops, x ≠ none) := by
  refine ⟨?_, ?_, ?_⟩
  · intro i h
    have he := set_interval_sops_from_error_exit sem_flg_additions argv 0 n hfirst []
      (malloc n) [] (by simp [malloc]) (.heap_overflow i)
      (by simpa [set_interval_sops] using h)
    simp [ending_of] at he
  · intro sops nsops hsecond
    obtain ⟨toks, htoks, hn, hnsops, hsops⟩ :=
      set_interval_sops_after_count sem_flg_additions argv n hfirst sops nsops hsecond
    refine ⟨hnsops, ?_, ?_, toks, htoks, ?_, hsops⟩
    · rw [hsops, List.length_map, ← hn]
    · intro x hx
      rw [hsops] at hx
      obtain ⟨y, -, rfl⟩ := List.mem_map.mp hx
      simp
    · rw [hn, expand_total_length sem_flg_additions argv toks htoks]
  · intro command request h
    unfold semop_interval_request at h
    rw [hfirst] at h
    simp only at h
    cases hs : set_interval_sops argv (malloc n) sem_flg_additions with
    | error e => rw [hs] at h; simp at h
    | ok r =>
      obtain ⟨sops, nsops⟩ := r
      rw [hs] at h
      simp only [Except.ok.injEq] at h
      obtain ⟨toks, -, hn, -, hsops⟩ :=
        set_interval_sops_after_count sem_flg_additions argv n hfirst sops nsops hs
      subst h
      refine ⟨rfl, ?_, ?_⟩
      · show sops.length = n
        rw [hsops, List.length_map, ← hn]
      · intro x hx
        have hx2 : x ∈ sops := hx
        rw [hsops] at hx2
        obtain ⟨y, -, rfl⟩ := List.mem_map.mp hx2
        simp

theorem second_pass_matches_first_witness :
    get_interval_count ["0:2=1".toList, "5=-1n".toList] 0 = .ok 4 ∧
    set_interval_sops ["0:2=1".toList, "5=-1n".toList] (malloc 4) SEM_UNDO =
      .ok ([some ⟨0, 1, SEM_UNDO⟩, some ⟨1, 1, SEM_UNDO⟩, some ⟨2, 1, SEM_UNDO⟩,
            some ⟨5, -1, IPC_NOWAIT ||| SEM_UNDO⟩], 4) ∧
    (4 = 4 ∧
      [some (⟨0, 1, SEM_UNDO⟩ : sembuf), some ⟨1, 1, SEM_UNDO⟩, some ⟨2, 1, SEM_UNDO⟩,
        some ⟨5, -1, IPC_NOWAIT ||| SEM_UNDO⟩].length = 4) :=
  ⟨by decide, by decide,
   ((second_pass_matches_first SEM_UNDO ["0:2=1".toList, "5=-1n".toList] 4 (by decide)).2.1
      [some ⟨0, 1, SEM_UNDO⟩, some ⟨1, 1, SEM_UNDO⟩, some ⟨2, 1, SEM_UNDO⟩,
        some ⟨5, -1, IPC_NOWAIT ||| SEM_UNDO⟩] 4 (by decide)).1,
   ((second_pass_matches_first SEM_UNDO ["0:2=1".toList, "5=-1n".toList] 4 (by decide)).2.1
      [some ⟨0, 1, SEM_UNDO⟩, some ⟨1, 1, SEM_UNDO⟩, some ⟨2, 1, SEM_UNDO⟩,
        some ⟨5, -1, IPC_NOWAIT ||| SEM_UNDO⟩] 4 (by decide)).2.1⟩

/-! ## The fill pass of semctl setall -/

theorem setall_fill_interval_spec (arg : List Char) (semval sem_num_ubound : Nat)
    (hv : get_interval_semval arg = .ok semval) (hub : sem_num_ubound < 65535) :
    ∀ (k sem_num fuel : Nat) (array : List (Option Nat)),
    sem_num + k = sem_num_ubound + 1 → sem_num_ubound < array.length → k < fuel →
    ∃ filled, setall_fill_interval arg sem_num_ubound fuel sem_num array = .ok filled ∧
      filled.length = array.length ∧
      ∀ i, filled[i]? =
        if sem_num ≤ i ∧ i ≤ sem_num_ubound then some (some semval) else array[i]? := by
  intro k
  induction k with
  | zero =>
    intro sem_num fuel array hs _ hf
    obtain ⟨f, rfl⟩ : ∃ f, fuel = f + 1 := ⟨fuel - 1, by omega⟩
    rw [setall_fill_interval, if_neg (by omega)]
    exact ⟨array, rfl, rfl, fun i => by rw [if_neg (by omega)]⟩
  | succ k ih =>
    intro sem_num fuel array hs hl hf
    obtain ⟨f, rfl⟩ : ∃ f, fuel = f + 1 := ⟨fuel - 1, by omega⟩
    have hst : store array sem_num semval = .ok (array.set sem_num (some semval)) := by
      unfold store
      rw [if_pos (by omega)]
    have hmod : (sem_num + 1) % 65536 = sem_num + 1 := Nat.mod_eq_of_lt (by omega)
    rw [setall_fill_interval, if_pos (by omega), hv]
    simp only [hst, hmod]
    obtain ⟨filled, h1, h2, h3⟩ := ih (sem_num + 1) f (array.set sem_num (some semval))
      (by omega) (by rw [List.length_set]; omega) (by omega)
    refine ⟨filled, h1, by rw [h2, List.length_set], fun i => ?_⟩
    rw [h3 i, List.getElem?_set]
    split_ifs <;> first | rfl | (exfalso; omega)

theorem filter_length_le_one_tail {α : Type} (p : α → Bool) (t : α) (ts : List α)
    (h : ((t :: ts).filter p).length ≤ 1) :
    (ts.filter p).length ≤ 1 ∧ (p t = true → ∀ u ∈ ts, p u = false) := by
  by_cases ht : p t = true
  · rw [List.filter_cons_of_pos ht, List.length_cons] at h
    have h0 : ts.filter p = [] := List.length_eq_zero.mp (by omega)
    refine ⟨by omega, fun _ u hu => ?_⟩
    by_contra hn
    have hmem : u ∈ ts.filter p := List.mem_filter.mpr ⟨hu, by simpa using hn⟩
    rw [h0] at hmem
    simp at hmem
  · rw [List.filter_cons_of_neg ht] at h
    exact ⟨h, fun h1 => absurd h1 ht⟩

theorem setall_fill_spec (argv : List (List Char)) (toks : List interval_semval)
    (h : List.Forall₂ assigns argv toks) :
    ∀ array : List (Option Nat), array.length ≤ 65535 →
    (∀ t ∈ toks, t.upper < array.length) →
    (∀ i, (toks.filter fun t => decide (t.lower ≤ i ∧ i ≤ t.upper)).length ≤ 1) →
    ∃ filled, setall_fill argv array = .ok filled ∧ filled.length = array.length ∧
      ∀ i, (∀ t ∈ toks, t.lower ≤ i → i ≤ t.upper → filled[i]? = some (some t.semval)) ∧
        ((∀ t ∈ toks, ¬ (t.lower ≤ i ∧ i ≤ t.upper)) → filled[i]? = array[i]?) := by
  induction h with
  | nil =>
    intro array _ _ _
    exact ⟨array, rfl, rfl, fun i => ⟨fun t ht => absurd ht (List.not_mem_nil t), fun _ => rfl⟩⟩
  | @cons arg t argv toks hp _ ih =>
    intro array hlen hup hone
    obtain ⟨hi, hv⟩ := hp
    obtain ⟨hlu, -⟩ := get_interval_bounds arg '=' _ _ hi
    have htu := hup t (List.mem_cons_self t toks)
    obtain ⟨mid, h1, h2, h3⟩ := setall_fill_interval_spec arg t.semval t.upper hv (by omega)
      (t.upper + 1 - t.lower) t.lower 65537 array (by omega) htu (by omega)
    obtain ⟨filled, h4, h5, h6⟩ := ih mid (by omega)
      (fun u hu => by rw [h2]; exact hup u (List.mem_cons_of_mem t hu))
      (fun i => (filter_length_le_one_tail _ t toks (hone i)).1)
    refine ⟨filled, ?_, by rw [h5, h2], fun i => ⟨?_, ?_⟩⟩
    · rw [setall_fill, hi]
      simp only [h1]
      exact h4
    · intro u hu hl hr
      rcases List.mem_cons.mp hu with rfl | hu
      · have hnone := (filter_length_le_one_tail _ u toks (hone i)).2 (by simp [hl, hr])
        rw [(h6 i).2 fun w hw => by simpa using hnone w hw, h3 i, if_pos ⟨hl, hr⟩]
      · exact (h6 i).1 u hu hl hr
    · intro hnot
      rw [(h6 i).2 fun w hw => hnot w (List.mem_cons_of_mem t hw), h3 i,
        if_neg (hnot t (List.mem_cons_self t toks))]

theorem setall_fill_all_spec (semval : Nat) :
    ∀ (mid pre : List (Option Nat)),
    setall_fill_all semval mid.length pre.length (pre ++ mid) =
      .ok (pre ++ List.replicate mid.length (some semval)) := by
  intro mid
  induction mid with
  | nil => intro pre; simp [setall_fill_all]
  | cons x mid ih =>
    intro pre
    have hnext := ih (pre ++ [some semval])
    simp only [List.length_append, List.length_singleton, List.append_assoc,
      List.singleton_append] at hnext
    rw [List.length_cons, setall_fill_all, store_at]
    simp only [hnext, List.replicate_succ]

theorem get_unsigned_short_arg_of_decimal (s : List Char) (v : Int)
    (hv : is_decimal_integer s v) (h0 : 0 ≤ v) (h1 : v ≤ 65535) :
    get_unsigned_short_arg s = .ok v.toNat := by
  obtain ⟨ws, sg, ds, rfl, hws, hsg, hds, rfl⟩ := hv
  have hstart := starts_with_integer_signed_numeral sg ds [] hsg hds
  have hst := strtol_signed_numeral_in_long sg ds [] hsg hds isdigit_deref_nil
    (by simp only [LONG_MIN]; omega) (by simp only [LONG_MAX]; omega)
  have hw := strtol_white_space ws (sg ++ ds ++ []) hws hstart
  rw [hst] at hw
  simp only [List.append_nil] at hw
  have hlen : 0 < ds.length := List.length_pos.mpr hds.1
  unfold get_unsigned_short_arg
  rw [List.append_assoc, hw]
  simp only [USHRT_MAX, deref_nil, List.length_nil, List.length_append,
    cast_ushort_eq _ h0 h1]
  rw [if_neg (by simp; omega), if_neg (by omega)]

theorem strchr_decimal_integer (s : List Char) (v : Int) (hv : is_decimal_integer s v) :
    strchr s '=' = none := by
  obtain ⟨ws, sg, ds, rfl, hws, hsg, hds, -⟩ := hv
  have hnot : '=' ∉ ws ++ sg ++ ds := by
    intro hmem
    rcases List.mem_append.mp hmem with hmem | hmem
    · rcases List.mem_append.mp hmem with hmem | hmem
      · exact absurd (hws _ hmem) (by decide)
      · rcases hsg with rfl | rfl | rfl <;> revert hmem <;> decide
    · exact absurd (hds.2 _ hmem) (by decide)
  cases hc : strchr (ws ++ sg ++ ds) '=' with
  | none => rfl
  | some q =>
    exact absurd ((strchr_isSome_iff _ _).mp (by rw [hc]; rfl)) hnot

theorem filter_ranges_length (toks : List interval_semval) (i : Nat) :
    (toks.filter fun t => decide (t.lower ≤ i ∧ i ≤ t.upper)).length =
      ((toks.map fun t => (t.lower, t.upper)).filter
        fun r => decide (r.1 ≤ i ∧ i ≤ r.2)).length := by
  induction toks with
  | nil => rfl
  | cons t toks ih =>
    simp only [List.map_cons, List.filter_cons]
    split_ifs
    · rw [List.length_cons, List.length_cons, ih]
    · exact ih

theorem setall_partition_filled (operands : List (List Char)) (toks : List interval_semval)
    (N : Nat) (hN : N ≤ 65535) (hparse : List.Forall₂ assigns operands toks)
    (hne : operands ≠ [])
    (hpart : is_partition (toks.map fun t => (t.lower, t.upper)) N) :
    ∃ array, ipcmd_semctl_setall operands (.ok N) = .ok array ∧ array.length = N ∧
      ∀ i, i < N → ∃ t ∈ toks, (t.lower ≤ i ∧ i ≤ t.upper) ∧
        (∀ u ∈ toks, u.lower ≤ i → i ≤ u.upper → u = t) ∧
        array[i]? = some (some t.semval) := by
  have hup : ∀ t ∈ toks, t.upper < N := fun t ht =>
    (hpart.2 (t.lower, t.upper) (List.mem_map.mpr ⟨t, ht, rfl⟩)).2
  have h1N : 1 ≤ N := by
    cases hparse with
    | nil => exact absurd rfl hne
    | @cons a t _ ts _ _ => have := hup t (List.mem_cons_self t ts); omega
  have hranges : List.Forall₂ (fun a r => get_interval a '=' = .ok r) operands
      (toks.map fun t => (t.lower, t.upper)) :=
    List.forall₂_map_right_iff.mpr (hparse.imp fun _ _ h => h.1)
  have hfill := (setall_partition_accepted operands _ N hN hranges hpart).2 h1N
  have hone : ∀ i, (toks.filter fun t => decide (t.lower ≤ i ∧ i ≤ t.upper)).length ≤ 1 := by
    intro i
    by_cases hi : i < N
    · rw [filter_ranges_length, hpart.1 i hi]
    · have hnil : (toks.filter fun t => decide (t.lower ≤ i ∧ i ≤ t.upper)) = [] := by
        apply List.filter_eq_nil_iff.mpr
        intro t ht
        have := hup t ht
        simp only [decide_eq_true_eq]
        omega
      rw [hnil]
      exact Nat.zero_le 1
  obtain ⟨array, h1, h2, h3⟩ := setall_fill_spec operands toks hparse (malloc N)
    (by simp [malloc, hN]) (fun t ht => by simpa [malloc] using hup t ht) hone
  refine ⟨array, by rw [hfill, h1], by simpa [malloc] using h2, fun i hi => ?_⟩
  have hlen : (toks.filter fun t => decide (t.lower ≤ i ∧ i ≤ t.upper)).length = 1 := by
    rw [filter_ranges_length, hpart.1 i hi]
  obtain ⟨t, ht⟩ := List.length_eq_one.mp hlen
  have hmem : t ∈ toks.filter fun t => decide (t.lower ≤ i ∧ i ≤ t.upper) := by
    rw [ht]; exact List.mem_singleton_self t
  obtain ⟨htoks, hcont⟩ := List.mem_filter.mp hmem
  simp only [decide_eq_true_eq] at hcont
  refine ⟨t, htoks, hcont, fun u hu hl hr => ?_, (h3 i).1 t htoks hcont.1 hcont.2⟩
  have humem : u ∈ toks.filter fun t => decide (t.lower ≤ i ∧ i ≤ t.upper) :=
    List.mem_filter.mpr ⟨hu, by simp [hl, hr]⟩
  rw [ht] at humem
  exact List.mem_singleton.mp humem

theorem setall_single_value_filled (s : List Char) (V : Int) (N : Nat) (hN : N ≤ 65535)
    (hv : is_decimal_integer s V) (h0 : 0 ≤ V) (h1 : V ≤ 65535) :
    ipcmd_semctl_setall [s] (.ok N) = .ok (List.replicate N (some V.toNat)) := by
  have hcast : cast_ushort (cast_short (N : Int)) = N := by
    unfold cast_ushort cast_short; omega
  have hall := setall_fill_all_spec V.toNat (malloc N) []
  simp only [malloc, List.length_replicate, List.length_nil, List.nil_append] at hall
  unfold ipcmd_semctl_setall
  rw [if_neg (by simp)]
  simp only [hcast, List.headD_cons, List.length_singleton, strchr_decimal_integer s V hv,
    and_self, if_true, get_unsigned_short_arg_of_decimal s V hv h0 h1, malloc, hall]

/-- C24: on a set of N semaphores, N at most 65535, take interval arguments,
at least one, from each of which get_interval reads a range and
get_interval_semval a value, the ranges being a set-partition of [0, N) in any
order. Then the setall branch reaches the call of SETALL with an array of N
elements in which, for every i < N, the element i is the semval of the one
argument whose range holds i. With a single argument that is a decimal integer
of value V in [0, 65535], the array handed to SETALL has N elements, each of
them V. -/
theorem setall_array_values (N : Nat) (hN : N ≤ 65535) :
    (∀ (operands : List (List Char)) (toks : List interval_semval),
      List.Forall₂ assigns operands toks → operands ≠ [] →
      is_partition (toks.map fun t => (t.lower, t.upper)) N →
      ∃ array, ipcmd_semctl_setall operands (.ok N) = .ok array ∧ array.length = N ∧
        ∀ i, i < N → ∃ t ∈ toks, (t.lower ≤ i ∧ i ≤ t.upper) ∧
          (∀ u ∈ toks, u.lower ≤ i → i ≤ u.upper → u = t) ∧
          array[i]? = some (some t.semval)) ∧
    (∀ (s : List Char) (V : Int), is_decimal_integer s V → 0 ≤ V → V ≤ 65535 →
      ipcmd_semctl_setall [s] (.ok N) = .ok (List.replicate N (some V.toNat))) :=
  ⟨fun operands toks hparse hne hpart =>
     setall_partition_filled operands toks N hN hparse hne hpart,
   fun s V hv h0 h1 => setall_single_value_filled s V N hN hv h0 h1⟩

theorem setall_array_values_witness :
    (4 : Nat) ≤ 65535 ∧
    ipcmd_semctl_setall ["2:3=7".toList, "0:1=5".toList] (.ok 4) =
      .ok [some 5, some 5, some 7, some 7] ∧
    (∃ array, ipcmd_semctl_setall ["2:3=7".toList, "0:1=5".toList] (.ok 4) = .ok array ∧
      array.length = 4 ∧
      ∀ i, i < 4 → ∃ t ∈ [(⟨2, 3, 7⟩ : interval_semval), ⟨0, 1, 5⟩],
        (t.lower ≤ i ∧ i ≤ t.upper) ∧
        (∀ u ∈ [(⟨2, 3, 7⟩ : interval_semval), ⟨0, 1, 5⟩],
          u.lower ≤ i → i ≤ u.upper → u = t) ∧
        array[i]? = some (some t.semval)) ∧
    ipcmd_semctl_setall ["9".toList] (.ok 4) =
      .ok (List.replicate 4 (some (9 : Int).toNat)) :=
  ⟨by decide, by decide,
   (setall_array_values 4 (by decide)).1 ["2:3=7".toList, "0:1=5".toList]
     [⟨2, 3, 7⟩, ⟨0, 1, 5⟩]
     (List.Forall₂.cons (by decide) (List.Forall₂.cons (by decide) List.Forall₂.nil))
     (by decide) (by decide),
   (setall_array_values 4 (by decide)).2 "9".toList 9
     ⟨[], [], "9".toList, rfl, by simp, by decide, by decide, by decide⟩
     (by decide) (by decide)⟩

/-! ## The counter of the fill loop -/

theorem setall_fill_iterations_spec (sem_num_ubound : Nat) (hub : sem_num_ubound < 65535) :
    ∀ (k sem_num fuel iterations : Nat), sem_num + k = sem_num_ubound + 1 → k < fuel →
    setall_fill_iterations sem_num_ubound fuel sem_num iterations = some (iterations + k) := by
  intro k
  induction k with
  | zero =>
    intro sem_num fuel iterations hs hf
    obtain ⟨f, rfl⟩ : ∃ f, fuel = f + 1 := ⟨fuel - 1, by omega⟩
    rw [setall_fill_iterations, if_neg (by omega)]
    rfl
  | succ k ih =>
    intro sem_num fuel iterations hs hf
    obtain ⟨f, rfl⟩ : ∃ f, fuel = f + 1 := ⟨fuel - 1, by omega⟩
    have hmod : (sem_num + 1) % 65536 = sem_num + 1 := Nat.mod_eq_of_lt (by omega)
    rw [setall_fill_iterations, if_pos (by omega), hmod,
      ih (sem_num + 1) f (iterations + 1) (by omega) (by omega)]
    congr 1
    omega

theorem setall_fill_iterations_65535 :
    ∀ (fuel sem_num iterations : Nat), sem_num ≤ 65535 →
    setall_fill_iterations 65535 fuel sem_num iterations = none := by
  intro fuel
  induction fuel with
  | zero => intro _ _ _; rfl
  | succ fuel ih =>
    intro sem_num iterations h
    rw [setall_fill_iterations, if_pos h]
    exact ih _ _ (by omega)

theorem setall_fill_interval_65535 (arg : List Char) :
    ∀ (fuel sem_num : Nat) (array filled : List (Option Nat)), sem_num ≤ 65535 →
    setall_fill_interval arg 65535 fuel sem_num array ≠ .ok filled := by
  intro fuel
  induction fuel with
  | zero => intro _ _ _ _ h; simp [setall_fill_interval] at h
  | succ fuel ih =>
    intro sem_num array filled hs h
    rw [setall_fill_interval, if_pos hs] at h
    cases hv : get_interval_semval arg with
    | error e => rw [hv] at h; simp at h
    | ok semval =>
      rw [hv] at h
      simp only at h
      cases hst : store array sem_num semval with
      | error e => rw [hst] at h; simp at h
      | ok stored =>
        rw [hst] at h
        exact ih _ stored filled (by omega) h

theorem setall_fill_first_store (arg : List Char) (argv : List (List Char))
    (N lb ub semval : Nat) (hN : N ≤ 65535) (hg : get_interval arg '=' = .ok (lb, ub))
    (hv : get_interval_semval arg = .ok semval) (hlb : N ≤ lb)
    (hc : setall_check (arg :: argv) N = .ok ()) :
    ipcmd_semctl_setall (arg :: argv) (.ok N) = .error (.heap_overflow lb) := by
  have hcast : cast_ushort (cast_short (N : Int)) = N := by
    unfold cast_ushort cast_short; omega
  have hchr := get_interval_ok_strchr arg (lb, ub) hg
  obtain ⟨hlu, -⟩ := get_interval_bounds arg '=' lb ub hg
  have hst : store (malloc N : List (Option Nat)) lb semval = .error (.heap_overflow lb) := by
    unfold store malloc
    rw [if_neg (by rw [List.length_replicate]; omega)]
  have hloop : setall_fill_interval arg ub (65536 + 1) lb (malloc N) =
      .error (.heap_overflow lb) := by
    rw [setall_fill_interval, if_pos hlu, hv]
    simp only [hst]
  unfold ipcmd_semctl_setall
  rw [if_neg (by simp)]
  simp only [hcast, List.headD_cons, hchr, and_false, if_false, hc]
  rw [setall_fill, hg]
  simp only
  rw [show (65537 : Nat) = 65536 + 1 from rfl, hloop]

/-- C25, the code at a failing input: the argument 65535=1 has the range
65535:65535, and with the upper bound 65535 the condition sem_num <= 65535
holds for every value of the 16 bit counter, which goes from 65535 back to 0:
whatever number of tests of the condition is allowed, the loop does not come to
its end, and the fill loop of the model never returns an array. The range is
one the fill pass receives: on a set of 65535 semaphores the arguments 65535=1
0:65532=1 65532=1 pass the coverage check, and the first store of the loop, at
index 65535, is outside the array of 65535 elements. For every range with
upper bound at most 65534 the loop ends after upper - lower + 1 runs of its
body. -/
theorem setall_fill_loop_never_ends :
    get_interval "65535=1".toList '=' = .ok (65535, 65535) ∧
    (∀ fuel lower : Nat, lower ≤ 65535 →
      setall_fill_iterations 65535 fuel lower 0 = none) ∧
    (∀ (arg : List Char) (fuel lower : Nat) (array filled : List (Option Nat)),
      lower ≤ 65535 → setall_fill_interval arg 65535 fuel lower array ≠ .ok filled) ∧
    setall_check ["65535=1".toList, "0:65532=1".toList, "65532=1".toList] 65535 = .ok () ∧
    ipcmd_semctl_setall ["65535=1".toList, "0:65532=1".toList, "65532=1".toList]
      (.ok 65535) = .error (.heap_overflow 65535) ∧
    (∀ lower upper fuel : Nat, lower ≤ upper → upper ≤ 65534 → upper - lower + 1 < fuel →
      setall_fill_iterations upper fuel lower 0 = some (upper - lower + 1)) :=
  ⟨by decide,
   fun fuel lower h => setall_fill_iterations_65535 fuel lower 0 h,
   fun arg fuel lower array filled h => setall_fill_interval_65535 arg fuel lower array filled h,
   by decide,
   setall_fill_first_store "65535=1".toList ["0:65532=1".toList, "65532=1".toList]
     65535 65535 65535 1 (by decide) (by decide) (by decide) (le_refl _) (by decide),
   fun lower upper fuel hl hu hf => by
     have h := setall_fill_iterations_spec upper (by omega) (upper - lower + 1) lower fuel 0
       (by omega) hf
     rw [Nat.zero_add] at h
     exact h⟩

/-! ## Rejected operands and the calls of the kernel -/

theorem semop_whole_set_needs_short (sem_flg : Nat) (operand : List Char)
    (rest : List (List Char)) (stat : Except Failure Nat) (request : semop_request)
    (hform : (strchr operand '=').isSome = false)
    (h : ipcmd_semop_operands sem_flg (operand :: rest) stat = .ok request) :
    ∃ sem_op, get_short_arg operand = .ok sem_op := by
  unfold ipcmd_semop_operands at h
  simp only [hform, Bool.false_eq_true, if_false] at h
  by_cases husage : (if 2 < (operand :: rest).length ∧ (operand :: rest).getD 1 [] = [':']
      then 2 else 0) = 0 ∧ (operand :: rest).length ≠ 1
  · rw [if_pos husage] at h; simp at h
  · rw [if_neg husage] at h
    cases hg : get_short_arg operand with
    | error e => rw [hg] at h; simp at h
    | ok sem_op => exact ⟨sem_op, rfl⟩

theorem setall_ranged_ok_parses (operands : List (List Char)) (N : Nat)
    (array : List (Option Nat))
    (hform : ¬ (operands.length = 1 ∧ strchr (operands.headD []) '=' = none))
    (h : ipcmd_semctl_setall operands (.ok N) = .ok array) :
    setall_check operands (cast_ushort (cast_short (N : Int))) = .ok () ∧
    ∀ a ∈ operands, (∃ range, get_interval a '=' = .ok range) ∧
      ∃ v, get_interval_semval a = .ok v := by
  unfold ipcmd_semctl_setall at h
  by_cases hnil : operands = []
  · rw [if_pos hnil] at h; simp at h
  · rw [if_neg hnil] at h
    simp only at h
    rw [if_neg hform] at h
    cases hc : setall_check operands (cast_ushort (cast_short (N : Int))) with
    | error e => rw [hc] at h; simp at h
    | ok u =>
      rw [hc] at h
      simp only at h
      refine ⟨rfl, fun a ha => ⟨setall_check_ok operands _ hc a ha, ?_⟩⟩
      exact setall_fill_ok operands _ array h a ha

theorem setall_run_of_error (operands : List (List Char)) (N : Nat) (e : Failure)
    (set_fails : Bool) (hne : operands ≠ [])
    (h : ipcmd_semctl_setall operands (.ok N) = .error e) :
    ipcmd_semctl_setall_run operands (.ok N) set_fails =
      ⟨[.semctl_IPC_STAT], ending_of e⟩ := by
  unfold ipcmd_semctl_setall_run
  rw [if_neg hne]
  simp only [h]

theorem setall_check_error_run (operands : List (List Char)) (N : Nat) (e : Failure)
    (set_fails : Bool) (hne : operands ≠ [])
    (hform : ¬ (operands.length = 1 ∧ strchr (operands.headD []) '=' = none))
    (hc : setall_check operands (cast_ushort (cast_short (N : Int))) = .error e) :
    ipcmd_semctl_setall_run operands (.ok N) set_fails =
      ⟨[.semctl_IPC_STAT], .exit EXIT_FAILURE⟩ := by
  have h : ipcmd_semctl_setall operands (.ok N) = .error e := by
    unfold ipcmd_semctl_setall
    rw [if_neg hne]
    simp only
    rw [if_neg hform, hc]
  rw [setall_run_of_error operands N e set_fails hne h,
    setall_check_error_exit operands _ e hc]

theorem get_unsigned_short_arg_error_exit (arg : List Char) (e : Failure)
    (h : get_unsigned_short_arg arg = .error e) : ending_of e = .exit EXIT_FAILURE := by
  unfold get_unsigned_short_arg at h
  simp only at h
  split_ifs at h
  all_goals (cases h; rfl)

theorem get_interval_semval_error_exit (arg : List Char) (e : Failure)
    (h : get_interval_semval arg = .error e) : ending_of e = .exit EXIT_FAILURE := by
  unfold get_interval_semval at h
  cases hc : strchr arg '=' with
  | none => rw [hc] at h; cases h; rfl
  | some p =>
    rw [hc] at h
    simp only at h
    split_ifs at h
    all_goals (cases h; rfl)

theorem setall_fill_error_exit (argv : List (List Char)) :
    ∀ (array : List (Option Nat)) (e : Failure), array.length ≤ 65535 →
    (∀ a ∈ argv, ∀ lo up, get_interval a '=' = .ok (lo, up) → up < array.length) →
    setall_fill argv array = .error e → ending_of e = .exit EXIT_FAILURE := by
  induction argv with
  | nil => intro _ _ _ _ h; simp [setall_fill] at h
  | cons arg argv ih =>
    intro array e hlen hin h
    unfold setall_fill at h
    cases hg : get_interval arg '=' with
    | error e2 =>
      rw [hg] at h
      simp only [Except.error.injEq] at h
      subst h
      exact get_interval_error_exit arg '=' _ hg
    | ok range =>
      obtain ⟨lo, up⟩ := range
      rw [hg] at h
      simp only at h
      obtain ⟨hlu, -⟩ := get_interval_bounds arg '=' lo up hg
      have hup := hin arg (List.mem_cons_self arg argv) lo up hg
      cases hv : get_interval_semval arg with
      | error e2 =>
        have hloop : setall_fill_interval arg up (65536 + 1) lo array = .error e2 := by
          rw [setall_fill_interval, if_pos hlu, hv]
        rw [show (65537 : Nat) = 65536 + 1 from rfl, hloop] at h
        simp only [Except.error.injEq] at h
        subst h
        exact get_interval_semval_error_exit arg _ hv
      | ok semval =>
        obtain ⟨filled, h1, h2, -⟩ := setall_fill_interval_spec arg semval up hv (by omega)
          (up + 1 - lo) lo 65537 array (by omega) hup (by omega)
        rw [h1] at h
        simp only at h
        exact ih filled e (by omega)
          (fun a ha l u hr => by rw [h2]; exact hin a (List.mem_cons_of_mem arg ha) l u hr) h

theorem setall_ranged_error_exit (operands : List (List Char)) (N : Nat) (e : Failure)
    (hne : operands ≠ [])
    (hform : ¬ (operands.length = 1 ∧ strchr (operands.headD []) '=' = none))
    (hin : ∀ a ∈ operands, ∀ lo up, get_interval a '=' = .ok (lo, up) →
      up < cast_ushort (cast_short (N : Int)))
    (h : ipcmd_semctl_setall operands (.ok N) = .error e) :
    ending_of e = .exit EXIT_FAILURE := by
  unfold ipcmd_semctl_setall at h
  rw [if_neg hne] at h
  simp only at h
  rw [if_neg hform] at h
  cases hc : setall_check operands (cast_ushort (cast_short (N : Int))) with
  | error e2 =>
    rw [hc] at h
    simp only [Except.error.injEq] at h
    subst h
    exact setall_check_error_exit operands _ _ hc
  | ok u =>
    rw [hc] at h
    simp only at h
    exact setall_fill_error_exit operands _ e (by simp [malloc, cast_ushort_le])
      (fun a ha lo up hr => by simpa [malloc] using hin a ha lo up hr) h

/-- C19 amended: in every ipcmd semop or semctl setall invocation in which
parsing or validation reports an error, no kernel call that changes state
(semop, semctl with SETALL) is made. For ipcmd semop in the interval form, the
tokens being the operands before the first ":" after the first operand: when
get_interval or get_interval_sem_op rejects a token, the program exits with
EXIT_FAILURE and has made no kernel call at all; the same holds in the whole
set form when get_short_arg rejects the operand. For semctl setall with
interval arguments: when get_interval rejects an argument or the coverage check
fails, the program exits with EXIT_FAILURE and its only kernel call is the query
IPC_STAT for the size of the set, made before the operands are read; the same
holds when get_interval_semval rejects the value of an argument, the ranges
lying within the set; and in the single value form, when
get_unsigned_short_arg rejects the value, the program exits with EXIT_FAILURE
after IPC_STAT alone. -/
theorem malformed_found_before_state_change :
    (∀ (sem_flg : Nat) (first : List Char) (toks tail : List (List Char)) (N : Nat)
        (applied : semop_outcome) (launched : Bool),
      N ≤ 65535 → (strchr first '=').isSome = true → [':'] ∉ toks →
      (tail = [] ∨ ∃ cmd, tail = [':'] :: cmd) →
      (∃ a ∈ first :: toks, (∃ e, get_interval a '=' = .error e) ∨
        ∃ e, get_interval_sem_op a = .error e) →
      ipcmd_semop_run sem_flg (first :: (toks ++ tail)) (.ok N) applied launched =
        ⟨[], .exit EXIT_FAILURE⟩) ∧
    (∀ (sem_flg : Nat) (operand : List Char) (rest : List (List Char)) (N : Nat)
        (applied : semop_outcome) (launched : Bool),
      N ≤ 65535 → (strchr operand '=').isSome = false →
      (∃ e, get_short_arg operand = .error e) →
      ipcmd_semop_run sem_flg (operand :: rest) (.ok N) applied launched =
        ⟨[], .exit EXIT_FAILURE⟩) ∧
    (∀ (operands : List (List Char)) (N : Nat) (set_fails : Bool), operands ≠ [] →
      ¬ (operands.length = 1 ∧ strchr (operands.headD []) '=' = none) →
      ((∃ a ∈ operands, ∃ e, get_interval a '=' = .error e) ∨
        ∃ e, setall_check operands (cast_ushort (cast_short (N : Int))) = .error e) →
      ipcmd_semctl_setall_run operands (.ok N) set_fails =
        ⟨[.semctl_IPC_STAT], .exit EXIT_FAILURE⟩) ∧
    (∀ (operands : List (List Char)) (N : Nat) (set_fails : Bool), operands ≠ [] →
      ¬ (operands.length = 1 ∧ strchr (operands.headD []) '=' = none) →
      (∀ a ∈ operands, ∀ lo up, get_interval a '=' = .ok (lo, up) →
        up < cast_ushort (cast_short (N : Int))) →
      (∃ a ∈ operands, ∃ e, get_interval_semval a = .error e) →
      ipcmd_semctl_setall_run operands (.ok N) set_fails =
        ⟨[.semctl_IPC_STAT], .exit EXIT_FAILURE⟩) ∧
    (∀ (operand : List Char) (N : Nat) (set_fails : Bool), strchr operand '=' = none →
      (∃ e, get_unsigned_short_arg operand = .error e) →
      ipcmd_semctl_setall_run [operand] (.ok N) set_fails =
        ⟨[.semctl_IPC_STAT], .exit EXIT_FAILURE⟩) := by
  refine ⟨?_, ?_, ?_, ?_, ?_⟩
  · intro sem_flg first toks tail N applied launched hN hfirst hno htail hbad
    have hreq : ∀ command, ∃ e, semop_interval_request sem_flg (first :: toks) command =
        .error e := by
      intro command
      apply except_error_of_not_ok
      intro request hok
      obtain ⟨a, ha, hbad⟩ := hbad
      obtain ⟨⟨range, hr⟩, ⟨v, hv⟩⟩ :=
        semop_interval_request_ok sem_flg (first :: toks) command request hok a ha
      rcases hbad with ⟨e, he⟩ | ⟨e, he⟩
      · rw [hr] at he; simp at he
      · rw [hv] at he; simp at he
    have herr : ∃ e, ipcmd_semop_operands sem_flg (first :: (toks ++ tail)) (.ok N) =
        .error e := by
      rcases htail with rfl | ⟨cmd, rfl⟩
      · rw [List.append_nil, semop_interval_no_command sem_flg first toks (.ok N) hfirst hno]
        exact hreq none
      · rw [semop_interval_command sem_flg first toks cmd (.ok N) hfirst hno]
        by_cases hcmd : cmd = []
        · rw [if_pos hcmd]; exact ⟨_, rfl⟩
        · rw [if_neg hcmd]; exact hreq (some cmd)
    obtain ⟨e, he⟩ := herr
    exact ipcmd_semop_run_error sem_flg _ N hN e applied launched he
  · intro sem_flg operand rest N applied launched hN hform hbad
    have herr : ∃ e, ipcmd_semop_operands sem_flg (operand :: rest) (.ok N) = .error e := by
      apply except_error_of_not_ok
      intro request hok
      obtain ⟨sem_op, hs⟩ := semop_whole_set_needs_short sem_flg operand rest _ request hform hok
      obtain ⟨e, he⟩ := hbad
      rw [hs] at he; simp at he
    obtain ⟨e, he⟩ := herr
    exact ipcmd_semop_run_error sem_flg _ N hN e applied launched he
  · intro operands N set_fails hne hform hbad
    have herr : ∃ e, setall_check operands (cast_ushort (cast_short (N : Int))) = .error e := by
      rcases hbad with ⟨a, ha, e, he⟩ | h
      · apply except_error_of_not_ok
        intro u hok
        obtain ⟨range, hr⟩ := setall_check_ok operands _ hok a ha
        rw [hr] at he; simp at he
      · exact h
    obtain ⟨e, he⟩ := herr
    exact setall_check_error_run operands N e set_fails hne hform he
  · intro operands N set_fails hne hform hin hbad
    have herr : ∃ e, ipcmd_semctl_setall operands (.ok N) = .error e := by
      apply except_error_of_not_ok
      intro array hok
      obtain ⟨a, ha, e, he⟩ := hbad
      obtain ⟨-, v, hv⟩ := (setall_ranged_ok_parses operands N array hform hok).2 a ha
      rw [hv] at he; simp at he
    obtain ⟨e, he⟩ := herr
    rw [setall_run_of_error operands N e set_fails hne he,
      setall_ranged_error_exit operands N e hne hform hin he]
  · intro operand N set_fails hform hbad
    obtain ⟨e, he⟩ := hbad
    have h : ipcmd_semctl_setall [operand] (.ok N) = .error e := by
      unfold ipcmd_semctl_setall
      rw [if_neg (by simp)]
      simp only [List.length_singleton, List.headD_cons, hform, and_self, if_true, he]
    rw [setall_run_of_error [operand] N e set_fails (by simp) h,
      get_unsigned_short_arg_error_exit operand e he]

/-- Witness of C19 amended: ipcmd semop 0:1=3x (flags rejected), ipcmd semop
0=1 7:3=1 : ls (interval rejected) and ipcmd semop 5n (value rejected) on a set
of 3 make no kernel call; semctl setall x=1 (interval rejected), semctl setall
0:1=5 1:3=7 on a set of 4 (coverage check failed) and semctl setall 0:2=70000
(value rejected) make the call IPC_STAT only. -/
theorem malformed_found_before_state_change_witness :
    ipcmd_semop_run 0 ["0:1=3x".toList] (.ok 3) .success false =
      ⟨[], .exit EXIT_FAILURE⟩ ∧
    ipcmd_semop_run 0 ["0=1".toList, "7:3=1".toList, ":".toList, "ls".toList] (.ok 3)
      .success true = ⟨[], .exit EXIT_FAILURE⟩ ∧
    ipcmd_semop_run 0 ["5n".toList] (.ok 3) .success false = ⟨[], .exit EXIT_FAILURE⟩ ∧
    ipcmd_semctl_setall_run ["x=1".toList] (.ok 3) false =
      ⟨[.semctl_IPC_STAT], .exit EXIT_FAILURE⟩ ∧
    ipcmd_semctl_setall_run ["0:1=5".toList, "1:3=7".toList] (.ok 4) false =
      ⟨[.semctl_IPC_STAT], .exit EXIT_FAILURE⟩ ∧
    ipcmd_semctl_setall_run ["0:2=70000".toList] (.ok 3) false =
      ⟨[.semctl_IPC_STAT], .exit EXIT_FAILURE⟩ :=
  ⟨malformed_found_before_state_change.1 0 "0:1=3x".toList [] [] 3 .success false
     (by decide) (by decide) (by decide) (Or.inl rfl)
     ⟨"0:1=3x".toList, by decide, Or.inr ⟨.invalid_flags, by decide⟩⟩,
   malformed_found_before_state_change.1 0 "0=1".toList ["7:3=1".toList] [":".toList, "ls".toList]
     3 .success true (by decide) (by decide) (by decide) (Or.inr ⟨["ls".toList], rfl⟩)
     ⟨"7:3=1".toList, by decide, Or.inl ⟨.upper_below_lower, by decide⟩⟩,
   malformed_found_before_state_change.2.1 0 "5n".toList [] 3 .success false
     (by decide) (by decide) ⟨.invalid_short_argument, by decide⟩,
   malformed_found_before_state_change.2.2.1 ["x=1".toList] 3 false (by decide) (by decide)
     (Or.inl ⟨"x=1".toList, by decide, .invalid_argument, by decide⟩),
   malformed_found_before_state_change.2.2.1 ["0:1=5".toList, "1:3=7".toList] 4 false
     (by decide) (by decide) (Or.inr ⟨.invalid_number_of_semvals, by decide⟩),
   malformed_found_before_state_change.2.2.2.1 ["0:2=70000".toList] 3 false
     (by decide) (by decide)
     (fun a ha lo up hr => by
       have hg : get_interval "0:2=70000".toList '=' = .ok (0, 2) := by decide
       rw [List.mem_singleton.mp ha, hg] at hr
       simp only [Except.ok.injEq, Prod.mk.injEq] at hr
       obtain ⟨-, rfl⟩ := hr
       decide)
     ⟨"0:2=70000".toList, by decide, .semval_out_of_range, by decide⟩⟩

end Ipcmd
